import Mathlib

/-! Request validation and filter parsing of the Mainflux HTTP transports.

A shallow embedding of

* `things/api/things/http/requests.go`: the request types of the things service and
  their `validate` methods,
* `http/api/requests.go`: `publishReq.validate` of the HTTP adapter,
* `bootstrap/api/transport.go`: `parseFilter` and `contains`,

together with the parts of `github.com/gofrs/uuid`, `encoding/hex`, `net/url` and
`strings` these functions call.

Conventions of the embedding.

* A Go `string` is an immutable sequence of bytes: `GoString` is a list of byte values and
  the builtin `len` is the length of that list.  String constants are written `str "..."`,
  the UTF-8 bytes of the text.
* A Go `error` result is an `Option`: `none` is `nil`.
* A Go `map[string]T` is an association list read through `GoMap.get`; an assignment
  `m[k] = v` replaces the binding of `k`.
* A method with a pointer receiver returns the updated receiver next to its result.
-/

set_option maxRecDepth 100000

/-! ## Strings -/

/-- A Go string: a sequence of bytes. -/
abbrev GoString := List Nat

/-- The Go string constant with the given text: its UTF-8 encoding. -/
def str (s : String) : GoString := s.toUTF8.data.toList.map UInt8.toNat

/-- The builtin `len` on strings: the number of bytes. -/
def len (s : GoString) : Nat := s.length

/-- A byte constant written as a character, as in `t[8] != '-'`. -/
def byte (c : Char) : Nat := c.toNat

/-! ## `pkg/errors`: the sentinel errors returned by the validators -/

namespace errors

/-- The two sentinel errors of `pkg/errors` that the `validate` methods return. -/
inductive Error where
  | ErrAuthentication
  | ErrMalformedEntity
  deriving DecidableEq, Repr

end errors

open errors.Error

/-! ## `encoding/hex` -/

namespace hex

/-- The table `hextable = "0123456789abcdef"` of `encoding/hex`. -/
def hextable : GoString := str "0123456789abcdef"

/-- `fromHexChar`: the value of a hexadecimal digit, of either case. -/
def fromHexChar (c : Nat) : Option Nat :=
  if byte '0' ≤ c ∧ c ≤ byte '9' then some (c - byte '0')
  else if byte 'a' ≤ c ∧ c ≤ byte 'f' then some (c - byte 'a' + 10)
  else if byte 'A' ≤ c ∧ c ≤ byte 'F' then some (c - byte 'A' + 10)
  else none

/-- `hex.Decode(dst, src)`: the bytes written to `dst`, in order, and whether the call
returns an error.  Pairs of digits are decoded from the left; the first byte that is not a
hexadecimal digit stops the loop with `InvalidByteError`, and an odd length is `ErrLength`
once the complete pairs have been written. -/
def Decode : GoString → List Nat × Bool
  | a :: b :: rest =>
    match fromHexChar a with
    | none => ([], true)
    | some x =>
      match fromHexChar b with
      | none => ([], true)
      | some y =>
        let r := Decode rest
        (((x <<< 4) ||| y) :: r.1, r.2)
  | [_] => ([], true)
  | [] => ([], false)

/-- `hex.Encode(dst, src)`: two digits of `hextable` for every byte. -/
def Encode : List Nat → GoString
  | [] => []
  | v :: rest => hextable.getD (v >>> 4) 0 :: hextable.getD (v &&& 0x0f) 0 :: Encode rest

end hex

/-! ## `github.com/gofrs/uuid` -/

namespace uuid

/-- The type `UUID`, a `[16]byte`. -/
abbrev UUID := List Nat

/-- The zero value of `UUID`. -/
def Nil : UUID := List.replicate 16 0

/-- The state of a decoder: the bytes of the receiver written so far, from index 0, and
whether an error has been returned. -/
abbrev Decoded := List Nat × Bool

/-- The table `byteGroups` of the canonical form. -/
def byteGroups : List Nat := [8, 4, 4, 4, 12]

/-- The loop of `decodeCanonical` over `byteGroups`: skip the dash before every group but
the first, decode the group into the next bytes of the receiver, stop at the first error. -/
def decodeGroups : List Nat → Bool → GoString → Decoded
  | [], _, _ => ([], false)
  | g :: gs, first, src =>
    let src1 := if first then src else src.drop 1
    let r := hex.Decode (src1.take g)
    if r.2 then (r.1, true)
    else
      let rest := decodeGroups gs false (src1.drop g)
      (r.1 ++ rest.1, rest.2)

/-- `decodeCanonical`, on a text of 36 bytes. -/
def decodeCanonical (t : GoString) : Decoded :=
  if t.getD 8 0 ≠ byte '-' ∨ t.getD 13 0 ≠ byte '-' ∨ t.getD 18 0 ≠ byte '-' ∨
      t.getD 23 0 ≠ byte '-' then ([], true)
  else decodeGroups byteGroups true t

/-- `decodeHashLike`, on a text of 32 bytes. -/
def decodeHashLike (t : GoString) : Decoded := hex.Decode t

/-- `decodePlain`. -/
def decodePlain (t : GoString) : Decoded :=
  if len t = 32 then decodeHashLike t
  else if len t = 36 then decodeCanonical t
  else ([], true)

/-- `decodeBraced`. -/
def decodeBraced (t : GoString) : Decoded :=
  let l := len t
  if t.getD 0 0 ≠ byte '{' ∨ t.getD (l - 1) 0 ≠ byte '}' then ([], true)
  else decodePlain ((t.take (l - 1)).drop 1)

/-- `decodeURN`. -/
def decodeURN (t : GoString) : Decoded :=
  if t.take 9 ≠ str "urn:uuid:" then ([], true)
  else decodePlain (t.drop 9)

/-- `UnmarshalText`: dispatch on the length of the text. -/
def UnmarshalText (text : GoString) : Decoded :=
  if len text = 32 then decodeHashLike text
  else if len text = 34 ∨ len text = 38 then decodeBraced text
  else if len text = 36 then decodeCanonical text
  else if len text = 41 ∨ len text = 45 then decodeURN text
  else ([], true)

/-- `FromString`: the UUID left in the zero-initialised receiver by `UnmarshalText` and
whether an error is returned. -/
def FromString (input : GoString) : UUID × Bool :=
  let r := UnmarshalText input
  (r.1 ++ Nil.drop r.1.length, r.2)

/-- `UUID.String`: the canonical form `xxxxxxxx-xxxx-xxxx-xxxx-xxxxxxxxxxxx`. -/
def String (u : UUID) : GoString :=
  hex.Encode (u.take 4) ++ [byte '-'] ++
  hex.Encode ((u.drop 4).take 2) ++ [byte '-'] ++
  hex.Encode ((u.drop 6).take 2) ++ [byte '-'] ++
  hex.Encode ((u.drop 8).take 2) ++ [byte '-'] ++
  hex.Encode ((u.drop 10).take 6)

end uuid

/-! ## `messaging.Message` and `things.PageMetadata` -/

/-- Decoded JSON metadata, `map[string]interface{}`.  No validator reads it; the values
are kept in serialised form. -/
abbrev Metadata := List (GoString × GoString)

namespace messaging

/-- The message published through the HTTP adapter. -/
structure Message where
  Channel : GoString
  Subtopic : GoString
  Publisher : GoString
  Protocol : GoString
  Payload : List Nat
  Created : Int

end messaging

namespace things

/-- Modelled from the spec: the type `things.PageMetadata` is declared outside the files
at hand.  It carries the offset, the limit (a `uint64`), the name filter, the sort field
`Order` and the sort direction `Dir` that the validators read. -/
structure PageMetadata where
  Total : Nat
  Offset : Nat
  Limit : Nat
  Name : GoString
  Order : GoString
  Dir : GoString
  Metadata : Metadata
  Disconnected : Bool

/-! ## `things/api/things/http/requests.go` -/

def maxLimitSize : Nat := 100
def maxNameSize : Nat := 1024
def nameOrder : GoString := str "name"
def idOrder : GoString := str "id"
def ascDir : GoString := str "asc"
def descDir : GoString := str "desc"
def readPolicy : GoString := str "read"
def writePolicy : GoString := str "write"
def deletePolicy : GoString := str "delete"

/-- Modelled from the spec: the constant `defLimit` of the things HTTP package is declared
in a file that is not at hand; the configured default limit is 10. -/
def defLimit : Nat := 10

structure createThingReq where
  token : GoString
  Name : GoString
  Key : GoString
  ID : GoString
  Metadata : Metadata

/-- `validateUUID`: the text must parse and the parsed value must print back to it. -/
def validateUUID (extID : GoString) : Option errors.Error :=
  let r := uuid.FromString extID
  if uuid.String r.1 ≠ extID ∨ r.2 then some ErrMalformedEntity
  else none

def createThingReq.validate (req : createThingReq) : Option errors.Error :=
  if req.token = [] then some ErrAuthentication
  else if req.ID ≠ [] ∧ validateUUID req.ID ≠ none then some ErrMalformedEntity
  else if len req.Name > maxNameSize then some ErrMalformedEntity
  else none

structure createThingsReq where
  token : GoString
  Things : List createThingReq

/-- The loop `for _, thing := range req.Things` of `createThingsReq.validate`. -/
def createThingsReq.validateThings : List createThingReq → Option errors.Error
  | [] => none
  | thing :: rest =>
    if thing.ID ≠ [] ∧ validateUUID thing.ID ≠ none then some ErrMalformedEntity
    else if len thing.Name > maxNameSize then some ErrMalformedEntity
    else createThingsReq.validateThings rest

def createThingsReq.validate (req : createThingsReq) : Option errors.Error :=
  if req.token = [] then some ErrAuthentication
  else if req.Things.length ≤ 0 then some ErrMalformedEntity
  else createThingsReq.validateThings req.Things

structure shareThingReq where
  token : GoString
  thingID : GoString
  UserIDs : List GoString
  Policies : List GoString

/-- The loop `for _, p := range req.Policies` of `shareThingReq.validate`. -/
def shareThingReq.validatePolicies : List GoString → Option errors.Error
  | [] => none
  | p :: rest =>
    if p ≠ readPolicy ∧ p ≠ writePolicy ∧ p ≠ deletePolicy then some ErrMalformedEntity
    else shareThingReq.validatePolicies rest

def shareThingReq.validate (req : shareThingReq) : Option errors.Error :=
  if req.token = [] then some ErrAuthentication
  else if req.thingID = [] ∨ req.UserIDs.length = 0 ∨ req.Policies.length = 0 then
    some ErrMalformedEntity
  else shareThingReq.validatePolicies req.Policies

structure updateThingReq where
  token : GoString
  id : GoString
  Name : GoString
  Metadata : Metadata

def updateThingReq.validate (req : updateThingReq) : Option errors.Error :=
  if req.token = [] then some ErrAuthentication
  else if req.id = [] then some ErrMalformedEntity
  else if len req.Name > maxNameSize then some ErrMalformedEntity
  else none

structure updateKeyReq where
  token : GoString
  id : GoString
  Key : GoString

def updateKeyReq.validate (req : updateKeyReq) : Option errors.Error :=
  if req.token = [] then some ErrAuthentication
  else if req.id = [] ∨ req.Key = [] then some ErrMalformedEntity
  else none

structure createChannelReq where
  token : GoString
  Name : GoString
  ID : GoString
  Metadata : Metadata

def createChannelReq.validate (req : createChannelReq) : Option errors.Error :=
  if req.token = [] then some ErrAuthentication
  else if req.ID ≠ [] ∧ validateUUID req.ID ≠ none then some ErrMalformedEntity
  else if len req.Name > maxNameSize then some ErrMalformedEntity
  else none

structure createChannelsReq where
  token : GoString
  Channels : List createChannelReq

/-- The loop `for _, channel := range req.Channels` of `createChannelsReq.validate`. -/
def createChannelsReq.validateChannels : List createChannelReq → Option errors.Error
  | [] => none
  | channel :: rest =>
    if channel.ID ≠ [] ∧ validateUUID channel.ID ≠ none then some ErrMalformedEntity
    else if len channel.Name > maxNameSize then some ErrMalformedEntity
    else createChannelsReq.validateChannels rest

def createChannelsReq.validate (req : createChannelsReq) : Option errors.Error :=
  if req.token = [] then some ErrAuthentication
  else if req.Channels.length ≤ 0 then some ErrMalformedEntity
  else createChannelsReq.validateChannels req.Channels

structure updateChannelReq where
  token : GoString
  id : GoString
  Name : GoString
  Metadata : Metadata

def updateChannelReq.validate (req : updateChannelReq) : Option errors.Error :=
  if req.token = [] then some ErrAuthentication
  else if req.id = [] then some ErrMalformedEntity
  else if len req.Name > maxNameSize then some ErrMalformedEntity
  else none

structure viewResourceReq where
  token : GoString
  id : GoString

def viewResourceReq.validate (req : viewResourceReq) : Option errors.Error :=
  if req.token = [] then some ErrAuthentication
  else if req.id = [] then some ErrMalformedEntity
  else none

structure listResourcesReq where
  token : GoString
  pageMetadata : PageMetadata

/-- The first statement of `listResourcesReq.validate` after the token check: a zero limit
is replaced by `defLimit` in the receiver. -/
def listResourcesReq.withDefLimit (req : listResourcesReq) : listResourcesReq :=
  if req.pageMetadata.Limit = 0 then
    { req with pageMetadata := { req.pageMetadata with Limit := defLimit } }
  else req

/-- `listResourcesReq.validate` has a pointer receiver: the result is the request as the
call leaves it and the error returned. -/
def listResourcesReq.validate (req : listResourcesReq) :
    listResourcesReq × Option errors.Error :=
  if req.token = [] then (req, some ErrAuthentication)
  else
    let req := req.withDefLimit
    if req.pageMetadata.Limit > maxLimitSize then (req, some ErrMalformedEntity)
    else if len req.pageMetadata.Name > maxNameSize then (req, some ErrMalformedEntity)
    else if req.pageMetadata.Order ≠ [] ∧
        req.pageMetadata.Order ≠ nameOrder ∧ req.pageMetadata.Order ≠ idOrder then
      (req, some ErrMalformedEntity)
    else if req.pageMetadata.Dir ≠ [] ∧
        req.pageMetadata.Dir ≠ ascDir ∧ req.pageMetadata.Dir ≠ descDir then
      (req, some ErrMalformedEntity)
    else (req, none)

structure listByConnectionReq where
  token : GoString
  id : GoString
  pageMetadata : PageMetadata

def listByConnectionReq.validate (req : listByConnectionReq) : Option errors.Error :=
  if req.token = [] then some ErrAuthentication
  else if req.id = [] then some ErrMalformedEntity
  else if req.pageMetadata.Limit = 0 ∨ req.pageMetadata.Limit > maxLimitSize then
    some ErrMalformedEntity
  else if req.pageMetadata.Order ≠ [] ∧
      req.pageMetadata.Order ≠ nameOrder ∧ req.pageMetadata.Order ≠ idOrder then
    some ErrMalformedEntity
  else if req.pageMetadata.Dir ≠ [] ∧
      req.pageMetadata.Dir ≠ ascDir ∧ req.pageMetadata.Dir ≠ descDir then
    some ErrMalformedEntity
  else none

structure connectThingReq where
  token : GoString
  chanID : GoString
  thingID : GoString

def connectThingReq.validate (req : connectThingReq) : Option errors.Error :=
  if req.token = [] then some ErrAuthentication
  else if req.chanID = [] ∨ req.thingID = [] then some ErrMalformedEntity
  else none

structure connectReq where
  token : GoString
  ChannelIDs : List GoString
  ThingIDs : List GoString

/-- The two loops of `connectReq.validate`, over the channel and the thing identifiers:
an empty identifier is an error. -/
def connectReq.validateIDs : List GoString → Option errors.Error
  | [] => none
  | id :: rest => if id = [] then some ErrMalformedEntity else connectReq.validateIDs rest

def connectReq.validate (req : connectReq) : Option errors.Error :=
  if req.token = [] then some ErrAuthentication
  else if req.ChannelIDs.length = 0 ∨ req.ThingIDs.length = 0 then some ErrMalformedEntity
  else
    match connectReq.validateIDs req.ChannelIDs with
    | some e => some e
    | none => connectReq.validateIDs req.ThingIDs

structure listThingsGroupReq where
  token : GoString
  groupID : GoString
  pageMetadata : PageMetadata

def listThingsGroupReq.validate (req : listThingsGroupReq) : Option errors.Error :=
  if req.token = [] then some ErrAuthentication
  else if req.groupID = [] then some ErrMalformedEntity
  else if req.pageMetadata.Limit = 0 ∨ req.pageMetadata.Limit > maxLimitSize then
    some ErrMalformedEntity
  else if len req.pageMetadata.Name > maxNameSize then some ErrMalformedEntity
  else if req.pageMetadata.Order ≠ [] ∧
      req.pageMetadata.Order ≠ str "name" ∧ req.pageMetadata.Order ≠ str "id" then
    some ErrMalformedEntity
  else if req.pageMetadata.Dir ≠ [] ∧
      req.pageMetadata.Dir ≠ str "asc" ∧ req.pageMetadata.Dir ≠ str "desc" then
    some ErrMalformedEntity
  else none

end things

/-! ## `http/api/requests.go` -/

namespace httpadapter

structure publishReq where
  msg : messaging.Message
  token : GoString

def publishReq.validate (req : publishReq) : Option errors.Error :=
  if req.token = [] then some ErrAuthentication
  else none

end httpadapter

/-! ## All validated request types -/

/-- A request of any of the fifteen types that have a `validate` method. -/
inductive Request where
  | createThing (r : things.createThingReq)
  | createThings (r : things.createThingsReq)
  | shareThing (r : things.shareThingReq)
  | updateThing (r : things.updateThingReq)
  | updateKey (r : things.updateKeyReq)
  | createChannel (r : things.createChannelReq)
  | createChannels (r : things.createChannelsReq)
  | updateChannel (r : things.updateChannelReq)
  | viewResource (r : things.viewResourceReq)
  | listResources (r : things.listResourcesReq)
  | listByConnection (r : things.listByConnectionReq)
  | connectThing (r : things.connectThingReq)
  | connect (r : things.connectReq)
  | listThingsGroup (r : things.listThingsGroupReq)
  | publish (r : httpadapter.publishReq)

/-- The `token` field of a request. -/
def Request.token : Request → GoString
  | .createThing r => r.token
  | .createThings r => r.token
  | .shareThing r => r.token
  | .updateThing r => r.token
  | .updateKey r => r.token
  | .createChannel r => r.token
  | .createChannels r => r.token
  | .updateChannel r => r.token
  | .viewResource r => r.token
  | .listResources r => r.token
  | .listByConnection r => r.token
  | .connectThing r => r.token
  | .connect r => r.token
  | .listThingsGroup r => r.token
  | .publish r => r.token

/-- The error returned by the `validate` method of the request's type. -/
def Request.validate : Request → Option errors.Error
  | .createThing r => r.validate
  | .createThings r => r.validate
  | .shareThing r => r.validate
  | .updateThing r => r.validate
  | .updateKey r => r.validate
  | .createChannel r => r.validate
  | .createChannels r => r.validate
  | .updateChannel r => r.validate
  | .viewResource r => r.validate
  | .listResources r => r.validate.2
  | .listByConnection r => r.validate
  | .connectThing r => r.validate
  | .connect r => r.validate
  | .listThingsGroup r => r.validate
  | .publish r => r.validate

/-! ## Maps, `net/url` and `strings` -/

/-- A Go `map[string]α`: the binding of a key is the first pair that carries it. -/
abbrev GoMap (α : Type) := List (GoString × α)

/-- The lookup `m[k]`, with its presence flag: `none` when `k` is not a key. -/
def GoMap.get {α : Type} : GoMap α → GoString → Option α
  | [], _ => none
  | (k1, v) :: rest, k => if k1 = k then some v else GoMap.get rest k

/-- The assignment `m[k] = v`: the former binding of `k`, if any, is replaced. -/
def GoMap.set {α : Type} (m : GoMap α) (k : GoString) (v : α) : GoMap α :=
  (k, v) :: m.filter (fun e => decide (e.1 ≠ k))

/-- The keys of a map, each once. -/
def GoMap.keys {α : Type} : GoMap α → List GoString
  | [] => []
  | (k, _) :: rest => k :: (GoMap.keys rest).filter (fun k1 => decide (k1 ≠ k))

namespace url

/-- The type `url.Values`, a `map[string][]string`. -/
abbrev Values := GoMap (List GoString)

/-- `Values.Get`: the first value associated with the key, the empty string when there is
none. -/
def Values.Get (v : Values) (key : GoString) : GoString :=
  match GoMap.get v key with
  | none => []
  | some [] => []
  | some (x :: _) => x

end url

namespace strings

/-- `strings.ToLower`.  A string of ASCII bytes only is returned as it is when it has no
upper-case letter, and with `'a' - 'A'` added to every byte in `'A'..'Z'` otherwise.  A
string with a byte at or above `utf8.RuneSelf` takes the branch
`Map(unicode.ToLower, s)`, which reads the Unicode case tables: `mapLower` stands for it. -/
def ToLower (mapLower : GoString → GoString) (s : GoString) : GoString :=
  let isASCII := s.all (fun c => decide (c < 0x80))
  let hasUpper := s.any (fun c => decide (byte 'A' ≤ c ∧ c ≤ byte 'Z'))
  if isASCII then
    if !hasUpper then s
    else s.map (fun c => if byte 'A' ≤ c ∧ c ≤ byte 'Z' then c + (byte 'a' - byte 'A') else c)
  else mapLower s

end strings

/-! ## `bootstrap/api/transport.go`: `parseFilter` -/

namespace bootstrap

/-- Modelled from the spec: the type `bootstrap.Filter` is declared outside the files at
hand.  It holds two mappings, `FullMatch` (field to exact string) and `PartialMatch`
(field to lower-cased substring). -/
structure Filter where
  FullMatch : GoMap GoString
  PartialMatch : GoMap GoString

def fullMatch : List GoString :=
  [str "state", str "external_id", str "mainflux_id", str "mainflux_key"]

def partialMatch : List GoString := [str "name"]

/-- `contains`. -/
def contains : List GoString → GoString → Bool
  | [], _ => false
  | v :: rest, s => if v = s then true else contains rest s

/-- The body of the loop of `parseFilter` for the key `k`. -/
def parseFilter.step (mapLower : GoString → GoString) (values : url.Values)
    (ret : Filter) (k : GoString) : Filter :=
  let ret :=
    if contains fullMatch k then
      { ret with FullMatch := ret.FullMatch.set k (values.Get k) }
    else ret
  if contains partialMatch k then
    { ret with PartialMatch := ret.PartialMatch.set k (strings.ToLower mapLower (values.Get k)) }
  else ret

/-- `parseFilter` with the order in which `for k := range values` visits the keys made
explicit: Go leaves the iteration order of a map unspecified. -/
def parseFilterIn (mapLower : GoString → GoString) (order : List GoString)
    (values : url.Values) : Filter :=
  order.foldl (parseFilter.step mapLower values) { FullMatch := [], PartialMatch := [] }

/-- `parseFilter`, visiting the keys in the order of the association list. -/
def parseFilter (mapLower : GoString → GoString) (values : url.Values) : Filter :=
  parseFilterIn mapLower (GoMap.keys values) values

end bootstrap

/-! ## Vocabulary of the specification and sample inputs -/

namespace things

/-- The sort fields the specification allows: unset, `name` or `id`. -/
def allowedOrder (o : GoString) : Prop := o = [] ∨ o = str "name" ∨ o = str "id"

/-- The sort directions the specification allows: unset, `asc` or `desc`. -/
def allowedDir (d : GoString) : Prop := d = [] ∨ d = str "asc" ∨ d = str "desc"

/-- The sharing policies the specification allows: `read`, `write` or `delete`. -/
def allowedPolicy (p : GoString) : Prop := p = str "read" ∨ p = str "write" ∨ p = str "delete"

instance (o : GoString) : Decidable (allowedOrder o) := by unfold allowedOrder; infer_instance
instance (d : GoString) : Decidable (allowedDir d) := by unfold allowedDir; infer_instance
instance (p : GoString) : Decidable (allowedPolicy p) := by unfold allowedPolicy; infer_instance

/-- Page metadata with the given limit, name, sort field and direction. -/
def page (limit : Nat) (name order dir : GoString) : PageMetadata :=
  { Total := 0, Offset := 0, Limit := limit, Name := name, Order := order, Dir := dir,
    Metadata := [], Disconnected := false }

/-- The request with every field but the limit copied, as `req.pageMetadata.Limit = l`
leaves it. -/
def listResourcesReq.setLimit (req : listResourcesReq) (l : Nat) : listResourcesReq :=
  { req with pageMetadata := { req.pageMetadata with Limit := l } }

def listByConnectionReq.setLimit (req : listByConnectionReq) (l : Nat) :
    listByConnectionReq :=
  { req with pageMetadata := { req.pageMetadata with Limit := l } }

def listThingsGroupReq.setLimit (req : listThingsGroupReq) (l : Nat) : listThingsGroupReq :=
  { req with pageMetadata := { req.pageMetadata with Limit := l } }

/-- A thing request with no token, a malformed identifier and an oversized name. -/
def sampleBadThing : createThingReq :=
  { token := [], Name := List.replicate 2000 97, Key := [], ID := str "not-a-uuid",
    Metadata := [] }

end things

/-! ## The canonical textual form of a UUID, in the words of the specification -/

namespace uuid

/-- A lower-case hexadecimal digit: `0` to `9` or `a` to `f`. -/
def isLowerHex (c : Nat) : Bool :=
  decide ((byte '0' ≤ c ∧ c ≤ byte '9') ∨ (byte 'a' ≤ c ∧ c ≤ byte 'f'))

/-- The text matches the pattern byte for byte: a hyphen where the pattern has one, a
lower-case hexadecimal digit elsewhere, and the same length. -/
def matchesPattern : GoString → GoString → Bool
  | [], [] => true
  | p :: ps, c :: cs =>
    (if p = byte '-' then decide (c = byte '-') else isLowerHex c) && matchesPattern ps cs
  | _, _ => false

/-- A canonical UUID string: 36 characters, lower-case hexadecimal digits in groups of
8, 4, 4, 4 and 12 separated by hyphens. -/
def isCanonical (s : GoString) : Bool :=
  matchesPattern (str "xxxxxxxx-xxxx-xxxx-xxxx-xxxxxxxxxxxx") s

end uuid

namespace uuid

/-- The text of a list of digit values: the entry of `hextable` for each. -/
def digits (xs : List Nat) : GoString := xs.map (fun x => hex.hextable.getD x 0)

end uuid

namespace bootstrap

/-- The parameters of the query
`name=Foo&name=Bar&state=1&offset=5&limit=20&external_id=Ab`. -/
def sampleQuery : url.Values :=
  [(str "name", [str "Foo", str "Bar"]), (str "state", [str "1"]),
   (str "offset", [str "5"]), (str "limit", [str "20"]), (str "external_id", [str "Ab"])]

end bootstrap

/-! ## `pkg/errors`: error values, kinds and wrapping -/

namespace errors

/-- Modelled from the spec: the package `pkg/errors` is not among the files at hand.  A
domain error is a classified error kind, an immutable tag, plus a human-readable message.
The kinds are named after the sentinel errors the transports test for; the last three
named ones are sentinels of the bootstrap package, and `other` is any kind that no
transport names. -/
inductive Kind where
  | ErrUnsupportedContentType
  | ErrInvalidQueryParams
  | ErrMalformedEntity
  | ErrNotFound
  | ErrAuthentication
  | ErrAuthorization
  | ErrConflict
  | ErrCreateEntity
  | ErrUpdateEntity
  | ErrViewEntity
  | ErrRemoveEntity
  | ErrExternalKey
  | ErrExternalKeySecure
  | ErrThings
  | other (name : GoString)
  deriving DecidableEq, Repr

/-- Modelled from the spec: a non-nil value of the Go type `error` as the transports meet
it.  It is a raw error that is not an `errors.Error` (such as the parse error of
`encoding/json`), a domain error with its kind and message, or a domain error that wraps
an underlying error. -/
inductive GoError where
  | raw (text : GoString)
  | domain (kind : Kind) (msg : GoString)
  | wrap (kind : Kind) (msg : GoString) (err : GoError)
  deriving DecidableEq, Repr

/-- Modelled from the spec: `errors.Contains(err, sentinel)`, whether the error is
classified under the kind of the sentinel, by its own tag or by the tag of an error it
wraps.  A raw error has no kind. -/
def Contains : GoError → Kind → Bool
  | .raw _, _ => false
  | .domain k _, k1 => decide (k = k1)
  | .wrap k _ err, k1 => decide (k = k1) || Contains err k1

/-- Modelled from the spec: the type assertion `err.(errors.Error)` followed by `Msg()`:
the structured message of the error, when it carries one. -/
def GoError.Msg : GoError → Option GoString
  | .raw _ => none
  | .domain _ msg => some msg
  | .wrap _ msg _ => some msg

/-- Modelled from the spec: `errors.Wrap(wrapper, err)`, an error with the kind and the
message of the wrapper that wraps `err`. -/
def Wrap : GoError → GoError → GoError
  | .raw text, err => .wrap (.other text) text err
  | .domain k msg, err => .wrap k msg err
  | .wrap k msg _, err => .wrap k msg err

/-- Modelled from the spec: the sentinel `errors.ErrUnsupportedContentType`; the spec
quotes its message. -/
def GoError.ErrUnsupportedContentType : GoError :=
  .domain .ErrUnsupportedContentType (str "unsupported content type")

/-- Modelled from the spec: the sentinel `errors.ErrMalformedEntity`. -/
def GoError.ErrMalformedEntity : GoError :=
  .domain .ErrMalformedEntity (str "malformed entity specification")

/-- Modelled from the spec: the sentinel `errors.ErrAuthentication`. -/
def GoError.ErrAuthentication : GoError :=
  .domain .ErrAuthentication (str "failed to perform authentication over the entity")

/-- Modelled from the spec: the sentinel `errors.ErrInvalidQueryParams`. -/
def GoError.ErrInvalidQueryParams : GoError :=
  .domain .ErrInvalidQueryParams (str "invalid query parameters")

end errors

/-! ## `strings`, `net/http` and `encoding/json` -/

namespace strings

/-- `strings.HasPrefix`. -/
def HasPrefix : GoString → GoString → Bool
  | _, [] => true
  | [], _ :: _ => false
  | c :: s, d :: p => decide (c = d) && HasPrefix s p

/-- `strings.Contains`: whether `substr` occurs within `s`. -/
def Contains : GoString → GoString → Bool
  | [], substr => HasPrefix [] substr
  | c :: s, substr => HasPrefix (c :: s) substr || Contains s substr

end strings

namespace textproto

/-- `validHeaderFieldByte`: the bytes allowed in a header field name, the letters, the
digits and the marks of an RFC 7230 token. -/
def validHeaderFieldByte (c : Nat) : Bool :=
  decide ((byte 'a' ≤ c ∧ c ≤ byte 'z') ∨ (byte 'A' ≤ c ∧ c ≤ byte 'Z') ∨
    (byte '0' ≤ c ∧ c ≤ byte '9') ∨
    c ∈ [33, 35, 36, 37, 38, 39, 42, 43, 45, 46, 94, 95, 96, 124, 126])

/-- The second loop of `canonicalMIMEHeaderKey`: a letter at the start or after a dash is
made upper case, every other letter lower case; `upper` tells whether the previous byte
was a dash. -/
def canonicalCase : Bool → GoString → GoString
  | _, [] => []
  | upper, c :: rest =>
    let c1 :=
      if upper = true ∧ byte 'a' ≤ c ∧ c ≤ byte 'z' then c - (byte 'a' - byte 'A')
      else if upper = false ∧ byte 'A' ≤ c ∧ c ≤ byte 'Z' then c + (byte 'a' - byte 'A')
      else c
    c1 :: canonicalCase (decide (c1 = byte '-')) rest

/-- `canonicalMIMEHeaderKey`: a name with a byte that is not allowed in a field name is
returned unchanged, any other name is put in canonical case. -/
def canonicalMIMEHeaderKey (a : GoString) : GoString :=
  if a.all validHeaderFieldByte then canonicalCase true a else a

/-- The quick check of `CanonicalMIMEHeaderKey`: whether the loop meets a letter in the
wrong case before it meets a byte that is not allowed in a field name. -/
def needsCanonical : Bool → GoString → Bool
  | _, [] => false
  | upper, c :: rest =>
    if !validHeaderFieldByte c then false
    else if upper = true ∧ byte 'a' ≤ c ∧ c ≤ byte 'z' then true
    else if upper = false ∧ byte 'A' ≤ c ∧ c ≤ byte 'Z' then true
    else needsCanonical (decide (c = byte '-')) rest

/-- `textproto.CanonicalMIMEHeaderKey`: the canonical form of a header name, such as
`Content-Type` for `content-type`. -/
def CanonicalMIMEHeaderKey (s : GoString) : GoString :=
  if needsCanonical true s then canonicalMIMEHeaderKey s else s

end textproto

namespace http

def StatusOK : Nat := 200
def StatusBadRequest : Nat := 400
def StatusUnauthorized : Nat := 401
def StatusForbidden : Nat := 403
def StatusNotFound : Nat := 404
def StatusConflict : Nat := 409
def StatusUnsupportedMediaType : Nat := 415
def StatusInternalServerError : Nat := 500
def StatusServiceUnavailable : Nat := 503

/-- The type `http.Header`, a `map[string][]string`; header names are kept in their
canonical form. -/
abbrev Header := GoMap (List GoString)

/-- `Header.Get`: the first value of the header, the empty string when there is none. -/
def Header.Get (h : Header) (key : GoString) : GoString :=
  match GoMap.get h key with
  | none => []
  | some [] => []
  | some (x :: _) => x

/-- The parts of an `http.Request` the decoders read: the headers, the body and the
path parameters that `bone.GetValue` returns. -/
structure Request where
  Header : Header
  Body : List Nat
  PathParams : GoMap GoString

end http

namespace bone

/-- `bone.GetValue`: the path parameter of the given name, empty when there is none. -/
def GetValue (r : http.Request) (key : GoString) : GoString :=
  match GoMap.get r.PathParams key with
  | none => []
  | some v => v

end bone

namespace httputil

/-- Modelled from the spec: the error envelope `httputil.ErrorRes`, whose JSON form is
`{"error": <message>}`. -/
structure ErrorRes where
  Err : GoString
  deriving DecidableEq, Repr

def BearerPrefix : GoString := str "Bearer "

/-- Modelled from the spec: `httputil.ExtractAuthToken` pulls the bearer credential out
of the `Authorization` header and fails with an authentication error when the header is
absent or lacks the `Bearer ` start. -/
def ExtractAuthToken (r : http.Request) : Except errors.GoError GoString :=
  let token := r.Header.Get (str "Authorization")
  if strings.HasPrefix token BearerPrefix then .ok (token.drop BearerPrefix.length)
  else .error errors.GoError.ErrAuthentication

end httputil

namespace http

/-- What one call of `Write` puts on the wire: the bytes handed to `w.Write`, the line
that `json.Encoder.Encode` writes for an error envelope, or the line it writes for a
response whose JSON serialization is `doc`. -/
inductive Written where
  | raw (b : List Nat)
  | errorRes (e : httputil.ErrorRes)
  | encoded (doc : GoString)
  deriving DecidableEq, Repr

/-- A call made on an `http.ResponseWriter`: `w.Header().Set(key, value)`,
`w.WriteHeader(code)`, or a `w.Write` that succeeded. -/
inductive Call where
  | SetHeader (key value : GoString)
  | WriteHeader (code : Nat)
  | Write (p : Written)
  deriving DecidableEq, Repr

/-- An `http.ResponseWriter`: the calls made on it so far, in order, and whether the
connection is broken, in which case every `Write` returns an error. -/
structure ResponseWriter where
  calls : List Call
  broken : Bool
  deriving DecidableEq, Repr

/-- `w.Header().Set(key, value)`. -/
def ResponseWriter.SetHeader (w : ResponseWriter) (key value : GoString) : ResponseWriter :=
  { w with calls := w.calls ++ [Call.SetHeader key value] }

/-- `w.WriteHeader(code)`. -/
def ResponseWriter.WriteHeader (w : ResponseWriter) (code : Nat) : ResponseWriter :=
  { w with calls := w.calls ++ [Call.WriteHeader code] }

/-- `w.Write`: the writer after the call, and whether the call succeeded. -/
def ResponseWriter.Write (w : ResponseWriter) (p : Written) : ResponseWriter × Bool :=
  if w.broken then (w, false)
  else ({ w with calls := w.calls ++ [Call.Write p] }, true)

/-- The status of the response: the code of the first `WriteHeader`, or 200 when a
`Write` comes before any `WriteHeader`; later calls of `WriteHeader` change nothing. -/
def statusSent : List Call → Option Nat
  | [] => none
  | Call.WriteHeader code :: _ => some code
  | Call.Write _ :: _ => some StatusOK
  | Call.SetHeader _ _ :: rest => statusSent rest

/-- The codes of all calls of `WriteHeader`, in order. -/
def statusCalls : List Call → List Nat
  | [] => []
  | Call.WriteHeader code :: rest => code :: statusCalls rest
  | _ :: rest => statusCalls rest

/-- The body of the response: what the calls of `Write` wrote, in order. -/
def body : List Call → List Written
  | [] => []
  | Call.Write p :: rest => p :: body rest
  | _ :: rest => body rest

/-- The header map after the calls of `Set` that come before the status is written,
started from `h`.  `Header.Set` stores the value under the canonical form of the name, so
a later `Set` of a name with the same canonical form replaces an earlier one. -/
def headerSentFrom (h : GoMap GoString) : List Call → GoMap GoString
  | [] => h
  | Call.SetHeader key value :: rest =>
    headerSentFrom (GoMap.set h (textproto.CanonicalMIMEHeaderKey key) value) rest
  | _ :: _ => h

/-- The headers of the response, by canonical name: those set before the status is
written. -/
def headerSent (calls : List Call) : GoMap GoString := headerSentFrom [] calls

end http

/-! ## Responses and `encoding/json` -/

namespace mainflux

/-- Modelled from the spec: the interface `mainflux.Response`, the rich response
capability: a custom status code, custom headers and an empty-body flag. -/
structure Response where
  Code : Nat
  Headers : GoMap GoString
  Empty : Bool
  deriving DecidableEq, Repr

end mainflux

/-- A value passed to an encoder as `response interface{}`, through what the encoders ask
of it: the result of the type assertion `response.(mainflux.Response)`, the result of the
type assertion `response.([]byte)`, and its JSON serialization, `none` when `json.Marshal`
fails on it. -/
structure EndpointResponse where
  rich : Option mainflux.Response
  bytes : Option (List Nat)
  marshal : Option GoString
  deriving DecidableEq, Repr

namespace json

/-- `json.NewEncoder(w).Encode(httputil.ErrorRes{...})`: the envelope always serializes,
so the call fails only when the write fails.  The result is the writer after the call and
whether the call succeeded. -/
def EncodeErrorRes (w : http.ResponseWriter) (e : httputil.ErrorRes) :
    http.ResponseWriter × Bool :=
  w.Write (http.Written.errorRes e)

/-- `json.NewEncoder(w).Encode(response)`: nothing is written when the serialization
fails, otherwise the serialization is written in one call of `Write`. -/
def Encode (w : http.ResponseWriter) (response : EndpointResponse) :
    http.ResponseWriter × Bool :=
  match response.marshal with
  | none => (w, false)
  | some doc => w.Write (http.Written.encoded doc)

end json

/-! ## `bootstrap/api/transport.go`: decoders, encoders and the error mapper -/

namespace bootstrap

def contentType : GoString := str "application/json"

/-- Modelled from the spec: the request types of the bootstrap API are declared outside
the files at hand.  Each holds the credential, the path identifier where the endpoint has
one, and the payload decoded from the body, of a type `P` left open. -/
structure addReq (P : Type) where
  token : GoString
  payload : P

structure updateReq (P : Type) where
  key : GoString
  id : GoString
  payload : P

structure updateCertReq (P : Type) where
  key : GoString
  thingID : GoString
  payload : P

structure updateConnReq (P : Type) where
  key : GoString
  id : GoString
  payload : P

structure changeStateReq (P : Type) where
  key : GoString
  id : GoString
  payload : P

/-- `decodeAddRequest`.  `dec` stands for `json.NewDecoder(r.Body).Decode(&req)`: the
payload read from the body, or the text of the parse error of `encoding/json`, which is
not an `errors.Error`. -/
def decodeAddRequest {P : Type} (dec : List Nat → Except GoString P) (r : http.Request) :
    Except errors.GoError (addReq P) :=
  if !strings.Contains (r.Header.Get (str "Content-Type")) contentType then
    .error errors.GoError.ErrUnsupportedContentType
  else
    match httputil.ExtractAuthToken r with
    | .error err => .error err
    | .ok t =>
      match dec r.Body with
      | .error err => .error (errors.Wrap errors.GoError.ErrMalformedEntity (.raw err))
      | .ok p => .ok { token := t, payload := p }

/-- `decodeUpdateRequest`. -/
def decodeUpdateRequest {P : Type} (dec : List Nat → Except GoString P) (r : http.Request) :
    Except errors.GoError (updateReq P) :=
  if !strings.Contains (r.Header.Get (str "Content-Type")) contentType then
    .error errors.GoError.ErrUnsupportedContentType
  else
    match httputil.ExtractAuthToken r with
    | .error err => .error err
    | .ok t =>
      match dec r.Body with
      | .error err => .error (errors.Wrap errors.GoError.ErrMalformedEntity (.raw err))
      | .ok p => .ok { key := t, id := bone.GetValue r (str "id"), payload := p }

/-- `decodeUpdateCertRequest`. -/
def decodeUpdateCertRequest {P : Type} (dec : List Nat → Except GoString P)
    (r : http.Request) : Except errors.GoError (updateCertReq P) :=
  if !strings.Contains (r.Header.Get (str "Content-Type")) contentType then
    .error errors.GoError.ErrUnsupportedContentType
  else
    match httputil.ExtractAuthToken r with
    | .error err => .error err
    | .ok t =>
      match dec r.Body with
      | .error err => .error (errors.Wrap errors.GoError.ErrMalformedEntity (.raw err))
      | .ok p => .ok { key := t, thingID := bone.GetValue r (str "id"), payload := p }

/-- `decodeUpdateConnRequest`. -/
def decodeUpdateConnRequest {P : Type} (dec : List Nat → Except GoString P)
    (r : http.Request) : Except errors.GoError (updateConnReq P) :=
  if !strings.Contains (r.Header.Get (str "Content-Type")) contentType then
    .error errors.GoError.ErrUnsupportedContentType
  else
    match httputil.ExtractAuthToken r with
    | .error err => .error err
    | .ok t =>
      match dec r.Body with
      | .error err => .error (errors.Wrap errors.GoError.ErrMalformedEntity (.raw err))
      | .ok p => .ok { key := t, id := bone.GetValue r (str "id"), payload := p }

/-- `decodeStateRequest`. -/
def decodeStateRequest {P : Type} (dec : List Nat → Except GoString P) (r : http.Request) :
    Except errors.GoError (changeStateReq P) :=
  if !strings.Contains (r.Header.Get (str "Content-Type")) contentType then
    .error errors.GoError.ErrUnsupportedContentType
  else
    match httputil.ExtractAuthToken r with
    | .error err => .error err
    | .ok t =>
      match dec r.Body with
      | .error err => .error (errors.Wrap errors.GoError.ErrMalformedEntity (.raw err))
      | .ok p => .ok { key := t, id := bone.GetValue r (str "id"), payload := p }

/-- The loop `for k, v := range ar.Headers()` of `encodeResponse`, over the header names
in the order the loop visits them. -/
def setHeaders (headers : GoMap GoString) :
    List GoString → http.ResponseWriter → http.ResponseWriter
  | [], w => w
  | k :: rest, w =>
    match GoMap.get headers k with
    | none => setHeaders headers rest w
    | some v => setHeaders headers rest (w.SetHeader k v)

/-- `encodeResponse` with the order in which the loop visits the custom headers made
explicit.  The result is the writer after the call and whether the call succeeded, that
is, returned a nil error. -/
def encodeResponseIn (order : List GoString) (w : http.ResponseWriter)
    (response : EndpointResponse) : http.ResponseWriter × Bool :=
  let w := w.SetHeader (str "Content-Type") contentType
  match response.rich with
  | some ar =>
    let w := setHeaders ar.Headers order w
    let w := w.WriteHeader ar.Code
    if ar.Empty then (w, true)
    else json.Encode w response
  | none => json.Encode w response

/-- `encodeResponse`, visiting the custom headers in the order of the association
list. -/
def encodeResponse (w : http.ResponseWriter) (response : EndpointResponse) :
    http.ResponseWriter × Bool :=
  match response.rich with
  | some ar => encodeResponseIn (GoMap.keys ar.Headers) w response
  | none => encodeResponseIn [] w response

/-- `encodeSecureRes`. -/
def encodeSecureRes (w : http.ResponseWriter) (response : EndpointResponse) :
    http.ResponseWriter × Bool :=
  let w := w.SetHeader (str "Content-Type") contentType
  let w := w.WriteHeader http.StatusOK
  match response.bytes with
  | some b =>
    let r := w.Write (http.Written.raw b)
    if !r.2 then (r.1, false) else (r.1, true)
  | none => (w, true)

/-- The `switch` of `encodeError`: the status written for the error. -/
def encodeError.switch (err : errors.GoError) (w : http.ResponseWriter) :
    http.ResponseWriter :=
  if errors.Contains err .ErrUnsupportedContentType then
    w.WriteHeader http.StatusUnsupportedMediaType
  else if errors.Contains err .ErrInvalidQueryParams ||
      errors.Contains err .ErrMalformedEntity then
    w.WriteHeader http.StatusBadRequest
  else if errors.Contains err .ErrNotFound then
    w.WriteHeader http.StatusNotFound
  else if errors.Contains err .ErrAuthentication then
    w.WriteHeader http.StatusUnauthorized
  else if errors.Contains err .ErrExternalKey ||
      errors.Contains err .ErrExternalKeySecure ||
      errors.Contains err .ErrAuthorization then
    w.WriteHeader http.StatusForbidden
  else if errors.Contains err .ErrConflict then
    w.WriteHeader http.StatusConflict
  else if errors.Contains err .ErrThings then
    w.WriteHeader http.StatusServiceUnavailable
  else if errors.Contains err .ErrCreateEntity ||
      errors.Contains err .ErrUpdateEntity ||
      errors.Contains err .ErrViewEntity ||
      errors.Contains err .ErrRemoveEntity then
    w.WriteHeader http.StatusInternalServerError
  else
    w.WriteHeader http.StatusInternalServerError

/-- `encodeError`: the writer after the call. -/
def encodeError (err : errors.GoError) (w : http.ResponseWriter) : http.ResponseWriter :=
  let w := encodeError.switch err w
  match err.Msg with
  | some msg =>
    let w := w.SetHeader (str "Content-Type") contentType
    let r := json.EncodeErrorRes w { Err := msg }
    if !r.2 then r.1.WriteHeader http.StatusInternalServerError else r.1
  | none => w

end bootstrap

/-! ## `provision/api/transport.go` -/

namespace provision

def contentType : GoString := str "application/json"

/-- Modelled from the spec: the request type `provisionReq` is declared outside the files
at hand.  It holds the credential and the payload decoded from the body. -/
structure provisionReq (P : Type) where
  token : GoString
  payload : P

/-- `encodeResponse` with the order in which the loop visits the custom headers made
explicit. -/
def encodeResponseIn (order : List GoString) (w : http.ResponseWriter)
    (response : EndpointResponse) : http.ResponseWriter × Bool :=
  let w := w.SetHeader (str "Content-Type") contentType
  match response.rich with
  | some ar =>
    let w := bootstrap.setHeaders ar.Headers order w
    let w := w.WriteHeader ar.Code
    if ar.Empty then (w, true)
    else json.Encode w response
  | none => json.Encode w response

/-- `encodeResponse`, visiting the custom headers in the order of the association
list. -/
def encodeResponse (w : http.ResponseWriter) (response : EndpointResponse) :
    http.ResponseWriter × Bool :=
  match response.rich with
  | some ar => encodeResponseIn (GoMap.keys ar.Headers) w response
  | none => encodeResponseIn [] w response

/-- `decodeProvisionRequest`.  `dec` stands for `json.NewDecoder(r.Body).Decode(&req)`,
as in the bootstrap decoders; its error is returned as it is. -/
def decodeProvisionRequest {P : Type} (dec : List Nat → Except GoString P)
    (r : http.Request) : Except errors.GoError (provisionReq P) :=
  if r.Header.Get (str "Content-Type") ≠ contentType then
    .error errors.GoError.ErrUnsupportedContentType
  else
    match httputil.ExtractAuthToken r with
    | .error err => .error err
    | .ok t =>
      match dec r.Body with
      | .error err => .error (.raw err)
      | .ok p => .ok { token := t, payload := p }

/-- The `switch` of `encodeError`: the status written for the error. -/
def encodeError.switch (err : errors.GoError) (w : http.ResponseWriter) :
    http.ResponseWriter :=
  if errors.Contains err .ErrUnsupportedContentType then
    w.WriteHeader http.StatusUnsupportedMediaType
  else if errors.Contains err .ErrMalformedEntity then
    w.WriteHeader http.StatusBadRequest
  else if errors.Contains err .ErrConflict then
    w.WriteHeader http.StatusConflict
  else if errors.Contains err .ErrAuthentication then
    w.WriteHeader http.StatusUnauthorized
  else
    w.WriteHeader http.StatusInternalServerError

/-- `encodeError`: the writer after the call. -/
def encodeError (err : errors.GoError) (w : http.ResponseWriter) : http.ResponseWriter :=
  let w := encodeError.switch err w
  match err.Msg with
  | some msg =>
    let w := w.SetHeader (str "Content-Type") contentType
    let r := json.EncodeErrorRes w { Err := msg }
    if !r.2 then r.1.WriteHeader http.StatusInternalServerError else r.1
  | none => w

end provision

/-! ## The error table of the specification and helper vocabulary -/

namespace errors

/-- The status the table of the specification gives for every kind; a kind outside the
table gets 500. -/
def statusTable : Kind → Nat
  | .ErrUnsupportedContentType => 415
  | .ErrMalformedEntity => 400
  | .ErrInvalidQueryParams => 400
  | .ErrNotFound => 404
  | .ErrAuthentication => 401
  | .ErrAuthorization => 403
  | .ErrExternalKey => 403
  | .ErrExternalKeySecure => 403
  | .ErrConflict => 409
  | .ErrThings => 503
  | .ErrCreateEntity => 500
  | .ErrUpdateEntity => 500
  | .ErrViewEntity => 500
  | .ErrRemoveEntity => 500
  | .other _ => 500

/-- The error is classified under the kind `k` and under no other kind. -/
def GoError.hasSingleKind (err : GoError) (k : Kind) : Prop :=
  ∀ k1, Contains err k1 = true ↔ k1 = k

end errors

namespace bootstrap

/-- The code that the `switch` of `encodeError` hands to `WriteHeader`. -/
def statusOf (err : errors.GoError) : Nat :=
  if errors.Contains err .ErrUnsupportedContentType then http.StatusUnsupportedMediaType
  else if errors.Contains err .ErrInvalidQueryParams ||
      errors.Contains err .ErrMalformedEntity then http.StatusBadRequest
  else if errors.Contains err .ErrNotFound then http.StatusNotFound
  else if errors.Contains err .ErrAuthentication then http.StatusUnauthorized
  else if errors.Contains err .ErrExternalKey ||
      errors.Contains err .ErrExternalKeySecure ||
      errors.Contains err .ErrAuthorization then http.StatusForbidden
  else if errors.Contains err .ErrConflict then http.StatusConflict
  else if errors.Contains err .ErrThings then http.StatusServiceUnavailable
  else http.StatusInternalServerError

/-- The calls `encodeError` makes after the `switch`: none for an error without a
structured message; otherwise the content type is set and the envelope is written, or,
when the write fails, `WriteHeader` is called again with 500. -/
def envelopeCalls (err : errors.GoError) (broken : Bool) : List http.Call :=
  match err.Msg with
  | none => []
  | some msg =>
    if broken then
      [http.Call.SetHeader (str "Content-Type") (str "application/json"),
        http.Call.WriteHeader 500]
    else
      [http.Call.SetHeader (str "Content-Type") (str "application/json"),
        http.Call.Write (http.Written.errorRes { Err := msg })]

/-- The entries of a filter written back as query parameters: every key of `FullMatch`
and of `PartialMatch` with its stored value. -/
def Filter.toValues (f : Filter) : url.Values :=
  f.FullMatch.map (fun e => (e.1, [e.2])) ++ f.PartialMatch.map (fun e => (e.1, [e.2]))

/-- Two filters are equal: they bind the same keys to the same values in both
mappings. -/
def Filter.same (f g : Filter) : Prop :=
  ∀ k, GoMap.get f.FullMatch k = GoMap.get g.FullMatch k ∧
    GoMap.get f.PartialMatch k = GoMap.get g.PartialMatch k

/-- A writer on which nothing has been called yet. -/
def freshWriter (broken : Bool) : http.ResponseWriter := { calls := [], broken := broken }

end bootstrap

namespace provision

/-- The code that the `switch` of `encodeError` hands to `WriteHeader`. -/
def statusOf (err : errors.GoError) : Nat :=
  if errors.Contains err .ErrUnsupportedContentType then http.StatusUnsupportedMediaType
  else if errors.Contains err .ErrMalformedEntity then http.StatusBadRequest
  else if errors.Contains err .ErrConflict then http.StatusConflict
  else if errors.Contains err .ErrAuthentication then http.StatusUnauthorized
  else http.StatusInternalServerError

end provision

namespace bootstrap

/-- The calls of `Set` made by the loop over the custom headers, in the order the loop
visits the header names. -/
def headerCalls (headers : GoMap GoString) (order : List GoString) : List http.Call :=
  order.filterMap (fun k => (GoMap.get headers k).map (http.Call.SetHeader k))

/-- The value the response carries for the canonical header name `k` once the loop has
set the custom headers in the given order, where `acc` is the value before the loop: the
value of the last custom header whose name has the canonical form `k`, if there is one. -/
def sentValue (headers : GoMap GoString) (k : GoString) :
    List GoString → Option GoString → Option GoString
  | [], acc => acc
  | a :: rest, acc =>
    match GoMap.get headers a with
    | some v =>
      if textproto.CanonicalMIMEHeaderKey a = k then sentValue headers k rest (some v)
      else sentValue headers k rest acc
    | none => sentValue headers k rest acc

/-- The calls of `Write` made by `json.Encoder.Encode` for a response: none when the
serialization or the write fails. -/
def encodeCalls (response : EndpointResponse) (broken : Bool) : List http.Call :=
  match response.marshal with
  | none => []
  | some doc => if broken then [] else [http.Call.Write (http.Written.encoded doc)]

end bootstrap

/-! ## Sample requests and responses -/

namespace bootstrap

/-- A request with the given `Content-Type` and `Authorization` headers and body. -/
def sampleRequest (ct auth : GoString) (body : List Nat) : http.Request :=
  { Header := [(str "Content-Type", [ct]), (str "Authorization", [auth])],
    Body := body, PathParams := [(str "id", str "cfg1")] }

/-- A request without a `Content-Type` header. -/
def sampleBareRequest : http.Request :=
  { Header := [(str "Authorization", [str "Bearer tok"])], Body := [], PathParams := [] }

/-- A body decoder that accepts nothing: every body is a syntax error. -/
def rejectAll : List Nat → Except GoString Unit :=
  fun _ => .error (str "unexpected end of JSON input")

/-- A body decoder that accepts everything. -/
def acceptAll : List Nat → Except GoString Unit :=
  fun _ => .ok ()

end bootstrap

namespace bootstrap

/-- A rich response with status 201, a `Location` header and an empty body. -/
def sampleCreated : EndpointResponse :=
  { rich := some { Code := 201,
                   Headers := [(str "Location", str "/things/configs/1")],
                   Empty := true },
    bytes := none, marshal := some (str "\x7b\x7d") }

/-- A rich response whose only custom header is `content-type: text/plain`, the name in
lower case. -/
def sampleTextual : EndpointResponse :=
  { rich := some { Code := 200,
                   Headers := [(str "content-type", str "text/plain")],
                   Empty := false },
    bytes := none, marshal := some (str "\"ok\"") }

/-- A plain response with a JSON serialization. -/
def samplePlain : EndpointResponse :=
  { rich := none, bytes := none, marshal := some (str "\x7b\"id\":\"1\"\x7d") }

/-- A response that is a sequence of bytes. -/
def sampleSecret : EndpointResponse :=
  { rich := none, bytes := some [1, 2, 3, 255], marshal := some (str "\"AQID/w==\"") }

end bootstrap

/-! ## Receivers of the `validate` methods -/

/-- The request as a call of its `validate` method leaves it.  `listResourcesReq.validate`
has a pointer receiver and may assign to the receiver; every other `validate` method has a
value receiver, works on a copy and leaves the request of the caller as it was. -/
def Request.afterValidate : Request → Request
  | .listResources r => .listResources r.validate.1
  | .createThing r => .createThing r
  | .createThings r => .createThings r
  | .shareThing r => .shareThing r
  | .updateThing r => .updateThing r
  | .updateKey r => .updateKey r
  | .createChannel r => .createChannel r
  | .createChannels r => .createChannels r
  | .updateChannel r => .updateChannel r
  | .viewResource r => .viewResource r
  | .listByConnection r => .listByConnection r
  | .connectThing r => .connectThing r
  | .connect r => .connect r
  | .listThingsGroup r => .listThingsGroup r
  | .publish r => .publish r

namespace things

/-- A listing of resources with a token, no limit and a sort field that is not allowed. -/
def sampleUnsortedList : listResourcesReq :=
  { token := str "tok", pageMetadata := page 0 (str "dev") (str "created") [] }

end things

/-! ## Theorems -/

open things

/-! ### C1: authentication takes precedence -/

/-- C1: for a request of any of the fifteen validated types, whatever its other fields
hold, an empty token makes `validate` return exactly `ErrAuthentication`. -/
theorem validate_empty_token (r : Request) (h : r.token = []) :
    r.validate = some ErrAuthentication := by
  cases r <;>
    simp only [Request.token] at h <;>
    simp [Request.validate, createThingReq.validate, createThingsReq.validate,
      shareThingReq.validate, updateThingReq.validate, updateKeyReq.validate,
      createChannelReq.validate, createChannelsReq.validate, updateChannelReq.validate,
      viewResourceReq.validate, listResourcesReq.validate, listByConnectionReq.validate,
      connectThingReq.validate, connectReq.validate, listThingsGroupReq.validate,
      httpadapter.publishReq.validate, h]

/-- C1 at a thing request that has no token, a malformed identifier and a name of 2000
bytes: the result is `ErrAuthentication`, neither `ErrMalformedEntity` nor `nil`. -/
theorem validate_empty_token_witness :
    (Request.createThing sampleBadThing).token = [] ∧
    (Request.createThing sampleBadThing).validate = some ErrAuthentication ∧
    (Request.createThing sampleBadThing).validate ≠ some ErrMalformedEntity ∧
    (Request.createThing sampleBadThing).validate ≠ none := by
  have h := validate_empty_token (Request.createThing sampleBadThing) rfl
  refine ⟨rfl, h, ?_, ?_⟩ <;> rw [h] <;> decide

/-! ### C2: the limit ceiling -/

/-- C2: with a non-empty token (and identifier), a limit above 100 makes the three list
validators return `ErrMalformedEntity`, and `listResourcesReq.validate` leaves the limit
as it was rather than clamping it; a limit of exactly 100 gives the same result as any
other limit from 1 to 100. -/
theorem list_limit_ceiling :
    (∀ r : listResourcesReq, r.token ≠ [] → r.pageMetadata.Limit > 100 →
      r.validate = (r, some ErrMalformedEntity)) ∧
    (∀ r : listByConnectionReq, r.token ≠ [] → r.id ≠ [] → r.pageMetadata.Limit > 100 →
      r.validate = some ErrMalformedEntity) ∧
    (∀ r : listThingsGroupReq, r.token ≠ [] → r.groupID ≠ [] →
      r.pageMetadata.Limit > 100 → r.validate = some ErrMalformedEntity) ∧
    (∀ (r : listResourcesReq) (l : Nat), 1 ≤ l → l ≤ 100 →
      (r.setLimit 100).validate.2 = (r.setLimit l).validate.2) ∧
    (∀ (r : listByConnectionReq) (l : Nat), 1 ≤ l → l ≤ 100 →
      (r.setLimit 100).validate = (r.setLimit l).validate) ∧
    (∀ (r : listThingsGroupReq) (l : Nat), 1 ≤ l → l ≤ 100 →
      (r.setLimit 100).validate = (r.setLimit l).validate) := by
  refine ⟨?_, ?_, ?_, ?_, ?_, ?_⟩
  · intro r ht hl
    have h0 : r.pageMetadata.Limit ≠ 0 := by omega
    simp [listResourcesReq.validate, listResourcesReq.withDefLimit, ht, h0, maxLimitSize, hl]
  · intro r ht hi hl
    simp [listByConnectionReq.validate, ht, hi, maxLimitSize, hl]
  · intro r ht hi hl
    simp [listThingsGroupReq.validate, ht, hi, maxLimitSize, hl]
  · intro r l h1 h2
    have h0 : l ≠ 0 := by omega
    have h3 : ¬ (100 < l) := by omega
    simp [listResourcesReq.validate, listResourcesReq.withDefLimit, listResourcesReq.setLimit,
      maxLimitSize, h0, h3]
    split_ifs <;> rfl
  · intro r l h1 h2
    have h0 : l ≠ 0 := by omega
    have h3 : ¬ (100 < l) := by omega
    simp [listByConnectionReq.validate, listByConnectionReq.setLimit, maxLimitSize, h0, h3]
  · intro r l h1 h2
    have h0 : l ≠ 0 := by omega
    have h3 : ¬ (100 < l) := by omega
    simp [listThingsGroupReq.validate, listThingsGroupReq.setLimit, maxLimitSize, h0, h3]

/-- C2 at the limits 101 and 100 of a listing by connection: 101 is rejected, 100 is
accepted. -/
theorem list_limit_ceiling_witness :
    listByConnectionReq.validate
      { token := str "tok", id := str "ch", pageMetadata := page 101 [] [] [] }
      = some ErrMalformedEntity ∧
    listByConnectionReq.validate
      { token := str "tok", id := str "ch", pageMetadata := page 100 [] [] [] } = none :=
  ⟨list_limit_ceiling.2.1 _ (by decide) (by decide) (by decide), by decide⟩

/-! ### C3: the default limit -/

/-- C3, counterexample: a listing by connection with a token, an identifier, no sort
field or direction and a zero limit is rejected with `ErrMalformedEntity`, and so is the
same listing of a group: the limit is not defaulted to 10 by these two validators. -/
theorem zero_limit_not_defaulted :
    listByConnectionReq.validate
      { token := str "tok", id := str "ch", pageMetadata := page 0 [] [] [] }
      = some ErrMalformedEntity ∧
    listThingsGroupReq.validate
      { token := str "tok", groupID := str "gr", pageMetadata := page 0 [] [] [] }
      = some ErrMalformedEntity := by
  constructor <;> decide

/-- C3, amended: `listResourcesReq.validate` with a non-empty token, a name of at most
1024 bytes and an allowed sort field and direction turns a zero limit into `defLimit`,
which is 10, and succeeds, changing nothing else; `listByConnectionReq.validate` and
`listThingsGroupReq.validate` with a non-empty token and identifier reject a zero limit
with `ErrMalformedEntity`. -/
theorem zero_limit_default :
    (∀ r : listResourcesReq, r.token ≠ [] → r.pageMetadata.Limit = 0 →
      len r.pageMetadata.Name ≤ 1024 → allowedOrder r.pageMetadata.Order →
      allowedDir r.pageMetadata.Dir →
      r.validate = (r.setLimit 10, none) ∧ r.validate.1.pageMetadata.Limit = 10 ∧
        defLimit = 10) ∧
    (∀ r : listByConnectionReq, r.token ≠ [] → r.id ≠ [] → r.pageMetadata.Limit = 0 →
      r.validate = some ErrMalformedEntity) ∧
    (∀ r : listThingsGroupReq, r.token ≠ [] → r.groupID ≠ [] → r.pageMetadata.Limit = 0 →
      r.validate = some ErrMalformedEntity) := by
  refine ⟨?_, ?_, ?_⟩
  · intro r ht hl hn ho hd
    have hn1 : ¬ (1024 < len r.pageMetadata.Name) := by omega
    have key : r.validate = (r.setLimit 10, none) := by
      rcases ho with ho | ho | ho <;> rcases hd with hd | hd | hd <;>
        simp [listResourcesReq.validate, listResourcesReq.withDefLimit,
          listResourcesReq.setLimit, ht, hl, hn1, ho, hd, defLimit, maxLimitSize,
          maxNameSize, nameOrder, idOrder, ascDir, descDir]
    refine ⟨key, ?_, rfl⟩
    rw [key]; rfl
  · intro r ht hi hl
    simp [listByConnectionReq.validate, ht, hi, hl]
  · intro r ht hi hl
    simp [listThingsGroupReq.validate, ht, hi, hl]

/-- C3, amended, at a listing of resources with a zero limit: it succeeds with the limit
set to 10. -/
theorem zero_limit_default_witness :
    (listResourcesReq.validate
      { token := str "tok", pageMetadata := page 0 (str "dev") (str "name") (str "asc") }).2
      = none ∧
    (listResourcesReq.validate
      { token := str "tok", pageMetadata := page 0 (str "dev") (str "name") (str "asc")
      }).1.pageMetadata.Limit = 10 := by
  have h := zero_limit_default.1
    { token := str "tok", pageMetadata := page 0 (str "dev") (str "name") (str "asc") }
    (by decide) rfl (by decide) (by decide) (by decide)
  exact ⟨by rw [h.1], h.2.1⟩

/-! ### C4: client-supplied identifiers -/

namespace uuid

theorem byte_vals :
    byte '0' = 48 ∧ byte '9' = 57 ∧ byte 'a' = 97 ∧ byte 'f' = 102 ∧ byte 'A' = 65 ∧
      byte 'F' = 70 ∧ byte '-' = 45 := by decide

/-- A digit value returned by `fromHexChar` is below 16. -/
theorem fromHexChar_lt {c x : Nat} (h : hex.fromHexChar c = some x) : x < 16 := by
  obtain ⟨h0, h9, ha, hf, hA, hF, -⟩ := byte_vals
  unfold hex.fromHexChar at h
  rw [h0, h9, ha, hf, hA, hF] at h
  split_ifs at h <;> simp at h <;> omega

/-- Two digit values combine to a byte. -/
theorem nibbles_lt : ∀ x < 16, ∀ y < 16, (x <<< 4) ||| y < 256 := by decide

/-- Every byte written by `hex.Decode` is below 256. -/
theorem Decode_lt (src : GoString) : ∀ b ∈ (hex.Decode src).1, b < 256 := by
  induction src using hex.Decode.induct with
  | case1 a b rest h1 => simp [hex.Decode, h1]
  | case2 a b rest x h1 h2 => simp [hex.Decode, h1, h2]
  | case3 a b rest x h1 y h2 ih =>
    intro v hv
    simp only [hex.Decode, h1, h2, List.mem_cons] at hv
    rcases hv with hv | hv
    · rw [hv]; exact nibbles_lt x (fromHexChar_lt h1) y (fromHexChar_lt h2)
    · exact ih v hv
  | case4 a => simp [hex.Decode]
  | case5 => simp [hex.Decode]

/-- Every byte written by the loop over the groups is below 256. -/
theorem decodeGroups_lt (gs : List Nat) :
    ∀ (first : Bool) (src : GoString), ∀ b ∈ (decodeGroups gs first src).1, b < 256 := by
  induction gs with
  | nil => intro first src b hb; simp [decodeGroups] at hb
  | cons g gs ih =>
    intro first src b hb
    simp only [decodeGroups] at hb
    split_ifs at hb <;>
      first
      | exact Decode_lt _ b hb
      | (rcases List.mem_append.mp hb with hb | hb
         · exact Decode_lt _ b hb
         · exact ih _ _ b hb)

theorem decodeCanonical_lt (t : GoString) : ∀ b ∈ (decodeCanonical t).1, b < 256 := by
  intro b hb
  unfold decodeCanonical at hb
  split_ifs at hb
  · simp at hb
  · exact decodeGroups_lt _ _ _ b hb

theorem decodePlain_lt (t : GoString) : ∀ b ∈ (decodePlain t).1, b < 256 := by
  intro b hb
  unfold decodePlain at hb
  split_ifs at hb
  · exact Decode_lt _ b hb
  · exact decodeCanonical_lt _ b hb
  · simp at hb

/-- Every byte written by `UnmarshalText` is below 256, whether it succeeds or not. -/
theorem UnmarshalText_lt (t : GoString) : ∀ b ∈ (UnmarshalText t).1, b < 256 := by
  intro b hb
  unfold UnmarshalText at hb
  split_ifs at hb
  · exact Decode_lt _ b hb
  · unfold decodeBraced at hb
    simp only at hb
    split_ifs at hb
    · simp at hb
    · exact decodePlain_lt _ b hb
  · exact decodeCanonical_lt _ b hb
  · unfold decodeURN at hb
    split_ifs at hb
    · simp at hb
    · exact decodePlain_lt _ b hb
  · simp at hb

/-- The UUID returned by `FromString` has at least 16 bytes, each below 256. -/
theorem FromString_bytes (s : GoString) :
    16 ≤ (FromString s).1.length ∧ ∀ b ∈ (FromString s).1, b < 256 := by
  constructor
  · simp only [FromString, Nil, List.length_append, List.length_drop, List.length_replicate]
    omega
  · intro b hb
    simp only [FromString, Nil] at hb
    rcases List.mem_append.mp hb with hb | hb
    · exact UnmarshalText_lt s b hb
    · have := List.mem_of_mem_drop hb
      rw [List.eq_of_mem_replicate this]; omega

/-- Both digits printed for a byte are lower-case hexadecimal digits. -/
theorem encode_digits : ∀ b < 256,
    isLowerHex (hex.hextable.getD (b >>> 4) 0) = true ∧
      isLowerHex (hex.hextable.getD (b &&& 0x0f) 0) = true := by decide

end uuid

namespace uuid

/-- A lower-case digit is the entry of `hextable` for the value `fromHexChar` gives it. -/
theorem lowerHex_value : ∀ c, isLowerHex c = true →
    ∃ x, x < 16 ∧ c = hex.hextable.getD x 0 ∧ hex.fromHexChar c = some x := by
  have small : ∀ c < 103, isLowerHex c = true →
      ∃ x, x < 16 ∧ c = hex.hextable.getD x 0 ∧ hex.fromHexChar c = some x := by decide
  intro c hc
  have hlt : c < 103 := by
    obtain ⟨h0, h9, ha, hf, -, -, -⟩ := byte_vals
    simp only [isLowerHex, h0, h9, ha, hf, decide_eq_true_eq] at hc
    omega
  exact small c hlt hc

/-- Printing the byte made of two digit values gives back the two digits. -/
theorem encode_nibbles : ∀ x < 16, ∀ y < 16,
    hex.hextable.getD (((x <<< 4) ||| y) >>> 4) 0 = hex.hextable.getD x 0 ∧
      hex.hextable.getD (((x <<< 4) ||| y) &&& 0x0f) 0 = hex.hextable.getD y 0 := by decide

theorem Nil_eq : Nil = [0, 0, 0, 0, 0, 0, 0, 0, 0, 0, 0, 0, 0, 0, 0, 0] := by decide

/-- The text printed from 32 digit values in the canonical layout parses, and the parsed
UUID prints back to the same text. -/
theorem roundtrip_digits (x0 x1 x2 x3 x4 x5 x6 x7 x8 x9 x10 x11 x12 x13 x14 x15 x16 x17 x18 x19 x20 x21 x22 x23 x24 x25 x26 x27 x28 x29 x30 x31 : Nat)
    (l0 : x0 < 16) (l1 : x1 < 16) (l2 : x2 < 16) (l3 : x3 < 16) (l4 : x4 < 16) (l5 : x5 < 16) (l6 : x6 < 16) (l7 : x7 < 16) (l8 : x8 < 16) (l9 : x9 < 16) (l10 : x10 < 16) (l11 : x11 < 16) (l12 : x12 < 16) (l13 : x13 < 16) (l14 : x14 < 16) (l15 : x15 < 16) (l16 : x16 < 16) (l17 : x17 < 16) (l18 : x18 < 16) (l19 : x19 < 16) (l20 : x20 < 16) (l21 : x21 < 16) (l22 : x22 < 16) (l23 : x23 < 16) (l24 : x24 < 16) (l25 : x25 < 16) (l26 : x26 < 16) (l27 : x27 < 16) (l28 : x28 < 16) (l29 : x29 < 16) (l30 : x30 < 16) (l31 : x31 < 16)
    (f0 : hex.fromHexChar (hex.hextable.getD x0 0) = some x0) (f1 : hex.fromHexChar (hex.hextable.getD x1 0) = some x1)
    (f2 : hex.fromHexChar (hex.hextable.getD x2 0) = some x2) (f3 : hex.fromHexChar (hex.hextable.getD x3 0) = some x3)
    (f4 : hex.fromHexChar (hex.hextable.getD x4 0) = some x4) (f5 : hex.fromHexChar (hex.hextable.getD x5 0) = some x5)
    (f6 : hex.fromHexChar (hex.hextable.getD x6 0) = some x6) (f7 : hex.fromHexChar (hex.hextable.getD x7 0) = some x7)
    (f8 : hex.fromHexChar (hex.hextable.getD x8 0) = some x8) (f9 : hex.fromHexChar (hex.hextable.getD x9 0) = some x9)
    (f10 : hex.fromHexChar (hex.hextable.getD x10 0) = some x10) (f11 : hex.fromHexChar (hex.hextable.getD x11 0) = some x11)
    (f12 : hex.fromHexChar (hex.hextable.getD x12 0) = some x12) (f13 : hex.fromHexChar (hex.hextable.getD x13 0) = some x13)
    (f14 : hex.fromHexChar (hex.hextable.getD x14 0) = some x14) (f15 : hex.fromHexChar (hex.hextable.getD x15 0) = some x15)
    (f16 : hex.fromHexChar (hex.hextable.getD x16 0) = some x16) (f17 : hex.fromHexChar (hex.hextable.getD x17 0) = some x17)
    (f18 : hex.fromHexChar (hex.hextable.getD x18 0) = some x18) (f19 : hex.fromHexChar (hex.hextable.getD x19 0) = some x19)
    (f20 : hex.fromHexChar (hex.hextable.getD x20 0) = some x20) (f21 : hex.fromHexChar (hex.hextable.getD x21 0) = some x21)
    (f22 : hex.fromHexChar (hex.hextable.getD x22 0) = some x22) (f23 : hex.fromHexChar (hex.hextable.getD x23 0) = some x23)
    (f24 : hex.fromHexChar (hex.hextable.getD x24 0) = some x24) (f25 : hex.fromHexChar (hex.hextable.getD x25 0) = some x25)
    (f26 : hex.fromHexChar (hex.hextable.getD x26 0) = some x26) (f27 : hex.fromHexChar (hex.hextable.getD x27 0) = some x27)
    (f28 : hex.fromHexChar (hex.hextable.getD x28 0) = some x28) (f29 : hex.fromHexChar (hex.hextable.getD x29 0) = some x29)
    (f30 : hex.fromHexChar (hex.hextable.getD x30 0) = some x30) (f31 : hex.fromHexChar (hex.hextable.getD x31 0) = some x31) :
    (FromString
      [hex.hextable.getD x0 0, hex.hextable.getD x1 0, hex.hextable.getD x2 0,
      hex.hextable.getD x3 0, hex.hextable.getD x4 0, hex.hextable.getD x5 0,
      hex.hextable.getD x6 0, hex.hextable.getD x7 0, byte '-',
      hex.hextable.getD x8 0, hex.hextable.getD x9 0, hex.hextable.getD x10 0,
      hex.hextable.getD x11 0, byte '-', hex.hextable.getD x12 0,
      hex.hextable.getD x13 0, hex.hextable.getD x14 0, hex.hextable.getD x15 0,
      byte '-', hex.hextable.getD x16 0, hex.hextable.getD x17 0,
      hex.hextable.getD x18 0, hex.hextable.getD x19 0, byte '-',
      hex.hextable.getD x20 0, hex.hextable.getD x21 0, hex.hextable.getD x22 0,
      hex.hextable.getD x23 0, hex.hextable.getD x24 0, hex.hextable.getD x25 0,
      hex.hextable.getD x26 0, hex.hextable.getD x27 0, hex.hextable.getD x28 0,
      hex.hextable.getD x29 0, hex.hextable.getD x30 0, hex.hextable.getD x31 0]).2 = false ∧
    String (FromString
      [hex.hextable.getD x0 0, hex.hextable.getD x1 0, hex.hextable.getD x2 0,
      hex.hextable.getD x3 0, hex.hextable.getD x4 0, hex.hextable.getD x5 0,
      hex.hextable.getD x6 0, hex.hextable.getD x7 0, byte '-',
      hex.hextable.getD x8 0, hex.hextable.getD x9 0, hex.hextable.getD x10 0,
      hex.hextable.getD x11 0, byte '-', hex.hextable.getD x12 0,
      hex.hextable.getD x13 0, hex.hextable.getD x14 0, hex.hextable.getD x15 0,
      byte '-', hex.hextable.getD x16 0, hex.hextable.getD x17 0,
      hex.hextable.getD x18 0, hex.hextable.getD x19 0, byte '-',
      hex.hextable.getD x20 0, hex.hextable.getD x21 0, hex.hextable.getD x22 0,
      hex.hextable.getD x23 0, hex.hextable.getD x24 0, hex.hextable.getD x25 0,
      hex.hextable.getD x26 0, hex.hextable.getD x27 0, hex.hextable.getD x28 0,
      hex.hextable.getD x29 0, hex.hextable.getD x30 0, hex.hextable.getD x31 0]).1 =
      [hex.hextable.getD x0 0, hex.hextable.getD x1 0, hex.hextable.getD x2 0,
      hex.hextable.getD x3 0, hex.hextable.getD x4 0, hex.hextable.getD x5 0,
      hex.hextable.getD x6 0, hex.hextable.getD x7 0, byte '-',
      hex.hextable.getD x8 0, hex.hextable.getD x9 0, hex.hextable.getD x10 0,
      hex.hextable.getD x11 0, byte '-', hex.hextable.getD x12 0,
      hex.hextable.getD x13 0, hex.hextable.getD x14 0, hex.hextable.getD x15 0,
      byte '-', hex.hextable.getD x16 0, hex.hextable.getD x17 0,
      hex.hextable.getD x18 0, hex.hextable.getD x19 0, byte '-',
      hex.hextable.getD x20 0, hex.hextable.getD x21 0, hex.hextable.getD x22 0,
      hex.hextable.getD x23 0, hex.hextable.getD x24 0, hex.hextable.getD x25 0,
      hex.hextable.getD x26 0, hex.hextable.getD x27 0, hex.hextable.getD x28 0,
      hex.hextable.getD x29 0, hex.hextable.getD x30 0, hex.hextable.getD x31 0] := by
  obtain ⟨-, -, -, -, -, -, hd⟩ := byte_vals
  obtain ⟨e0, e1⟩ := encode_nibbles x0 l0 x1 l1
  obtain ⟨e2, e3⟩ := encode_nibbles x2 l2 x3 l3
  obtain ⟨e4, e5⟩ := encode_nibbles x4 l4 x5 l5
  obtain ⟨e6, e7⟩ := encode_nibbles x6 l6 x7 l7
  obtain ⟨e8, e9⟩ := encode_nibbles x8 l8 x9 l9
  obtain ⟨e10, e11⟩ := encode_nibbles x10 l10 x11 l11
  obtain ⟨e12, e13⟩ := encode_nibbles x12 l12 x13 l13
  obtain ⟨e14, e15⟩ := encode_nibbles x14 l14 x15 l15
  obtain ⟨e16, e17⟩ := encode_nibbles x16 l16 x17 l17
  obtain ⟨e18, e19⟩ := encode_nibbles x18 l18 x19 l19
  obtain ⟨e20, e21⟩ := encode_nibbles x20 l20 x21 l21
  obtain ⟨e22, e23⟩ := encode_nibbles x22 l22 x23 l23
  obtain ⟨e24, e25⟩ := encode_nibbles x24 l24 x25 l25
  obtain ⟨e26, e27⟩ := encode_nibbles x26 l26 x27 l27
  obtain ⟨e28, e29⟩ := encode_nibbles x28 l28 x29 l29
  obtain ⟨e30, e31⟩ := encode_nibbles x30 l30 x31 l31
  simp only [FromString, UnmarshalText, len, List.length_cons, List.length_nil,
    decodeCanonical, decodeGroups, byteGroups, List.getD_cons_succ, List.getD_cons_zero,
    List.take_succ_cons, List.take_zero, List.drop_succ_cons, List.drop_zero, hex.Decode,
    f0, f1, f2, f3, f4, f5, f6, f7, f8, f9, f10, f11, f12, f13, f14, f15, f16, f17, f18, f19, f20, f21, f22, f23, f24, f25, f26, f27, f28, f29, f30, f31, Nil_eq, String, hex.Encode,
    e0, e1, e2, e3, e4, e5, e6, e7, e8, e9, e10, e11, e12, e13, e14, e15, e16, e17, e18, e19, e20, e21, e22, e23, e24, e25, e26, e27, e28, e29, e30, e31]
  simp

end uuid

namespace uuid

theorem pattern_eq : str "xxxxxxxx-xxxx-xxxx-xxxx-xxxxxxxxxxxx" =
    120 :: 120 :: 120 :: 120 :: 120 :: 120 :: 120 :: 120 :: 45 ::
      120 :: 120 :: 120 :: 120 :: 45 :: 120 :: 120 :: 120 :: 120 :: 45 ::
      120 :: 120 :: 120 :: 120 :: 45 :: 120 :: 120 :: 120 :: 120 :: 120 :: 120 ::
      120 :: 120 :: 120 :: 120 :: 120 :: 120 :: [] := by decide

theorem pattern_groups : str "xxxxxxxx-xxxx-xxxx-xxxx-xxxxxxxxxxxx" =
    List.replicate 8 120 ++ 45 :: (List.replicate 4 120 ++ 45 :: (List.replicate 4 120 ++
      45 :: (List.replicate 4 120 ++ 45 :: (List.replicate 12 120 ++ [])))) := by decide

/-- Where the pattern has an `x` the text has a lower-case digit. -/
theorem matchesPattern_x {ps s : GoString} (h : matchesPattern (120 :: ps) s = true) :
    ∃ c cs, s = c :: cs ∧ isLowerHex c = true ∧ matchesPattern ps cs = true := by
  cases s with
  | nil => simp [matchesPattern] at h
  | cons c cs =>
    have hne : (120 : Nat) ≠ byte '-' := by decide
    simp only [matchesPattern, hne, if_false, Bool.and_eq_true] at h
    exact ⟨c, cs, rfl, h.1, h.2⟩

/-- Where the pattern has a hyphen the text has one. -/
theorem matchesPattern_dash {ps s : GoString} (h : matchesPattern (45 :: ps) s = true) :
    ∃ cs, s = byte '-' :: cs ∧ matchesPattern ps cs = true := by
  cases s with
  | nil => simp [matchesPattern] at h
  | cons c cs =>
    have he : (45 : Nat) = byte '-' := by decide
    simp only [matchesPattern, he, if_true, Bool.and_eq_true, decide_eq_true_eq] at h
    exact ⟨cs, by rw [h.1], h.2⟩

/-- The text ends where the pattern ends. -/
theorem matchesPattern_nil {s : GoString} (h : matchesPattern [] s = true) : s = [] := by
  cases s with
  | nil => rfl
  | cons c cs => simp [matchesPattern] at h

/-- A run of `n` times `x` in the pattern is matched by the text of `n` digit values. -/
theorem digits_of_match (n : Nat) : ∀ (ps s : GoString),
    matchesPattern (List.replicate n 120 ++ ps) s = true →
    ∃ xs cs, xs.length = n ∧ (∀ x ∈ xs, x < 16) ∧ s = digits xs ++ cs ∧
      matchesPattern ps cs = true := by
  induction n with
  | zero =>
    intro ps s h
    exact ⟨[], s, rfl, by simp, rfl, by simpa using h⟩
  | succ n ih =>
    intro ps s h
    rw [List.replicate_succ, List.cons_append] at h
    obtain ⟨c, cs, hs, hc, hm⟩ := matchesPattern_x h
    obtain ⟨x, hx, hcx, -⟩ := lowerHex_value c hc
    obtain ⟨xs, rest, hlen, hall, hcs, hrest⟩ := ih ps cs hm
    refine ⟨x :: xs, rest, by simp [hlen], ?_, ?_, hrest⟩
    · intro y hy
      rcases List.mem_cons.mp hy with hy | hy
      · rw [hy]; exact hx
      · exact hall y hy
    · rw [hs, hcx, hcs]; rfl

/-- A canonical text is made of five groups of 8, 4, 4, 4 and 12 digit values with a
hyphen between them. -/
theorem canonical_shape (s : GoString) (h : isCanonical s = true) :
    ∃ g1 g2 g3 g4 g5 : List Nat,
      (g1.length = 8 ∧ g2.length = 4 ∧ g3.length = 4 ∧ g4.length = 4 ∧ g5.length = 12) ∧
      ((∀ x ∈ g1, x < 16) ∧ (∀ x ∈ g2, x < 16) ∧ (∀ x ∈ g3, x < 16) ∧ (∀ x ∈ g4, x < 16) ∧
        (∀ x ∈ g5, x < 16)) ∧
      s = digits g1 ++ byte '-' :: (digits g2 ++ byte '-' :: (digits g3 ++
        byte '-' :: (digits g4 ++ byte '-' :: digits g5))) := by
  unfold isCanonical at h
  rw [pattern_groups] at h
  obtain ⟨g1, t1, n1, b1, e1, m1⟩ := digits_of_match 8 _ _ h
  obtain ⟨u1, d1, k1⟩ := matchesPattern_dash m1
  obtain ⟨g2, t2, n2, b2, e2, m2⟩ := digits_of_match 4 _ _ k1
  obtain ⟨u2, d2, k2⟩ := matchesPattern_dash m2
  obtain ⟨g3, t3, n3, b3, e3, m3⟩ := digits_of_match 4 _ _ k2
  obtain ⟨u3, d3, k3⟩ := matchesPattern_dash m3
  obtain ⟨g4, t4, n4, b4, e4, m4⟩ := digits_of_match 4 _ _ k3
  obtain ⟨u4, d4, k4⟩ := matchesPattern_dash m4
  obtain ⟨g5, t5, n5, b5, e5, m5⟩ := digits_of_match 12 _ _ k4
  have e6 := matchesPattern_nil m5
  refine ⟨g1, g2, g3, g4, g5, ⟨n1, n2, n3, n4, n5⟩, ⟨b1, b2, b3, b4, b5⟩, ?_⟩
  rw [e1, d1, e2, d2, e3, d3, e4, d4, e5, e6, List.append_nil]

/-- A digit value is what `fromHexChar` gives for its entry of `hextable`. -/
theorem hexDigit_value : ∀ x < 16, hex.fromHexChar (hex.hextable.getD x 0) = some x := by
  decide

/-- A non-empty list is its head followed by its tail. -/
theorem cons_of_length {u : List Nat} {n : Nat} (h : n + 1 ≤ u.length) :
    ∃ b rest, u = b :: rest ∧ n ≤ rest.length := by
  cases u with
  | nil => simp at h
  | cons b rest => exact ⟨b, rest, rfl, by simpa using h⟩

/-- A list of length `n + 4` is four elements followed by a list of length `n`. -/
theorem four_of_length {u : List Nat} {n : Nat} (h : u.length = n + 4) :
    ∃ a b c d rest, u = a :: b :: c :: d :: rest ∧ rest.length = n := by
  match u, h with
  | a :: b :: c :: d :: rest, h =>
    exact ⟨a, b, c, d, rest, rfl, by simp only [List.length_cons] at h; omega⟩
  | [], h => simp only [List.length_nil] at h; omega
  | [_], h => simp only [List.length_cons, List.length_nil] at h; omega
  | [_, _], h => simp only [List.length_cons, List.length_nil] at h; omega
  | [_, _, _], h => simp only [List.length_cons, List.length_nil] at h; omega

/-- A list of four elements, spelled out. -/
theorem list_of_length_four {u : List Nat} (h : u.length = 4) :
    ∃ a b c d, u = [a, b, c, d] := by
  obtain ⟨a, b, c, d, rest, hu, hr⟩ := four_of_length (n := 0) h
  rw [List.length_eq_zero.mp hr] at hu
  exact ⟨a, b, c, d, hu⟩

/-- The text of five groups of digit values in the canonical layout parses, and the parsed
UUID prints back to the same text. -/
theorem roundtrip_groups (g1 g2 g3 g4 g5 : List Nat)
    (n1 : g1.length = 8) (n2 : g2.length = 4) (n3 : g3.length = 4) (n4 : g4.length = 4)
    (n5 : g5.length = 12)
    (b1 : ∀ x ∈ g1, x < 16) (b2 : ∀ x ∈ g2, x < 16) (b3 : ∀ x ∈ g3, x < 16)
    (b4 : ∀ x ∈ g4, x < 16) (b5 : ∀ x ∈ g5, x < 16) :
    (FromString (digits g1 ++ byte '-' :: (digits g2 ++ byte '-' :: (digits g3 ++
      byte '-' :: (digits g4 ++ byte '-' :: digits g5))))).2 = false ∧
    String (FromString (digits g1 ++ byte '-' :: (digits g2 ++ byte '-' :: (digits g3 ++
      byte '-' :: (digits g4 ++ byte '-' :: digits g5))))).1 =
      digits g1 ++ byte '-' :: (digits g2 ++ byte '-' :: (digits g3 ++
        byte '-' :: (digits g4 ++ byte '-' :: digits g5))) := by
  obtain ⟨x0, x1, x2, x3, r1, rfl, q1⟩ := four_of_length (n := 4) n1
  obtain ⟨x4, x5, x6, x7, rfl⟩ := list_of_length_four q1
  obtain ⟨x8, x9, x10, x11, rfl⟩ := list_of_length_four n2
  obtain ⟨x12, x13, x14, x15, rfl⟩ := list_of_length_four n3
  obtain ⟨x16, x17, x18, x19, rfl⟩ := list_of_length_four n4
  obtain ⟨x20, x21, x22, x23, r5, rfl, q5⟩ := four_of_length (n := 8) n5
  obtain ⟨x24, x25, x26, x27, r6, rfl, q6⟩ := four_of_length (n := 4) q5
  obtain ⟨x28, x29, x30, x31, rfl⟩ := list_of_length_four q6
  have l0 : x0 < 16 := b1 x0 (by simp)
  have l1 : x1 < 16 := b1 x1 (by simp)
  have l2 : x2 < 16 := b1 x2 (by simp)
  have l3 : x3 < 16 := b1 x3 (by simp)
  have l4 : x4 < 16 := b1 x4 (by simp)
  have l5 : x5 < 16 := b1 x5 (by simp)
  have l6 : x6 < 16 := b1 x6 (by simp)
  have l7 : x7 < 16 := b1 x7 (by simp)
  have l8 : x8 < 16 := b2 x8 (by simp)
  have l9 : x9 < 16 := b2 x9 (by simp)
  have l10 : x10 < 16 := b2 x10 (by simp)
  have l11 : x11 < 16 := b2 x11 (by simp)
  have l12 : x12 < 16 := b3 x12 (by simp)
  have l13 : x13 < 16 := b3 x13 (by simp)
  have l14 : x14 < 16 := b3 x14 (by simp)
  have l15 : x15 < 16 := b3 x15 (by simp)
  have l16 : x16 < 16 := b4 x16 (by simp)
  have l17 : x17 < 16 := b4 x17 (by simp)
  have l18 : x18 < 16 := b4 x18 (by simp)
  have l19 : x19 < 16 := b4 x19 (by simp)
  have l20 : x20 < 16 := b5 x20 (by simp)
  have l21 : x21 < 16 := b5 x21 (by simp)
  have l22 : x22 < 16 := b5 x22 (by simp)
  have l23 : x23 < 16 := b5 x23 (by simp)
  have l24 : x24 < 16 := b5 x24 (by simp)
  have l25 : x25 < 16 := b5 x25 (by simp)
  have l26 : x26 < 16 := b5 x26 (by simp)
  have l27 : x27 < 16 := b5 x27 (by simp)
  have l28 : x28 < 16 := b5 x28 (by simp)
  have l29 : x29 < 16 := b5 x29 (by simp)
  have l30 : x30 < 16 := b5 x30 (by simp)
  have l31 : x31 < 16 := b5 x31 (by simp)
  exact roundtrip_digits x0 x1 x2 x3 x4 x5 x6 x7 x8 x9 x10 x11 x12 x13 x14 x15 x16 x17 x18 x19 x20 x21 x22 x23 x24 x25 x26 x27 x28 x29 x30 x31
    l0 l1 l2 l3 l4 l5 l6 l7 l8 l9 l10 l11 l12 l13 l14 l15 l16 l17 l18 l19 l20 l21 l22 l23 l24 l25 l26 l27 l28 l29 l30 l31
    (hexDigit_value x0 l0) (hexDigit_value x1 l1) (hexDigit_value x2 l2) (hexDigit_value x3 l3)
    (hexDigit_value x4 l4) (hexDigit_value x5 l5) (hexDigit_value x6 l6) (hexDigit_value x7 l7)
    (hexDigit_value x8 l8) (hexDigit_value x9 l9) (hexDigit_value x10 l10) (hexDigit_value x11 l11)
    (hexDigit_value x12 l12) (hexDigit_value x13 l13) (hexDigit_value x14 l14) (hexDigit_value x15 l15)
    (hexDigit_value x16 l16) (hexDigit_value x17 l17) (hexDigit_value x18 l18) (hexDigit_value x19 l19)
    (hexDigit_value x20 l20) (hexDigit_value x21 l21) (hexDigit_value x22 l22) (hexDigit_value x23 l23)
    (hexDigit_value x24 l24) (hexDigit_value x25 l25) (hexDigit_value x26 l26) (hexDigit_value x27 l27)
    (hexDigit_value x28 l28) (hexDigit_value x29 l29) (hexDigit_value x30 l30) (hexDigit_value x31 l31)

/-- A canonical text parses, and the parsed UUID prints back to it. -/
theorem roundtrip_canonical (s : GoString) (h : isCanonical s = true) :
    (FromString s).2 = false ∧ String (FromString s).1 = s := by
  obtain ⟨g1, g2, g3, g4, g5, ⟨n1, n2, n3, n4, n5⟩, ⟨b1, b2, b3, b4, b5⟩, hs⟩ :=
    canonical_shape s h
  rw [hs]
  exact roundtrip_groups g1 g2 g3 g4 g5 n1 n2 n3 n4 n5 b1 b2 b3 b4 b5

/-- Whatever UUID of at least 16 bytes is printed, the text is canonical. -/
theorem String_canonical (u : UUID) (hlen : 16 ≤ u.length) (hlt : ∀ b ∈ u, b < 256) :
    isCanonical (String u) = true := by
  obtain ⟨b0, u0, rfl, n0⟩ := cons_of_length hlen
  obtain ⟨b1, u1, rfl, n1⟩ := cons_of_length n0
  obtain ⟨b2, u2, rfl, n2⟩ := cons_of_length n1
  obtain ⟨b3, u3, rfl, n3⟩ := cons_of_length n2
  obtain ⟨b4, u4, rfl, n4⟩ := cons_of_length n3
  obtain ⟨b5, u5, rfl, n5⟩ := cons_of_length n4
  obtain ⟨b6, u6, rfl, n6⟩ := cons_of_length n5
  obtain ⟨b7, u7, rfl, n7⟩ := cons_of_length n6
  obtain ⟨b8, u8, rfl, n8⟩ := cons_of_length n7
  obtain ⟨b9, u9, rfl, n9⟩ := cons_of_length n8
  obtain ⟨b10, u10, rfl, n10⟩ := cons_of_length n9
  obtain ⟨b11, u11, rfl, n11⟩ := cons_of_length n10
  obtain ⟨b12, u12, rfl, n12⟩ := cons_of_length n11
  obtain ⟨b13, u13, rfl, n13⟩ := cons_of_length n12
  obtain ⟨b14, u14, rfl, n14⟩ := cons_of_length n13
  obtain ⟨b15, u15, rfl, n15⟩ := cons_of_length n14
  obtain ⟨p0, q0⟩ := encode_digits b0 (hlt b0 (by simp))
  obtain ⟨p1, q1⟩ := encode_digits b1 (hlt b1 (by simp))
  obtain ⟨p2, q2⟩ := encode_digits b2 (hlt b2 (by simp))
  obtain ⟨p3, q3⟩ := encode_digits b3 (hlt b3 (by simp))
  obtain ⟨p4, q4⟩ := encode_digits b4 (hlt b4 (by simp))
  obtain ⟨p5, q5⟩ := encode_digits b5 (hlt b5 (by simp))
  obtain ⟨p6, q6⟩ := encode_digits b6 (hlt b6 (by simp))
  obtain ⟨p7, q7⟩ := encode_digits b7 (hlt b7 (by simp))
  obtain ⟨p8, q8⟩ := encode_digits b8 (hlt b8 (by simp))
  obtain ⟨p9, q9⟩ := encode_digits b9 (hlt b9 (by simp))
  obtain ⟨p10, q10⟩ := encode_digits b10 (hlt b10 (by simp))
  obtain ⟨p11, q11⟩ := encode_digits b11 (hlt b11 (by simp))
  obtain ⟨p12, q12⟩ := encode_digits b12 (hlt b12 (by simp))
  obtain ⟨p13, q13⟩ := encode_digits b13 (hlt b13 (by simp))
  obtain ⟨p14, q14⟩ := encode_digits b14 (hlt b14 (by simp))
  obtain ⟨p15, q15⟩ := encode_digits b15 (hlt b15 (by simp))
  have hx : (120 : Nat) ≠ byte '-' := by decide
  have hd : (45 : Nat) = byte '-' := by decide
  unfold isCanonical
  rw [pattern_eq]
  simp only [String, List.take_succ_cons, List.take_zero, List.drop_succ_cons, List.drop_zero,
    hex.Encode, List.cons_append, List.nil_append, matchesPattern,
    p0, q0, p1, q1, p2, q2, p3, q3, p4, q4, p5, q5, p6, q6, p7, q7, p8, q8, p9, q9, p10, q10, p11, q11, p12, q12, p13, q13, p14, q14, p15, q15, hx, hd, if_true, if_false, Bool.and_self, decide_True]

/-- `validateUUID` accepts exactly the canonical texts, and answers `ErrMalformedEntity`
for every other text. -/
theorem validateUUID_eq (s : GoString) :
    things.validateUUID s = if isCanonical s = true then none else some ErrMalformedEntity := by
  unfold things.validateUUID
  by_cases hc : isCanonical s = true
  · obtain ⟨h1, h2⟩ := roundtrip_canonical s hc
    simp [hc, h1, h2]
  · have hne : ¬ (String (FromString s).1 = s) := by
      intro he
      apply hc
      rw [← he]
      exact String_canonical _ (FromString_bytes s).1 (FromString_bytes s).2
    simp [hc, hne]

end uuid

/-- C4: for a thing or channel creation request with a non-empty token and a name of at
most 1024 bytes, `validate` returns `nil` when the ID is absent, and when the ID is
supplied it returns `nil` if the ID is a canonical UUID string and `ErrMalformedEntity`
if it is not.  The upper-case, brace-wrapped, `urn:uuid:`-prefixed and hyphen-less forms
of a UUID are parsed without error by `uuid.FromString` and still rejected by
`validateUUID`. -/
theorem supplied_id_canonical :
    (∀ r : createThingReq, r.token ≠ [] → len r.Name ≤ 1024 →
      (r.ID = [] → r.validate = none) ∧
      (r.ID ≠ [] → r.validate =
        if uuid.isCanonical r.ID = true then none else some ErrMalformedEntity)) ∧
    (∀ r : createChannelReq, r.token ≠ [] → len r.Name ≤ 1024 →
      (r.ID = [] → r.validate = none) ∧
      (r.ID ≠ [] → r.validate =
        if uuid.isCanonical r.ID = true then none else some ErrMalformedEntity)) ∧
    (∀ s ∈ [str "6BA7B810-9DAD-11D1-80B4-00C04FD430C8",
        str "{6ba7b810-9dad-11d1-80b4-00c04fd430c8}",
        str "urn:uuid:6ba7b810-9dad-11d1-80b4-00c04fd430c8",
        str "6ba7b8109dad11d180b400c04fd430c8"],
      (uuid.FromString s).2 = false ∧
      uuid.String (uuid.FromString s).1 = str "6ba7b810-9dad-11d1-80b4-00c04fd430c8" ∧
      validateUUID s = some ErrMalformedEntity) := by
  refine ⟨?_, ?_, by decide⟩
  · intro r ht hn
    have hn1 : ¬ (len r.Name > 1024) := by omega
    constructor
    · intro hid
      simp only [createThingReq.validate, ht, hid, hn1, maxNameSize, if_false, ne_eq,
        not_true_eq_false, false_and]
    · intro hid
      simp only [createThingReq.validate, ht, hid, hn1, maxNameSize, uuid.validateUUID_eq,
        if_false, ne_eq, not_false_eq_true, true_and]
      split_ifs <;> simp_all
  · intro r ht hn
    have hn1 : ¬ (len r.Name > 1024) := by omega
    constructor
    · intro hid
      simp only [createChannelReq.validate, ht, hid, hn1, maxNameSize, if_false, ne_eq,
        not_true_eq_false, false_and]
    · intro hid
      simp only [createChannelReq.validate, ht, hid, hn1, maxNameSize, uuid.validateUUID_eq,
        if_false, ne_eq, not_false_eq_true, true_and]
      split_ifs <;> simp_all

/-- C4 at three thing creation requests: without an ID and with a canonical ID the
request is accepted, with the same ID in upper case it is rejected. -/
theorem supplied_id_canonical_witness :
    createThingReq.validate
      { token := str "tok", Name := str "dev", Key := [], ID := [], Metadata := [] } = none ∧
    createThingReq.validate
      { token := str "tok", Name := str "dev", Key := [],
        ID := str "6ba7b810-9dad-11d1-80b4-00c04fd430c8", Metadata := [] } = none ∧
    createThingReq.validate
      { token := str "tok", Name := str "dev", Key := [],
        ID := str "6BA7B810-9DAD-11D1-80B4-00C04FD430C8", Metadata := [] }
      = some ErrMalformedEntity := by
  refine ⟨(supplied_id_canonical.1 _ (by decide) (by decide)).1 rfl, ?_, ?_⟩
  · rw [(supplied_id_canonical.1 _ (by decide) (by decide)).2 (by decide)]; decide
  · rw [(supplied_id_canonical.1 _ (by decide) (by decide)).2 (by decide)]; decide

/-! ### C5: bulk requests -/

/-- The loop over the things of a bulk request succeeds exactly when every thing, carrying
a non-empty token, passes `createThingReq.validate`. -/
theorem validateThings_eq (tok : GoString) (htok : tok ≠ []) (ts : List createThingReq) :
    createThingsReq.validateThings ts =
      if ∀ t ∈ ts, createThingReq.validate { t with token := tok } = none then none
      else some ErrMalformedEntity := by
  induction ts with
  | nil => simp [createThingsReq.validateThings]
  | cons t rest ih =>
    simp only [createThingsReq.validateThings, ih, List.forall_mem_cons,
      createThingReq.validate, htok, if_false]
    split_ifs <;> simp_all

/-- The loop over the channels of a bulk request succeeds exactly when every channel,
carrying a non-empty token, passes `createChannelReq.validate`. -/
theorem validateChannels_eq (tok : GoString) (htok : tok ≠ [])
    (cs : List createChannelReq) :
    createChannelsReq.validateChannels cs =
      if ∀ c ∈ cs, createChannelReq.validate { c with token := tok } = none then none
      else some ErrMalformedEntity := by
  induction cs with
  | nil => simp [createChannelsReq.validateChannels]
  | cons c rest ih =>
    simp only [createChannelsReq.validateChannels, ih, List.forall_mem_cons,
      createChannelReq.validate, htok, if_false]
    split_ifs <;> simp_all

/-- C5: a bulk creation request with a non-empty token and a non-empty list is accepted
exactly when every element, taken as a single creation request carrying the token of the
bulk request, is accepted by the validator of single requests, and is rejected with
`ErrMalformedEntity` otherwise; an empty list with a non-empty token is rejected with
`ErrMalformedEntity`.  This holds for things and for channels. -/
theorem bulk_validation :
    (∀ r : createThingsReq, r.token ≠ [] → r.Things ≠ [] →
      r.validate =
        if ∀ t ∈ r.Things, createThingReq.validate { t with token := r.token } = none
        then none else some ErrMalformedEntity) ∧
    (∀ r : createThingsReq, r.token ≠ [] → r.Things = [] →
      r.validate = some ErrMalformedEntity) ∧
    (∀ r : createChannelsReq, r.token ≠ [] → r.Channels ≠ [] →
      r.validate =
        if ∀ c ∈ r.Channels, createChannelReq.validate { c with token := r.token } = none
        then none else some ErrMalformedEntity) ∧
    (∀ r : createChannelsReq, r.token ≠ [] → r.Channels = [] →
      r.validate = some ErrMalformedEntity) := by
  refine ⟨?_, ?_, ?_, ?_⟩
  · intro r ht hl
    have hlen : ¬ (r.Things.length ≤ 0) := by
      have := List.length_pos.mpr hl
      omega
    simp only [createThingsReq.validate, ht, hlen, if_false]
    exact validateThings_eq r.token ht r.Things
  · intro r ht hl
    simp [createThingsReq.validate, ht, hl]
  · intro r ht hl
    have hlen : ¬ (r.Channels.length ≤ 0) := by
      have := List.length_pos.mpr hl
      omega
    simp only [createChannelsReq.validate, ht, hlen, if_false]
    exact validateChannels_eq r.token ht r.Channels
  · intro r ht hl
    simp [createChannelsReq.validate, ht, hl]

/-- C5 at a bulk request of two things: with two valid things it is accepted, and with
the second identifier malformed it is rejected. -/
theorem bulk_validation_witness :
    createThingsReq.validate
      { token := str "tok",
        Things := [
          { token := [], Name := str "a", Key := [], ID := [], Metadata := [] },
          { token := [], Name := str "b", Key := [],
            ID := str "6ba7b810-9dad-11d1-80b4-00c04fd430c8", Metadata := [] }] } = none ∧
    createThingsReq.validate
      { token := str "tok",
        Things := [
          { token := [], Name := str "a", Key := [], ID := [], Metadata := [] },
          { token := [], Name := str "b", Key := [], ID := str "not-a-uuid",
            Metadata := [] }] } = some ErrMalformedEntity := by
  constructor
  · rw [bulk_validation.1 _ (by decide) (List.cons_ne_nil _ _)]; decide
  · rw [bulk_validation.1 _ (by decide) (List.cons_ne_nil _ _)]; decide

/-! ### C6: sort field and direction -/

/-- The result of `listResourcesReq.validate` once the token, the limit and the name have
passed: it depends on the sort field and direction only. -/
theorem listResources_order_dir (r : listResourcesReq) (ht : r.token ≠ [])
    (hl : r.pageMetadata.Limit ≤ 100) (hn : len r.pageMetadata.Name ≤ 1024) :
    r.validate.2 = if allowedOrder r.pageMetadata.Order ∧ allowedDir r.pageMetadata.Dir
      then none else some ErrMalformedEntity := by
  have hn1 : ¬ (1024 < len r.pageMetadata.Name) := by omega
  have hl1 : ¬ (100 < r.pageMetadata.Limit) := by omega
  by_cases h0 : r.pageMetadata.Limit = 0
  · simp only [listResourcesReq.validate, listResourcesReq.withDefLimit, allowedOrder,
      allowedDir, ht, h0, hn1, defLimit, maxLimitSize, maxNameSize, nameOrder, idOrder,
      ascDir, descDir, if_true, if_false]
    split_ifs <;> first | rfl | (exfalso; tauto)
  · simp only [listResourcesReq.validate, listResourcesReq.withDefLimit, allowedOrder,
      allowedDir, ht, h0, hn1, hl1, defLimit, maxLimitSize, maxNameSize, nameOrder, idOrder,
      ascDir, descDir, if_true, if_false]
    split_ifs <;> first | rfl | (exfalso; tauto)

/-- The result of `listByConnectionReq.validate` once the token, the identifier and the
limit have passed. -/
theorem listByConnection_order_dir (r : listByConnectionReq) (ht : r.token ≠ [])
    (hi : r.id ≠ []) (h1 : 1 ≤ r.pageMetadata.Limit) (hl : r.pageMetadata.Limit ≤ 100) :
    r.validate = if allowedOrder r.pageMetadata.Order ∧ allowedDir r.pageMetadata.Dir
      then none else some ErrMalformedEntity := by
  have h0 : r.pageMetadata.Limit ≠ 0 := by omega
  have hl1 : ¬ (100 < r.pageMetadata.Limit) := by omega
  simp only [listByConnectionReq.validate, allowedOrder, allowedDir, ht, hi, h0, hl1,
    maxLimitSize, nameOrder, idOrder, ascDir, descDir, if_false, false_or, gt_iff_lt]
  split_ifs <;> first | rfl | (exfalso; tauto)

/-- The result of `listThingsGroupReq.validate` once the token, the identifier, the limit
and the name have passed. -/
theorem listThingsGroup_order_dir (r : listThingsGroupReq) (ht : r.token ≠ [])
    (hi : r.groupID ≠ []) (h1 : 1 ≤ r.pageMetadata.Limit) (hl : r.pageMetadata.Limit ≤ 100)
    (hn : len r.pageMetadata.Name ≤ 1024) :
    r.validate = if allowedOrder r.pageMetadata.Order ∧ allowedDir r.pageMetadata.Dir
      then none else some ErrMalformedEntity := by
  have h0 : r.pageMetadata.Limit ≠ 0 := by omega
  have hl1 : ¬ (100 < r.pageMetadata.Limit) := by omega
  have hn1 : ¬ (1024 < len r.pageMetadata.Name) := by omega
  simp only [listThingsGroupReq.validate, allowedOrder, allowedDir, ht, hi, h0, hl1, hn1,
    maxLimitSize, maxNameSize, if_false, false_or, gt_iff_lt]
  split_ifs <;> first | rfl | (exfalso; tauto)

/-- C6: for the three list validators, with a non-empty token (and identifier), a limit
the validator accepts and a name of at most 1024 bytes, `validate` returns `nil` when the
sort field is unset, `name` or `id` and the direction is unset, `asc` or `desc`, and
`ErrMalformedEntity` in every other case. -/
theorem list_order_dir :
    (∀ r : listResourcesReq, r.token ≠ [] → r.pageMetadata.Limit ≤ 100 →
      len r.pageMetadata.Name ≤ 1024 →
      r.validate.2 = if allowedOrder r.pageMetadata.Order ∧ allowedDir r.pageMetadata.Dir
        then none else some ErrMalformedEntity) ∧
    (∀ r : listByConnectionReq, r.token ≠ [] → r.id ≠ [] → 1 ≤ r.pageMetadata.Limit →
      r.pageMetadata.Limit ≤ 100 →
      r.validate = if allowedOrder r.pageMetadata.Order ∧ allowedDir r.pageMetadata.Dir
        then none else some ErrMalformedEntity) ∧
    (∀ r : listThingsGroupReq, r.token ≠ [] → r.groupID ≠ [] → 1 ≤ r.pageMetadata.Limit →
      r.pageMetadata.Limit ≤ 100 → len r.pageMetadata.Name ≤ 1024 →
      r.validate = if allowedOrder r.pageMetadata.Order ∧ allowedDir r.pageMetadata.Dir
        then none else some ErrMalformedEntity) :=
  ⟨listResources_order_dir, listByConnection_order_dir, listThingsGroup_order_dir⟩

/-- C6 at listings by connection that differ in the sort field and direction only:
`name` with `desc` is accepted, `Name` and `ASC` are rejected. -/
theorem list_order_dir_witness :
    listByConnectionReq.validate
      { token := str "tok", id := str "ch", pageMetadata := page 5 [] (str "name") (str "desc") }
      = none ∧
    listByConnectionReq.validate
      { token := str "tok", id := str "ch", pageMetadata := page 5 [] (str "Name") (str "desc") }
      = some ErrMalformedEntity ∧
    listByConnectionReq.validate
      { token := str "tok", id := str "ch", pageMetadata := page 5 [] (str "name") (str "ASC") }
      = some ErrMalformedEntity := by
  refine ⟨?_, ?_, ?_⟩
  · rw [list_order_dir.2.1 _ (by decide) (by decide) (by decide) (by decide)]; decide
  · rw [list_order_dir.2.1 _ (by decide) (by decide) (by decide) (by decide)]; decide
  · rw [list_order_dir.2.1 _ (by decide) (by decide) (by decide) (by decide)]; decide

/-! ### C7: sharing a thing -/

/-- The loop over the policies succeeds exactly when every policy is allowed, and fails
with `ErrMalformedEntity` otherwise. -/
theorem validatePolicies_eq (ps : List GoString) :
    shareThingReq.validatePolicies ps =
      if ∀ p ∈ ps, allowedPolicy p then none else some ErrMalformedEntity := by
  induction ps with
  | nil => simp [shareThingReq.validatePolicies]
  | cons p rest ih =>
    simp only [shareThingReq.validatePolicies, ih, List.forall_mem_cons, allowedPolicy,
      readPolicy, writePolicy, deletePolicy]
    split_ifs <;> first | rfl | (exfalso; tauto)

/-- C7: `shareThingReq.validate` returns `nil` exactly when the token and the thing
identifier are non-empty, there is at least one user ID and one policy, and every policy
is `read`, `write` or `delete`; with a non-empty token and one of the other conditions
violated it returns `ErrMalformedEntity`. -/
theorem share_thing_validate (r : shareThingReq) :
    (r.validate = none ↔
      r.token ≠ [] ∧ r.thingID ≠ [] ∧ r.UserIDs ≠ [] ∧ r.Policies ≠ [] ∧
        ∀ p ∈ r.Policies, allowedPolicy p) ∧
    (r.token ≠ [] →
      ¬ (r.thingID ≠ [] ∧ r.UserIDs ≠ [] ∧ r.Policies ≠ [] ∧
        ∀ p ∈ r.Policies, allowedPolicy p) →
      r.validate = some ErrMalformedEntity) := by
  have hu : r.UserIDs.length = 0 ↔ r.UserIDs = [] := List.length_eq_zero
  have hp : r.Policies.length = 0 ↔ r.Policies = [] := List.length_eq_zero
  simp only [shareThingReq.validate, validatePolicies_eq, hu, hp]
  constructor
  · split_ifs <;> try simp_all
    all_goals tauto
  · intro ht hn
    split_ifs <;> first | rfl | (exfalso; tauto)

/-- C7 at three requests: one that shares with the policies `read` and `delete` is
accepted, one with the policy `Read` and one without user IDs are rejected. -/
theorem share_thing_validate_witness :
    shareThingReq.validate
      { token := str "tok", thingID := str "th", UserIDs := [str "u1"],
        Policies := [str "read", str "delete"] } = none ∧
    shareThingReq.validate
      { token := str "tok", thingID := str "th", UserIDs := [str "u1"],
        Policies := [str "read", str "Read"] } = some ErrMalformedEntity ∧
    shareThingReq.validate
      { token := str "tok", thingID := str "th", UserIDs := [],
        Policies := [str "read"] } = some ErrMalformedEntity := by
  refine ⟨(share_thing_validate _).1.2 (by decide), ?_, ?_⟩
  · exact (share_thing_validate _).2 (by decide) (by decide)
  · exact (share_thing_validate _).2 (by decide) (by decide)

/-! ### C8: the name ceiling -/

/-- C8: in the six validators that check a name, with every other field valid, a name of
at most 1024 bytes is accepted and a name of 1025 bytes or more is rejected with
`ErrMalformedEntity`; the length is the number of bytes of the string. -/
theorem name_ceiling :
    (∀ r : createThingReq, r.token ≠ [] → (r.ID = [] ∨ validateUUID r.ID = none) →
      (len r.Name ≤ 1024 → r.validate = none) ∧
      (1025 ≤ len r.Name → r.validate = some ErrMalformedEntity)) ∧
    (∀ r : createChannelReq, r.token ≠ [] → (r.ID = [] ∨ validateUUID r.ID = none) →
      (len r.Name ≤ 1024 → r.validate = none) ∧
      (1025 ≤ len r.Name → r.validate = some ErrMalformedEntity)) ∧
    (∀ r : updateThingReq, r.token ≠ [] → r.id ≠ [] →
      (len r.Name ≤ 1024 → r.validate = none) ∧
      (1025 ≤ len r.Name → r.validate = some ErrMalformedEntity)) ∧
    (∀ r : updateChannelReq, r.token ≠ [] → r.id ≠ [] →
      (len r.Name ≤ 1024 → r.validate = none) ∧
      (1025 ≤ len r.Name → r.validate = some ErrMalformedEntity)) ∧
    (∀ r : listResourcesReq, r.token ≠ [] → r.pageMetadata.Limit ≤ 100 →
      allowedOrder r.pageMetadata.Order → allowedDir r.pageMetadata.Dir →
      (len r.pageMetadata.Name ≤ 1024 → r.validate.2 = none) ∧
      (1025 ≤ len r.pageMetadata.Name → r.validate.2 = some ErrMalformedEntity)) ∧
    (∀ r : listThingsGroupReq, r.token ≠ [] → r.groupID ≠ [] → 1 ≤ r.pageMetadata.Limit →
      r.pageMetadata.Limit ≤ 100 →
      allowedOrder r.pageMetadata.Order → allowedDir r.pageMetadata.Dir →
      (len r.pageMetadata.Name ≤ 1024 → r.validate = none) ∧
      (1025 ≤ len r.pageMetadata.Name → r.validate = some ErrMalformedEntity)) := by
  refine ⟨?_, ?_, ?_, ?_, ?_, ?_⟩
  · intro r ht hid
    have hid1 : ¬ (r.ID ≠ [] ∧ validateUUID r.ID ≠ none) := by
      rintro ⟨h1, h2⟩
      rcases hid with h | h
      · exact h1 h
      · exact h2 h
    constructor <;> intro hn
    · have hn1 : ¬ (len r.Name > 1024) := by omega
      simp only [createThingReq.validate, ht, hid1, hn1, maxNameSize, if_false]
    · have hn1 : len r.Name > 1024 := by omega
      simp only [createThingReq.validate, ht, hid1, hn1, maxNameSize, if_false, if_true]
  · intro r ht hid
    have hid1 : ¬ (r.ID ≠ [] ∧ validateUUID r.ID ≠ none) := by
      rintro ⟨h1, h2⟩
      rcases hid with h | h
      · exact h1 h
      · exact h2 h
    constructor <;> intro hn
    · have hn1 : ¬ (len r.Name > 1024) := by omega
      simp only [createChannelReq.validate, ht, hid1, hn1, maxNameSize, if_false]
    · have hn1 : len r.Name > 1024 := by omega
      simp only [createChannelReq.validate, ht, hid1, hn1, maxNameSize, if_false, if_true]
  · intro r ht hid
    constructor <;> intro hn
    · have hn1 : ¬ (len r.Name > 1024) := by omega
      simp only [updateThingReq.validate, ht, hid, hn1, maxNameSize, if_false]
    · have hn1 : len r.Name > 1024 := by omega
      simp only [updateThingReq.validate, ht, hid, hn1, maxNameSize, if_false, if_true]
  · intro r ht hid
    constructor <;> intro hn
    · have hn1 : ¬ (len r.Name > 1024) := by omega
      simp only [updateChannelReq.validate, ht, hid, hn1, maxNameSize, if_false]
    · have hn1 : len r.Name > 1024 := by omega
      simp only [updateChannelReq.validate, ht, hid, hn1, maxNameSize, if_false, if_true]
  · intro r ht hl ho hd
    have hod : allowedOrder r.pageMetadata.Order ∧ allowedDir r.pageMetadata.Dir := ⟨ho, hd⟩
    constructor <;> intro hn
    · rw [listResources_order_dir r ht hl hn, if_pos hod]
    · have hn1 : len r.pageMetadata.Name > 1024 := by omega
      have hl1 : ¬ (100 < r.pageMetadata.Limit) := by omega
      by_cases h0 : r.pageMetadata.Limit = 0
      · simp [listResourcesReq.validate, listResourcesReq.withDefLimit, ht, h0, hn1,
          defLimit, maxLimitSize, maxNameSize]
      · simp [listResourcesReq.validate, listResourcesReq.withDefLimit, ht, h0, hn1, hl1,
          maxLimitSize, maxNameSize]
  · intro r ht hi h1 hl ho hd
    have hod : allowedOrder r.pageMetadata.Order ∧ allowedDir r.pageMetadata.Dir := ⟨ho, hd⟩
    constructor <;> intro hn
    · rw [listThingsGroup_order_dir r ht hi h1 hl hn, if_pos hod]
    · have hn1 : len r.pageMetadata.Name > 1024 := by omega
      have h0 : r.pageMetadata.Limit ≠ 0 := by omega
      have hl1 : ¬ (100 < r.pageMetadata.Limit) := by omega
      simp [listThingsGroupReq.validate, ht, hi, h0, hl1, hn1, maxLimitSize, maxNameSize]

/-- C8 at three names of a thing update: 1024 bytes are accepted, 1025 bytes are
rejected, and 513 two-byte characters, which are 1026 bytes, are rejected. -/
theorem name_ceiling_witness :
    updateThingReq.validate
      { token := str "tok", id := str "th", Name := List.replicate 1024 (byte 'a'),
        Metadata := [] } = none ∧
    updateThingReq.validate
      { token := str "tok", id := str "th", Name := List.replicate 1025 (byte 'a'),
        Metadata := [] } = some ErrMalformedEntity ∧
    (String.mk (List.replicate 513 'é')).length = 513 ∧
    updateThingReq.validate
      { token := str "tok", id := str "th", Name := str (String.mk (List.replicate 513 'é')),
        Metadata := [] } = some ErrMalformedEntity := by
  refine ⟨(name_ceiling.2.2.1 _ (by decide) (by decide)).1 (by decide),
    (name_ceiling.2.2.1 _ (by decide) (by decide)).2 (by decide), by decide,
    (name_ceiling.2.2.1 _ (by decide) (by decide)).2 (by decide)⟩

/-! ### C9 and C10: parsing the filter -/

/-- A filter that keeps every binding of a key leaves the lookup of that key as it was. -/
theorem GoMap.get_filter {α : Type} (m : GoMap α) (p : GoString × α → Bool) (k1 : GoString)
    (hp : ∀ v, p (k1, v) = true) : GoMap.get (m.filter p) k1 = GoMap.get m k1 := by
  induction m with
  | nil => rfl
  | cons e rest ih =>
    obtain ⟨a, v⟩ := e
    by_cases ha1 : a = k1
    · subst ha1
      simp [List.filter, hp v, GoMap.get]
    · cases hpe : p (a, v)
      · simp [List.filter, hpe, GoMap.get, ha1, ih]
      · simp [List.filter, hpe, GoMap.get, ha1, ih]

/-- Reading a map after the assignment `m[k] = v`. -/
theorem GoMap.get_set {α : Type} (m : GoMap α) (k k1 : GoString) (v : α) :
    GoMap.get (GoMap.set m k v) k1 = if k = k1 then some v else GoMap.get m k1 := by
  by_cases h : k = k1
  · simp [GoMap.set, GoMap.get, h]
  · have hk : ¬ k1 = k := fun e => h e.symm
    have hp : ∀ w : α, (fun e : GoString × α => decide (e.1 ≠ k)) (k1, w) = true := by
      intro w; simp [hk]
    rw [GoMap.set, GoMap.get, if_neg h, if_neg h]
    exact GoMap.get_filter m _ k1 hp

/-- The keys of a map are the keys that have a binding. -/
theorem GoMap.mem_keys {α : Type} (m : GoMap α) (k : GoString) :
    k ∈ GoMap.keys m ↔ GoMap.get m k ≠ none := by
  induction m with
  | nil => simp [GoMap.keys, GoMap.get]
  | cons e rest ih =>
    obtain ⟨a, v⟩ := e
    by_cases hak : a = k
    · simp [GoMap.keys, GoMap.get, hak]
    · have hka : ¬ k = a := fun h => hak h.symm
      simp [GoMap.keys, GoMap.get, hak, hka, List.mem_filter, ih]

/-- A conditional binding is present exactly when its condition holds. -/
theorem ite_some_ne_none {α : Type} (c : Prop) [Decidable c] (x : α) :
    (if c then some x else none) ≠ none ↔ c := by
  split_ifs with h <;> simp [h]

namespace bootstrap

/-- `contains` is membership in the list. -/
theorem contains_iff (l : List GoString) (s : GoString) : contains l s = true ↔ s ∈ l := by
  induction l with
  | nil => simp [contains]
  | cons v rest ih =>
    by_cases h : v = s
    · simp [contains, h]
    · have hs : ¬ s = v := fun e => h e.symm
      simp [contains, h, hs, ih]

/-- The two mappings after the loop has visited the keys of `order`, started from `init`:
a visited key on an allow-list is bound to the value the loop body computes for it, and
every other key is bound as in `init`. -/
theorem foldl_step_get (mapLower : GoString → GoString) (values : url.Values)
    (order : List GoString) :
    ∀ (init : Filter) (k : GoString),
      GoMap.get (order.foldl (parseFilter.step mapLower values) init).FullMatch k =
        (if k ∈ fullMatch ∧ k ∈ order then some (values.Get k)
         else GoMap.get init.FullMatch k) ∧
      GoMap.get (order.foldl (parseFilter.step mapLower values) init).PartialMatch k =
        (if k ∈ partialMatch ∧ k ∈ order then some (strings.ToLower mapLower (values.Get k))
         else GoMap.get init.PartialMatch k) := by
  induction order with
  | nil => intro init k; simp
  | cons a rest ih =>
    intro init k
    obtain ⟨ihF, ihP⟩ := ih (parseFilter.step mapLower values init a) k
    rw [List.foldl_cons, ihF, ihP]
    constructor
    · by_cases hf : contains fullMatch a = true
      · by_cases hp : contains partialMatch a = true
        · by_cases hak : a = k
          · subst hak
            simp [parseFilter.step, hf, hp, GoMap.get_set, (contains_iff _ _).mp hf]
          · have hka : ¬ k = a := fun e => hak e.symm
            simp [parseFilter.step, hf, hp, GoMap.get_set, hak, hka]
        · by_cases hak : a = k
          · subst hak
            simp [parseFilter.step, hf, hp, GoMap.get_set, (contains_iff _ _).mp hf]
          · have hka : ¬ k = a := fun e => hak e.symm
            simp [parseFilter.step, hf, hp, GoMap.get_set, hak, hka]
      · have hnf : a ∉ fullMatch := fun e => hf ((contains_iff _ _).mpr e)
        by_cases hp : contains partialMatch a = true
        · by_cases hak : a = k
          · subst hak
            simp [parseFilter.step, hf, hp, hnf]
          · have hka : ¬ k = a := fun e => hak e.symm
            simp [parseFilter.step, hf, hp, hak, hka]
        · by_cases hak : a = k
          · subst hak
            simp [parseFilter.step, hf, hp, hnf]
          · have hka : ¬ k = a := fun e => hak e.symm
            simp [parseFilter.step, hf, hp, hak, hka]
    · by_cases hp : contains partialMatch a = true
      · by_cases hf : contains fullMatch a = true
        · by_cases hak : a = k
          · subst hak
            simp [parseFilter.step, hf, hp, GoMap.get_set, (contains_iff _ _).mp hp]
          · have hka : ¬ k = a := fun e => hak e.symm
            simp [parseFilter.step, hf, hp, GoMap.get_set, hak, hka]
        · by_cases hak : a = k
          · subst hak
            simp [parseFilter.step, hf, hp, GoMap.get_set, (contains_iff _ _).mp hp]
          · have hka : ¬ k = a := fun e => hak e.symm
            simp [parseFilter.step, hf, hp, GoMap.get_set, hak, hka]
      · have hnp : a ∉ partialMatch := fun e => hp ((contains_iff _ _).mpr e)
        by_cases hf : contains fullMatch a = true
        · by_cases hak : a = k
          · subst hak
            simp [parseFilter.step, hf, hp, hnp]
          · have hka : ¬ k = a := fun e => hak e.symm
            simp [parseFilter.step, hf, hp, hak, hka]
        · by_cases hak : a = k
          · subst hak
            simp [parseFilter.step, hf, hp, hnp]
          · have hka : ¬ k = a := fun e => hak e.symm
            simp [parseFilter.step, hf, hp, hak, hka]

/-- The two mappings of the filter, key by key, whatever the order in which the loop
visits the keys of the query. -/
theorem parseFilterIn_get (mapLower : GoString → GoString) (order : List GoString)
    (values : url.Values) (hperm : order.Perm (GoMap.keys values)) (k : GoString) :
    GoMap.get (parseFilterIn mapLower order values).FullMatch k =
      (if k ∈ fullMatch ∧ GoMap.get values k ≠ none then some (values.Get k) else none) ∧
    GoMap.get (parseFilterIn mapLower order values).PartialMatch k =
      (if k ∈ partialMatch ∧ GoMap.get values k ≠ none
       then some (strings.ToLower mapLower (values.Get k)) else none) := by
  have hmem : k ∈ order ↔ GoMap.get values k ≠ none := by
    rw [hperm.mem_iff]; exact GoMap.mem_keys values k
  obtain ⟨hF, hP⟩ := foldl_step_get mapLower values order
    { FullMatch := [], PartialMatch := [] } k
  unfold parseFilterIn
  rw [hF, hP]
  simp [hmem, GoMap.get]

/-- C9: whatever the order in which the keys of the query are visited, the keys of
`FullMatch` are exactly the query keys among `state`, `external_id`, `mainflux_id` and
`mainflux_key`, each bound to `values.Get` of the key, which is the first value given for
it; the keys of `PartialMatch` are exactly the query keys equal to `name`; a key outside
both lists, such as `offset` or `limit`, is in neither mapping; no key is in both. -/
theorem parseFilter_recognized (mapLower : GoString → GoString) (order : List GoString)
    (values : url.Values) (hperm : order.Perm (GoMap.keys values)) (k : GoString) :
    (k ∈ GoMap.keys (parseFilterIn mapLower order values).FullMatch ↔
      k ∈ GoMap.keys values ∧
        k ∈ [str "state", str "external_id", str "mainflux_id", str "mainflux_key"]) ∧
    (k ∈ GoMap.keys (parseFilterIn mapLower order values).FullMatch →
      GoMap.get (parseFilterIn mapLower order values).FullMatch k = some (values.Get k)) ∧
    (∀ v vs, GoMap.get values k = some (v :: vs) → values.Get k = v) ∧
    (k ∈ GoMap.keys (parseFilterIn mapLower order values).PartialMatch ↔
      k ∈ GoMap.keys values ∧ k ∈ [str "name"]) ∧
    (k ∉ [str "state", str "external_id", str "mainflux_id", str "mainflux_key"] →
      k ∉ [str "name"] →
      k ∉ GoMap.keys (parseFilterIn mapLower order values).FullMatch ∧
        k ∉ GoMap.keys (parseFilterIn mapLower order values).PartialMatch) ∧
    ((k = str "offset" ∨ k = str "limit") →
      k ∉ GoMap.keys (parseFilterIn mapLower order values).FullMatch ∧
        k ∉ GoMap.keys (parseFilterIn mapLower order values).PartialMatch) ∧
    ¬ (k ∈ GoMap.keys (parseFilterIn mapLower order values).FullMatch ∧
        k ∈ GoMap.keys (parseFilterIn mapLower order values).PartialMatch) := by
  obtain ⟨hF, hP⟩ := parseFilterIn_get mapLower order values hperm k
  have hfm : fullMatch =
      [str "state", str "external_id", str "mainflux_id", str "mainflux_key"] := rfl
  have hpm : partialMatch = [str "name"] := rfl
  have hdisj : ¬ (k ∈ fullMatch ∧ k ∈ partialMatch) := by
    rintro ⟨h1, h2⟩
    rw [hpm, List.mem_singleton] at h2
    rw [h2] at h1
    revert h1
    decide
  have kF : k ∈ GoMap.keys (parseFilterIn mapLower order values).FullMatch ↔
      k ∈ fullMatch ∧ GoMap.get values k ≠ none := by
    rw [GoMap.mem_keys, hF]; exact ite_some_ne_none _ _
  have kP : k ∈ GoMap.keys (parseFilterIn mapLower order values).PartialMatch ↔
      k ∈ partialMatch ∧ GoMap.get values k ≠ none := by
    rw [GoMap.mem_keys, hP]; exact ite_some_ne_none _ _
  have kV : k ∈ GoMap.keys values ↔ GoMap.get values k ≠ none := GoMap.mem_keys _ _
  rw [← hfm, ← hpm]
  refine ⟨?_, ?_, ?_, ?_, ?_, ?_, ?_⟩
  · rw [kF, kV]; exact and_comm
  · intro h
    rw [hF, if_pos (kF.mp h)]
  · intro v vs hv
    simp [url.Values.Get, hv]
  · rw [kP, kV]; exact and_comm
  · intro h1 h2
    exact ⟨fun h => h1 (kF.mp h).1, fun h => h2 (kP.mp h).1⟩
  · intro h
    have h1 : k ∉ fullMatch := by
      rcases h with h | h <;> rw [h] <;> decide
    have h2 : k ∉ partialMatch := by
      rcases h with h | h <;> rw [h] <;> decide
    exact ⟨fun h => h1 (kF.mp h).1, fun h => h2 (kP.mp h).1⟩
  · rintro ⟨h1, h2⟩
    exact hdisj ⟨(kF.mp h1).1, (kP.mp h2).1⟩

/-- C9 at the sample query, its keys visited in reverse order: `external_id` is bound in
`FullMatch` to its value as given, and `offset` and `limit` are in neither mapping. -/
theorem parseFilter_recognized_witness :
    (GoMap.keys sampleQuery).reverse.Perm (GoMap.keys sampleQuery) ∧
    GoMap.get (parseFilterIn (fun s => s) (GoMap.keys sampleQuery).reverse
      sampleQuery).FullMatch (str "external_id") = some (str "Ab") ∧
    str "limit" ∉ GoMap.keys (parseFilterIn (fun s => s) (GoMap.keys sampleQuery).reverse
      sampleQuery).FullMatch ∧
    str "limit" ∉ GoMap.keys (parseFilterIn (fun s => s) (GoMap.keys sampleQuery).reverse
      sampleQuery).PartialMatch := by
  have h1 := parseFilter_recognized (fun s => s) (GoMap.keys sampleQuery).reverse
    sampleQuery (List.reverse_perm _) (str "external_id")
  have h2 := parseFilter_recognized (fun s => s) (GoMap.keys sampleQuery).reverse
    sampleQuery (List.reverse_perm _) (str "limit")
  refine ⟨List.reverse_perm _, ?_, (h2.2.2.2.2.2.1 (Or.inr rfl)).1,
    (h2.2.2.2.2.2.1 (Or.inr rfl)).2⟩
  exact (h1.2.1 (h1.1.mpr ⟨by decide, by decide⟩)).trans (by decide)

/-- On a string of ASCII bytes `strings.ToLower` replaces the letters `A` to `Z` by `a` to
`z` and keeps every other byte. -/
theorem ToLower_ascii (mapLower : GoString → GoString) (s : GoString)
    (h : ∀ c ∈ s, c < 0x80) :
    strings.ToLower mapLower s =
      s.map (fun c => if byte 'A' ≤ c ∧ c ≤ byte 'Z' then c + 32 else c) := by
  have hall : s.all (fun c => decide (c < 0x80)) = true := by
    rw [List.all_eq_true]; intro c hc; simpa using h c hc
  have h32 : byte 'a' - byte 'A' = 32 := by decide
  unfold strings.ToLower
  simp only [hall, if_true, h32]
  split_ifs with hup
  · symm
    have hno : ∀ c ∈ s, ¬ (byte 'A' ≤ c ∧ c ≤ byte 'Z') := by
      intro c hc hcu
      have : s.any (fun c => decide (byte 'A' ≤ c ∧ c ≤ byte 'Z')) = true := by
        rw [List.any_eq_true]; exact ⟨c, hc, by simpa using hcu⟩
      rw [this] at hup
      exact absurd hup (by decide)
    calc s.map (fun c => if byte 'A' ≤ c ∧ c ≤ byte 'Z' then c + 32 else c)
        = s.map (fun c => c) := by
          apply List.map_congr_left
          intro c hc
          simp only [hno c hc, if_false]
      _ = s := List.map_id' s
  · rfl

/-- C10: when the query has the key `name`, whatever the order in which the keys are
visited, `PartialMatch["name"]` is `strings.ToLower` of `values.Get("name")`, the first
value given for `name`; a value stored in `FullMatch` is `values.Get` of its key, with no
case change; lower-casing a string of ASCII bytes replaces `A` to `Z` by `a` to `z`; and
for the query `name=Foo` the filter has `PartialMatch = {"name": "foo"}` and an empty
`FullMatch`. -/
theorem parseFilter_name_lowered (mapLower : GoString → GoString) (order : List GoString)
    (values : url.Values) (hperm : order.Perm (GoMap.keys values))
    (hname : str "name" ∈ GoMap.keys values) :
    GoMap.get (parseFilterIn mapLower order values).PartialMatch (str "name") =
      some (strings.ToLower mapLower (values.Get (str "name"))) ∧
    (∀ v vs, GoMap.get values (str "name") = some (v :: vs) →
      GoMap.get (parseFilterIn mapLower order values).PartialMatch (str "name") =
        some (strings.ToLower mapLower v)) ∧
    (∀ k v, GoMap.get (parseFilterIn mapLower order values).FullMatch k = some v →
      v = values.Get k) ∧
    (∀ s : GoString, (∀ c ∈ s, c < 0x80) → strings.ToLower mapLower s =
      s.map (fun c => if byte 'A' ≤ c ∧ c ≤ byte 'Z' then c + 32 else c)) ∧
    parseFilter mapLower [(str "name", [str "Foo"])] =
      { FullMatch := [], PartialMatch := [(str "name", str "foo")] } := by
  have hP := (parseFilterIn_get mapLower order values hperm (str "name")).2
  have hin : str "name" ∈ partialMatch ∧ GoMap.get values (str "name") ≠ none :=
    ⟨by decide, (GoMap.mem_keys values _).mp hname⟩
  rw [if_pos hin] at hP
  refine ⟨hP, ?_, ?_, ToLower_ascii mapLower, rfl⟩
  · intro v vs hv
    rw [hP]
    simp [url.Values.Get, hv]
  · intro k v hv
    rw [(parseFilterIn_get mapLower order values hperm k).1] at hv
    split_ifs at hv
    exact (Option.some.inj hv).symm

/-- C10 at the sample query `name=Foo&name=Bar&state=1&...`: `PartialMatch["name"]` is
`foo`, the lower-cased first value. -/
theorem parseFilter_name_lowered_witness :
    str "name" ∈ GoMap.keys sampleQuery ∧
    GoMap.get (parseFilter (fun s => s) sampleQuery).PartialMatch (str "name") =
      some (str "foo") :=
  ⟨by decide,
    (parseFilter_name_lowered (fun s => s) (GoMap.keys sampleQuery) sampleQuery
      (List.Perm.refl _) (by decide)).1.trans (by decide)⟩

end bootstrap

/-! ### C12, C13 and C14: the error mappers -/

namespace errors

/-- An error of a single kind is classified under a kind exactly when it is that kind. -/
theorem Contains_of_single {err : GoError} {k : Kind} (h : err.hasSingleKind k) (k1 : Kind) :
    Contains err k1 = decide (k1 = k) := by
  by_cases hk : k1 = k
  · rw [(h k1).mpr hk]; simp [hk]
  · have : Contains err k1 ≠ true := fun hc => hk ((h k1).mp hc)
    simp [hk, this]

/-- A domain error that wraps nothing has the single kind of its tag. -/
theorem hasSingleKind_domain (k : Kind) (msg : GoString) :
    (GoError.domain k msg).hasSingleKind k := by
  intro k1
  simp only [Contains, decide_eq_true_eq]
  exact eq_comm

end errors

namespace bootstrap

/-- The `switch` of the bootstrap mapper is one call of `WriteHeader`. -/
theorem switch_eq (err : errors.GoError) (w : http.ResponseWriter) :
    encodeError.switch err w = w.WriteHeader (statusOf err) := by
  unfold encodeError.switch statusOf
  split_ifs <;> rfl

/-- The calls the bootstrap mapper makes, after those already made on the writer. -/
theorem encodeError_calls (err : errors.GoError) (w : http.ResponseWriter) :
    (encodeError err w).calls =
      w.calls ++ http.Call.WriteHeader (statusOf err) :: envelopeCalls err w.broken ∧
    (encodeError err w).broken = w.broken := by
  unfold encodeError envelopeCalls
  rw [switch_eq]
  cases hm : err.Msg with
  | none => simp [http.ResponseWriter.WriteHeader]
  | some msg =>
    cases hb : w.broken <;>
      simp [http.ResponseWriter.WriteHeader, http.ResponseWriter.SetHeader,
        http.ResponseWriter.Write, json.EncodeErrorRes, hb, contentType,
        http.StatusInternalServerError]

/-- The status of the bootstrap mapper for an error of a single kind is the one of the
table. -/
theorem statusOf_single {err : errors.GoError} {k : errors.Kind}
    (h : err.hasSingleKind k) : statusOf err = errors.statusTable k := by
  unfold statusOf
  simp only [errors.Contains_of_single h]
  cases k <;> rfl

end bootstrap

namespace provision

/-- The `switch` of the provision mapper is one call of `WriteHeader`. -/
theorem provision_switch_eq (err : errors.GoError) (w : http.ResponseWriter) :
    encodeError.switch err w = w.WriteHeader (statusOf err) := by
  unfold encodeError.switch statusOf
  split_ifs <;> rfl

/-- The calls the provision mapper makes, after those already made on the writer. -/
theorem provision_encodeError_calls (err : errors.GoError) (w : http.ResponseWriter) :
    (encodeError err w).calls =
      w.calls ++ http.Call.WriteHeader (statusOf err) ::
        bootstrap.envelopeCalls err w.broken ∧
    (encodeError err w).broken = w.broken := by
  unfold encodeError bootstrap.envelopeCalls
  rw [provision_switch_eq]
  cases hm : err.Msg with
  | none => simp [http.ResponseWriter.WriteHeader]
  | some msg =>
    cases hb : w.broken <;>
      simp [http.ResponseWriter.WriteHeader, http.ResponseWriter.SetHeader,
        http.ResponseWriter.Write, json.EncodeErrorRes, hb, contentType,
        http.StatusInternalServerError]

end provision

namespace bootstrap

/-- The status sent and the codes of the `WriteHeader` calls, for a response that starts
with a `WriteHeader` followed by the calls of the envelope. -/
theorem status_of_calls (s : Nat) (err : errors.GoError) (broken : Bool) :
    http.statusSent (http.Call.WriteHeader s :: envelopeCalls err broken) = some s ∧
    (http.statusCalls (http.Call.WriteHeader s :: envelopeCalls err broken) =
      if broken = true ∧ err.Msg ≠ none then [s, 500] else [s]) := by
  unfold envelopeCalls
  cases err.Msg with
  | none => simp [http.statusSent, http.statusCalls]
  | some msg => cases broken <;> simp [http.statusSent, http.statusCalls]

/-- C12: the bootstrap error mapper is total and follows the table.  For every error, on
a writer on which nothing has been called, the response has one status, the code of the
single `WriteHeader` call of the `switch` (a second call is made only when the envelope
cannot be written, and changes nothing).  For an error classified under a single kind the
status is the one of the table: 415, 400, 404, 401, 403, 409, 503 or 500; for an error
classified under none of the named kinds it is 500. -/
theorem encodeError_table (err : errors.GoError) (broken : Bool) :
    (http.statusSent (encodeError err (freshWriter broken)).calls = some (statusOf err) ∧
      http.statusCalls (encodeError err (freshWriter broken)).calls =
        if broken = true ∧ err.Msg ≠ none then [statusOf err, 500] else [statusOf err]) ∧
    (∀ k, err.hasSingleKind k →
      http.statusSent (encodeError err (freshWriter broken)).calls =
        some (errors.statusTable k)) ∧
    ((∀ k, errors.Contains err k = true → ∃ name, k = errors.Kind.other name) →
      http.statusSent (encodeError err (freshWriter broken)).calls = some 500) ∧
    (errors.statusTable .ErrUnsupportedContentType = 415 ∧
      errors.statusTable .ErrMalformedEntity = 400 ∧
      errors.statusTable .ErrInvalidQueryParams = 400 ∧
      errors.statusTable .ErrNotFound = 404 ∧
      errors.statusTable .ErrAuthentication = 401 ∧
      errors.statusTable .ErrAuthorization = 403 ∧
      errors.statusTable .ErrExternalKey = 403 ∧
      errors.statusTable .ErrExternalKeySecure = 403 ∧
      errors.statusTable .ErrConflict = 409 ∧
      errors.statusTable .ErrThings = 503 ∧
      errors.statusTable .ErrCreateEntity = 500 ∧
      errors.statusTable .ErrUpdateEntity = 500 ∧
      errors.statusTable .ErrViewEntity = 500 ∧
      errors.statusTable .ErrRemoveEntity = 500 ∧
      ∀ name, errors.statusTable (.other name) = 500) := by
  have hc := (encodeError_calls err (freshWriter broken)).1
  have hcalls : (encodeError err (freshWriter broken)).calls =
      http.Call.WriteHeader (statusOf err) :: envelopeCalls err broken := by
    rw [hc]; rfl
  obtain ⟨h1, h2⟩ := status_of_calls (statusOf err) err broken
  refine ⟨⟨?_, ?_⟩, ?_, ?_, ?_⟩
  · rw [hcalls]; exact h1
  · rw [hcalls]; exact h2
  · intro k hk
    rw [hcalls, h1, statusOf_single hk]
  · intro hnone
    rw [hcalls, h1]
    have hf : ∀ k, (∀ name, k ≠ errors.Kind.other name) → errors.Contains err k = false := by
      intro k hk
      cases hck : errors.Contains err k with
      | false => rfl
      | true =>
        obtain ⟨name, hn⟩ := hnone k hck
        exact absurd hn (hk name)
    have e1 := hf .ErrUnsupportedContentType (by intro n; simp)
    have e2 := hf .ErrInvalidQueryParams (by intro n; simp)
    have e3 := hf .ErrMalformedEntity (by intro n; simp)
    have e4 := hf .ErrNotFound (by intro n; simp)
    have e5 := hf .ErrAuthentication (by intro n; simp)
    have e6 := hf .ErrExternalKey (by intro n; simp)
    have e7 := hf .ErrExternalKeySecure (by intro n; simp)
    have e8 := hf .ErrAuthorization (by intro n; simp)
    have e9 := hf .ErrConflict (by intro n; simp)
    have e10 := hf .ErrThings (by intro n; simp)
    simp [statusOf, e1, e2, e3, e4, e5, e6, e7, e8, e9, e10, http.StatusInternalServerError]
  · refine ⟨rfl, rfl, rfl, rfl, rfl, rfl, rfl, rfl, rfl, rfl, rfl, rfl, rfl, rfl, ?_⟩
    intro name; rfl

/-- C12 at the sentinel of a missing entity and at the upstream error of the things
service: the bootstrap mapper answers 404 and 503. -/
theorem encodeError_table_witness :
    http.statusSent (encodeError (errors.GoError.domain .ErrNotFound (str "entity not found"))
      (freshWriter false)).calls = some 404 ∧
    http.statusSent (encodeError
      (errors.GoError.domain .ErrThings (str "failed to receive response from Things service"))
      (freshWriter false)).calls = some 503 :=
  ⟨(encodeError_table _ false).2.1 _ (errors.hasSingleKind_domain _ _),
    (encodeError_table _ false).2.1 _ (errors.hasSingleKind_domain _ _)⟩

end bootstrap

namespace provision

/-- C13: for an error returned by the provisioning service that is classified under the
single kind Conflict and is an `errors.Error` with message `msg`, the provision mapper,
on a writer that accepts writes, writes status 409 and then the JSON envelope whose field
`error` holds `msg`, and nothing else to the body; the status is 409 also when the write
fails.  For an error that is not an `errors.Error` it writes the status and no body. -/
theorem conflict_response (err : errors.GoError) (msg : GoString)
    (hk : err.hasSingleKind .ErrConflict) (hm : err.Msg = some msg) :
    (encodeError err (bootstrap.freshWriter false)).calls =
      [http.Call.WriteHeader 409,
        http.Call.SetHeader (str "Content-Type") (str "application/json"),
        http.Call.Write (http.Written.errorRes { Err := msg })] ∧
    http.statusSent (encodeError err (bootstrap.freshWriter false)).calls = some 409 ∧
    http.body (encodeError err (bootstrap.freshWriter false)).calls =
      [http.Written.errorRes { Err := msg }] ∧
    http.statusSent (encodeError err (bootstrap.freshWriter true)).calls = some 409 ∧
    (∀ (text : GoString) (broken : Bool),
      (encodeError (errors.GoError.raw text) (bootstrap.freshWriter broken)).calls =
        [http.Call.WriteHeader (statusOf (errors.GoError.raw text))] ∧
      http.body (encodeError (errors.GoError.raw text) (bootstrap.freshWriter broken)).calls
        = []) := by
  have hs : statusOf err = 409 := by
    unfold statusOf
    simp only [errors.Contains_of_single hk]
    rfl
  have hf := (provision_encodeError_calls err (bootstrap.freshWriter false)).1
  have ht := (provision_encodeError_calls err (bootstrap.freshWriter true)).1
  simp only [bootstrap.freshWriter, bootstrap.envelopeCalls, hm, hs, List.nil_append] at hf ht
  simp only [bootstrap.freshWriter]
  refine ⟨?_, ?_, ?_, ?_, ?_⟩
  · rw [hf]; rfl
  · rw [hf]; rfl
  · rw [hf]; rfl
  · rw [ht]; rfl
  · intro text broken
    have hr := (provision_encodeError_calls (errors.GoError.raw text)
      { calls := [], broken := broken }).1
    simp only [bootstrap.envelopeCalls, errors.GoError.Msg, List.nil_append] at hr
    rw [hr]
    exact ⟨rfl, rfl⟩

/-- C13 at the conflict error with the message `entity already exists`: status 409 and
the envelope holding that message. -/
theorem conflict_response_witness :
    (errors.GoError.domain .ErrConflict (str "entity already exists")).hasSingleKind
      .ErrConflict ∧
    (encodeError (errors.GoError.domain .ErrConflict (str "entity already exists"))
      (bootstrap.freshWriter false)).calls =
      [http.Call.WriteHeader 409,
        http.Call.SetHeader (str "Content-Type") (str "application/json"),
        http.Call.Write (http.Written.errorRes { Err := str "entity already exists" })] :=
  ⟨errors.hasSingleKind_domain _ _,
    (conflict_response _ _ (errors.hasSingleKind_domain _ _) rfl).1⟩

end provision

/-- The status the bootstrap mapper sends, on a writer on which nothing has been called. -/
theorem bootstrap.statusSent_encodeError (err : errors.GoError) (broken : Bool) :
    http.statusSent (bootstrap.encodeError err (bootstrap.freshWriter broken)).calls =
      some (bootstrap.statusOf err) := by
  have hc := (bootstrap.encodeError_calls err (bootstrap.freshWriter broken)).1
  rw [hc]
  exact (bootstrap.status_of_calls (bootstrap.statusOf err) err broken).1

/-- The status the provision mapper sends, on a writer on which nothing has been called. -/
theorem provision.statusSent_provision (err : errors.GoError) (broken : Bool) :
    http.statusSent (provision.encodeError err (bootstrap.freshWriter broken)).calls =
      some (provision.statusOf err) := by
  have hc := (provision.provision_encodeError_calls err (bootstrap.freshWriter broken)).1
  rw [hc]
  exact (bootstrap.status_of_calls (provision.statusOf err) err broken).1

/-- The status of the provision mapper for an error of a single kind: the one of the
table for the four kinds its `switch` names, 500 for every other kind. -/
theorem provision.provision_statusOf_single {err : errors.GoError} {k : errors.Kind}
    (h : err.hasSingleKind k) :
    provision.statusOf err =
      if k = .ErrUnsupportedContentType ∨ k = .ErrMalformedEntity ∨ k = .ErrConflict ∨
          k = .ErrAuthentication then errors.statusTable k else 500 := by
  unfold provision.statusOf
  simp only [errors.Contains_of_single h]
  cases k <;> rfl

/-- C14, counterexample: for the error of a missing entity the bootstrap mapper answers
404 and the provision mapper answers 500. -/
theorem provision_not_found_differs :
    http.statusSent (bootstrap.encodeError
      (errors.GoError.domain .ErrNotFound (str "entity not found"))
      (bootstrap.freshWriter false)).calls = some 404 ∧
    http.statusSent (provision.encodeError
      (errors.GoError.domain .ErrNotFound (str "entity not found"))
      (bootstrap.freshWriter false)).calls = some 500 := by
  constructor <;> decide

/-- C14, amended: for an error of a single kind the provision mapper sends the same
status as the bootstrap mapper, the one of the table, when the kind is
UnsupportedContentType, MalformedEntity, AuthenticationFailed, Conflict, one of
Create/Update/View/RemoveEntity, or a kind that no transport names; for NotFound,
AuthorizationFailed and InvalidQueryParams, which its `switch` does not name, it sends
500 where the bootstrap mapper sends 404, 403 and 400. -/
theorem mappers_agree (err : errors.GoError) (k : errors.Kind) (broken : Bool)
    (hk : err.hasSingleKind k) :
    ((k = .ErrUnsupportedContentType ∨ k = .ErrMalformedEntity ∨ k = .ErrAuthentication ∨
        k = .ErrConflict ∨ k = .ErrCreateEntity ∨ k = .ErrUpdateEntity ∨
        k = .ErrViewEntity ∨ k = .ErrRemoveEntity ∨ ∃ name, k = .other name) →
      http.statusSent (provision.encodeError err (bootstrap.freshWriter broken)).calls =
        some (errors.statusTable k) ∧
      http.statusSent (bootstrap.encodeError err (bootstrap.freshWriter broken)).calls =
        some (errors.statusTable k)) ∧
    ((k = .ErrNotFound ∨ k = .ErrAuthorization ∨ k = .ErrInvalidQueryParams) →
      http.statusSent (provision.encodeError err (bootstrap.freshWriter broken)).calls =
        some 500 ∧
      http.statusSent (bootstrap.encodeError err (bootstrap.freshWriter broken)).calls =
        some (errors.statusTable k) ∧
      errors.statusTable k ≠ 500) := by
  rw [provision.statusSent_provision, bootstrap.statusSent_encodeError,
    provision.provision_statusOf_single hk, bootstrap.statusOf_single hk]
  constructor
  · intro h
    rcases h with h | h | h | h | h | h | h | h | ⟨name, h⟩ <;> subst h <;> exact ⟨rfl, rfl⟩
  · intro h
    rcases h with h | h | h <;> subst h <;> exact ⟨rfl, rfl, by decide⟩

/-- C14, amended, at the conflict error and at the error of a missing entity. -/
theorem mappers_agree_witness :
    http.statusSent (provision.encodeError
      (errors.GoError.domain .ErrConflict (str "entity already exists"))
      (bootstrap.freshWriter false)).calls = some 409 ∧
    http.statusSent (provision.encodeError
      (errors.GoError.domain .ErrNotFound (str "entity not found"))
      (bootstrap.freshWriter false)).calls = some 500 :=
  ⟨((mappers_agree _ _ false (errors.hasSingleKind_domain .ErrConflict _)).1
      (Or.inr (Or.inr (Or.inr (Or.inl rfl))))).1,
    ((mappers_agree _ _ false (errors.hasSingleKind_domain .ErrNotFound _)).2
      (Or.inl rfl)).1⟩

/-! ### C19: failure to write the error envelope -/

/-- C19, the code at the failing input: for the conflict error, which carries a message
and is mapped to 409, on a writer whose writes fail, both mappers call `WriteHeader(409)`,
set the content type, fail to write the envelope and call `WriteHeader(500)`; the status
of the response is the first one written, 409, not 500, and no body is written. -/
theorem envelope_failure_keeps_status :
    (bootstrap.encodeError (errors.GoError.domain .ErrConflict (str "entity already exists"))
      (bootstrap.freshWriter true)).calls =
      [http.Call.WriteHeader 409,
        http.Call.SetHeader (str "Content-Type") (str "application/json"),
        http.Call.WriteHeader 500] ∧
    http.statusSent (bootstrap.encodeError
      (errors.GoError.domain .ErrConflict (str "entity already exists"))
      (bootstrap.freshWriter true)).calls = some 409 ∧
    http.body (bootstrap.encodeError
      (errors.GoError.domain .ErrConflict (str "entity already exists"))
      (bootstrap.freshWriter true)).calls = [] ∧
    http.statusSent (provision.encodeError
      (errors.GoError.domain .ErrConflict (str "entity already exists"))
      (bootstrap.freshWriter true)).calls = some 409 := by
  refine ⟨?_, ?_, ?_, ?_⟩ <;> decide

/-! ### C15, C16 and C20: content type and body of a request -/

namespace strings

/-- Every string starts with itself. -/
theorem HasPrefix_self (s : GoString) : HasPrefix s s = true := by
  induction s with
  | nil => rfl
  | cons c s ih => simp [HasPrefix, ih]

/-- Every string contains itself. -/
theorem Contains_self (s : GoString) : Contains s s = true := by
  cases s with
  | nil => rfl
  | cons c s => simp [Contains, HasPrefix_self]

end strings

namespace bootstrap

/-- C15: when the `Content-Type` header of the request does not contain
`application/json`, the five decoders of the bootstrap endpoints with a body fail with
`ErrUnsupportedContentType`, whatever the token and the body are; the bootstrap mapper
turns that error into status 415 and the envelope holding its message, `unsupported
content type`. -/
theorem unsupported_content_type {P : Type} (dec : List Nat → Except GoString P)
    (r : http.Request)
    (h : strings.Contains (r.Header.Get (str "Content-Type")) (str "application/json")
      = false) :
    decodeAddRequest dec r = .error errors.GoError.ErrUnsupportedContentType ∧
    decodeUpdateRequest dec r = .error errors.GoError.ErrUnsupportedContentType ∧
    decodeUpdateCertRequest dec r = .error errors.GoError.ErrUnsupportedContentType ∧
    decodeUpdateConnRequest dec r = .error errors.GoError.ErrUnsupportedContentType ∧
    decodeStateRequest dec r = .error errors.GoError.ErrUnsupportedContentType ∧
    (encodeError errors.GoError.ErrUnsupportedContentType (freshWriter false)).calls =
      [http.Call.WriteHeader 415,
        http.Call.SetHeader (str "Content-Type") (str "application/json"),
        http.Call.Write (http.Written.errorRes { Err := str "unsupported content type" })] ∧
    http.statusSent
      (encodeError errors.GoError.ErrUnsupportedContentType (freshWriter false)).calls
      = some 415 ∧
    http.body
      (encodeError errors.GoError.ErrUnsupportedContentType (freshWriter false)).calls
      = [http.Written.errorRes { Err := str "unsupported content type" }] := by
  have hc : strings.Contains (r.Header.Get (str "Content-Type")) contentType = false := h
  refine ⟨?_, ?_, ?_, ?_, ?_, by decide, by decide, by decide⟩
  · simp [decodeAddRequest, hc]
  · simp [decodeUpdateRequest, hc]
  · simp [decodeUpdateCertRequest, hc]
  · simp [decodeUpdateConnRequest, hc]
  · simp [decodeStateRequest, hc]

/-- C15 at a request with `Content-Type: text/plain` and at a request without the header:
decoding fails with `ErrUnsupportedContentType`, also with a valid token and body. -/
theorem unsupported_content_type_witness :
    decodeAddRequest acceptAll (sampleRequest (str "text/plain") (str "Bearer tok") [])
      = .error errors.GoError.ErrUnsupportedContentType ∧
    decodeStateRequest acceptAll sampleBareRequest
      = .error errors.GoError.ErrUnsupportedContentType :=
  ⟨(unsupported_content_type acceptAll _ (by decide)).1,
    (unsupported_content_type acceptAll _ (by decide)).2.2.2.2.1⟩

/-- C16: with a content type the service accepts and a token present, when the body is
not valid JSON for the payload, the five bootstrap decoders fail with an error that is
classified as MalformedEntity and wraps the parse error, and the bootstrap mapper answers
400.  `decodeProvisionRequest` returns the parse error as it is: the error is not
classified as MalformedEntity and the provision mapper answers 500 with no body. -/
theorem malformed_body {P : Type} (dec : List Nat → Except GoString P) (r : http.Request)
    (t e : GoString)
    (hct : strings.Contains (r.Header.Get (str "Content-Type")) (str "application/json")
      = true)
    (ht : httputil.ExtractAuthToken r = .ok t) (hd : dec r.Body = .error e) :
    (decodeAddRequest dec r =
        .error (errors.Wrap errors.GoError.ErrMalformedEntity (.raw e)) ∧
      decodeUpdateRequest dec r =
        .error (errors.Wrap errors.GoError.ErrMalformedEntity (.raw e)) ∧
      decodeUpdateCertRequest dec r =
        .error (errors.Wrap errors.GoError.ErrMalformedEntity (.raw e)) ∧
      decodeUpdateConnRequest dec r =
        .error (errors.Wrap errors.GoError.ErrMalformedEntity (.raw e)) ∧
      decodeStateRequest dec r =
        .error (errors.Wrap errors.GoError.ErrMalformedEntity (.raw e))) ∧
    (errors.Wrap errors.GoError.ErrMalformedEntity (.raw e)).hasSingleKind
      .ErrMalformedEntity ∧
    (∀ broken, http.statusSent (encodeError
      (errors.Wrap errors.GoError.ErrMalformedEntity (.raw e)) (freshWriter broken)).calls
      = some 400) ∧
    (r.Header.Get (str "Content-Type") = str "application/json" →
      provision.decodeProvisionRequest dec r = .error (.raw e) ∧
      errors.Contains (.raw e) .ErrMalformedEntity = false ∧
      (∀ broken, (provision.encodeError (.raw e) (freshWriter broken)).calls =
        [http.Call.WriteHeader 500])) := by
  have hc : strings.Contains (r.Header.Get (str "Content-Type")) contentType = true := hct
  have hsingle : (errors.Wrap errors.GoError.ErrMalformedEntity (.raw e)).hasSingleKind
      .ErrMalformedEntity := by
    intro k1
    simp only [errors.Wrap, errors.GoError.ErrMalformedEntity, errors.Contains,
      Bool.or_false, decide_eq_true_eq]
    exact eq_comm
  refine ⟨⟨?_, ?_, ?_, ?_, ?_⟩, hsingle, ?_, ?_⟩
  · simp [decodeAddRequest, hc, ht, hd]
  · simp [decodeUpdateRequest, hc, ht, hd]
  · simp [decodeUpdateCertRequest, hc, ht, hd]
  · simp [decodeUpdateConnRequest, hc, ht, hd]
  · simp [decodeStateRequest, hc, ht, hd]
  · intro broken
    rw [statusSent_encodeError, statusOf_single hsingle]; rfl
  · intro hp
    have hp1 : r.Header.Get (str "Content-Type") = provision.contentType := hp
    refine ⟨?_, rfl, ?_⟩
    · simp [provision.decodeProvisionRequest, hp1, ht, hd]
    · intro broken
      have hcalls := (provision.provision_encodeError_calls (.raw e) (freshWriter broken)).1
      rw [hcalls]
      rfl

/-- C16 at a request with `Content-Type: application/json`, the token `tok` and a body
that does not parse: the bootstrap decoder returns a MalformedEntity error that wraps the
parse error, the provision decoder returns the parse error itself. -/
theorem malformed_body_witness :
    decodeAddRequest rejectAll
      (sampleRequest (str "application/json") (str "Bearer tok") (str "\x7b")) =
      .error (errors.GoError.wrap .ErrMalformedEntity (str "malformed entity specification")
        (.raw (str "unexpected end of JSON input"))) ∧
    provision.decodeProvisionRequest rejectAll
      (sampleRequest (str "application/json") (str "Bearer tok") (str "\x7b")) =
      .error (.raw (str "unexpected end of JSON input")) ∧
    (provision.encodeError (.raw (str "unexpected end of JSON input"))
      (freshWriter false)).calls = [http.Call.WriteHeader 500] :=
  ⟨(malformed_body rejectAll
      (sampleRequest (str "application/json") (str "Bearer tok") (str "\x7b"))
      (str "tok") (str "unexpected end of JSON input") (by decide) rfl rfl).1.1,
    ((malformed_body rejectAll
      (sampleRequest (str "application/json") (str "Bearer tok") (str "\x7b"))
      (str "tok") (str "unexpected end of JSON input") (by decide) rfl rfl).2.2.2
      (by decide)).1,
    ((malformed_body rejectAll
      (sampleRequest (str "application/json") (str "Bearer tok") (str "\x7b"))
      (str "tok") (str "unexpected end of JSON input") (by decide) rfl rfl).2.2.2
      (by decide)).2.2 false⟩

/-- C20: `decodeProvisionRequest` fails with `ErrUnsupportedContentType` exactly when the
`Content-Type` header differs from `application/json`, an exact, case-sensitive
comparison, and `decodeAddRequest` exactly when the header does not contain
`application/json`.  Every header value that passes the check of the provisioning service
passes the check of the bootstrap service, and the value
`application/json; charset=utf-8` passes the bootstrap check and fails the provisioning
check. -/
theorem content_type_checks {P Q : Type} (dec : List Nat → Except GoString P)
    (dec1 : List Nat → Except GoString Q) (r : http.Request) :
    (provision.decodeProvisionRequest dec r =
        .error errors.GoError.ErrUnsupportedContentType ↔
      r.Header.Get (str "Content-Type") ≠ str "application/json") ∧
    (decodeAddRequest dec1 r = .error errors.GoError.ErrUnsupportedContentType ↔
      strings.Contains (r.Header.Get (str "Content-Type")) (str "application/json")
        = false) ∧
    (provision.decodeProvisionRequest dec r ≠
        .error errors.GoError.ErrUnsupportedContentType →
      decodeAddRequest dec1 r ≠ .error errors.GoError.ErrUnsupportedContentType) ∧
    (decodeAddRequest acceptAll
        (sampleRequest (str "application/json; charset=utf-8") (str "Bearer tok") [])
        = .ok { token := str "tok", payload := () } ∧
      provision.decodeProvisionRequest acceptAll
        (sampleRequest (str "application/json; charset=utf-8") (str "Bearer tok") [])
        = .error errors.GoError.ErrUnsupportedContentType ∧
      provision.decodeProvisionRequest acceptAll
        (sampleRequest (str "Application/JSON") (str "Bearer tok") [])
        = .error errors.GoError.ErrUnsupportedContentType) := by
  have hprov : provision.decodeProvisionRequest dec r =
        .error errors.GoError.ErrUnsupportedContentType ↔
      r.Header.Get (str "Content-Type") ≠ str "application/json" := by
    unfold provision.decodeProvisionRequest
    have hct : provision.contentType = str "application/json" := rfl
    rw [hct]
    by_cases h : r.Header.Get (str "Content-Type") = str "application/json"
    · simp only [h, ne_eq, not_true_eq_false, if_false, iff_false]
      unfold httputil.ExtractAuthToken
      simp only
      split_ifs
      · cases dec r.Body <;> simp [errors.GoError.ErrUnsupportedContentType]
      · simp [errors.GoError.ErrUnsupportedContentType, errors.GoError.ErrAuthentication]
    · simp [h]
  have hboot : decodeAddRequest dec1 r = .error errors.GoError.ErrUnsupportedContentType ↔
      strings.Contains (r.Header.Get (str "Content-Type")) (str "application/json")
        = false := by
    unfold decodeAddRequest
    have hct : contentType = str "application/json" := rfl
    rw [hct]
    cases h : strings.Contains (r.Header.Get (str "Content-Type")) (str "application/json")
    · simp
    · simp only [Bool.not_true, Bool.false_eq_true, if_false, iff_false]
      unfold httputil.ExtractAuthToken
      simp only
      split_ifs
      · cases dec1 r.Body <;>
          simp [errors.GoError.ErrUnsupportedContentType, errors.Wrap,
            errors.GoError.ErrMalformedEntity]
      · simp [errors.GoError.ErrUnsupportedContentType, errors.GoError.ErrAuthentication]
  refine ⟨hprov, hboot, ?_, rfl, rfl, rfl⟩
  intro hne hb
  apply hne
  rw [hprov]
  intro heq
  rw [hboot, heq, strings.Contains_self] at hb
  exact absurd hb (by decide)

/-- C20 at the request with `Content-Type: application/json`: both checks pass. -/
theorem content_type_checks_witness :
    provision.decodeProvisionRequest acceptAll
      (sampleRequest (str "application/json") (str "Bearer tok") [])
      ≠ .error errors.GoError.ErrUnsupportedContentType ∧
    decodeAddRequest acceptAll
      (sampleRequest (str "application/json") (str "Bearer tok") [])
      ≠ .error errors.GoError.ErrUnsupportedContentType := by
  have h := content_type_checks acceptAll acceptAll
    (sampleRequest (str "application/json") (str "Bearer tok") [])
  have hp : provision.decodeProvisionRequest acceptAll
      (sampleRequest (str "application/json") (str "Bearer tok") [])
      ≠ .error errors.GoError.ErrUnsupportedContentType := by
    rw [Ne, h.1]; decide
  exact ⟨hp, h.2.2.1 hp⟩

end bootstrap

/-! ### C17 and C18: the response encoders -/

namespace bootstrap

/-- C17: `encodeSecureRes` sets the content type and writes status 200 for every
response.  When the response is a sequence of bytes `b`, the body written is `b` itself,
in one raw write with no JSON line, and the result is an error exactly when the write
fails; when the response is not a sequence of bytes, no body is written and the result is
success. -/
theorem secure_response (response : EndpointResponse) (broken : Bool) :
    http.statusSent (encodeSecureRes (freshWriter broken) response).1.calls = some 200 ∧
    http.statusCalls (encodeSecureRes (freshWriter broken) response).1.calls = [200] ∧
    (∀ b, response.bytes = some b →
      (broken = false →
        (encodeSecureRes (freshWriter broken) response).1.calls =
          [http.Call.SetHeader (str "Content-Type") (str "application/json"),
            http.Call.WriteHeader 200, http.Call.Write (http.Written.raw b)] ∧
        http.body (encodeSecureRes (freshWriter broken) response).1.calls =
          [http.Written.raw b] ∧
        (encodeSecureRes (freshWriter broken) response).2 = true) ∧
      (broken = true →
        http.body (encodeSecureRes (freshWriter broken) response).1.calls = [] ∧
        (encodeSecureRes (freshWriter broken) response).2 = false)) ∧
    (response.bytes = none →
      (encodeSecureRes (freshWriter broken) response).1.calls =
        [http.Call.SetHeader (str "Content-Type") (str "application/json"),
          http.Call.WriteHeader 200] ∧
      http.body (encodeSecureRes (freshWriter broken) response).1.calls = [] ∧
      (encodeSecureRes (freshWriter broken) response).2 = true) := by
  cases hb : response.bytes with
  | none =>
    simp [encodeSecureRes, hb, freshWriter, http.ResponseWriter.SetHeader,
      http.ResponseWriter.WriteHeader, http.statusSent, http.statusCalls, http.body,
      http.StatusOK, contentType]
  | some b =>
    cases broken <;>
      simp [encodeSecureRes, hb, freshWriter, http.ResponseWriter.SetHeader,
        http.ResponseWriter.WriteHeader, http.ResponseWriter.Write, http.statusSent,
        http.statusCalls, http.body, http.StatusOK, contentType]

/-- C17 at a response of four bytes: the body is those four bytes. -/
theorem secure_response_witness :
    http.body (encodeSecureRes (freshWriter false) sampleSecret).1.calls =
      [http.Written.raw [1, 2, 3, 255]] ∧
    http.statusSent (encodeSecureRes (freshWriter false) sampleSecret).1.calls = some 200 :=
  ⟨(((secure_response sampleSecret false).2.2.1 [1, 2, 3, 255] rfl).1 rfl).2.1,
    (secure_response sampleSecret false).1⟩

/-- The calls made by the loop over the custom headers. -/
theorem setHeaders_calls (headers : GoMap GoString) (order : List GoString) :
    ∀ w : http.ResponseWriter,
      (setHeaders headers order w).calls = w.calls ++ headerCalls headers order ∧
      (setHeaders headers order w).broken = w.broken := by
  induction order with
  | nil => intro w; simp [setHeaders, headerCalls]
  | cons k rest ih =>
    intro w
    cases hk : GoMap.get headers k with
    | none =>
      obtain ⟨h1, h2⟩ := ih w
      have e : headerCalls headers (k :: rest) = headerCalls headers rest := by
        simp [headerCalls, hk]
      simp only [setHeaders, hk]
      rw [h1, h2, e]
      exact ⟨rfl, rfl⟩
    | some v =>
      obtain ⟨h1, h2⟩ := ih (w.SetHeader k v)
      have e : headerCalls headers (k :: rest) =
          http.Call.SetHeader k v :: headerCalls headers rest := by
        simp [headerCalls, hk]
      simp only [setHeaders, hk]
      rw [h1, h2, e]
      simp [http.ResponseWriter.SetHeader]

/-- The header map after the calls of the loop over the custom headers, followed by a
call that is not a `Set`: the binding of a canonical name is the one `sentValue`
computes from the binding before the loop. -/
theorem headerSentFrom_headerCalls (headers : GoMap GoString) (code : Nat)
    (rest : List http.Call) (order : List GoString) :
    ∀ (h : GoMap GoString) (k : GoString),
      GoMap.get (http.headerSentFrom h
        (headerCalls headers order ++ http.Call.WriteHeader code :: rest)) k =
        sentValue headers k order (GoMap.get h k) := by
  induction order with
  | nil => intro h k; simp [headerCalls, http.headerSentFrom, sentValue]
  | cons a order ih =>
    intro h k
    cases ha : GoMap.get headers a with
    | none =>
      have e : headerCalls headers (a :: order) = headerCalls headers order := by
        simp [headerCalls, ha]
      rw [e, ih h k]
      simp only [sentValue, ha]
    | some v =>
      have e : headerCalls headers (a :: order) =
          http.Call.SetHeader a v :: headerCalls headers order := by
        simp [headerCalls, ha]
      rw [e, List.cons_append, http.headerSentFrom,
        ih (GoMap.set h (textproto.CanonicalMIMEHeaderKey a) v) k, GoMap.get_set]
      simp only [sentValue, ha]
      split_ifs <;> rfl

/-- When no custom header has the canonical name `k`, the loop leaves the value of `k` as
it was. -/
theorem sentValue_untouched (headers : GoMap GoString) (k : GoString)
    (order : List GoString) :
    ∀ acc, (∀ a ∈ order, textproto.CanonicalMIMEHeaderKey a ≠ k) →
      sentValue headers k order acc = acc := by
  induction order with
  | nil => intro acc _; rfl
  | cons a order ih =>
    intro acc h
    have ha : textproto.CanonicalMIMEHeaderKey a ≠ k := h a (List.mem_cons_self _ _)
    have hrest : ∀ b ∈ order, textproto.CanonicalMIMEHeaderKey b ≠ k :=
      fun b hb => h b (List.mem_cons_of_mem _ hb)
    simp only [sentValue]
    cases GoMap.get headers a with
    | none => exact ih acc hrest
    | some v => simp only [ha, if_false]; exact ih acc hrest

/-- When every custom header with the canonical name `k` has the value `v`, and there is
one, the loop leaves `v` as the value of `k`. -/
theorem sentValue_agree (headers : GoMap GoString) (k v : GoString)
    (order : List GoString) :
    ∀ acc, (∀ b ∈ order, textproto.CanonicalMIMEHeaderKey b = k →
        GoMap.get headers b = some v) →
      sentValue headers k order acc =
        if ∃ b ∈ order, textproto.CanonicalMIMEHeaderKey b = k then some v else acc := by
  induction order with
  | nil => intro acc _; simp [sentValue]
  | cons a order ih =>
    intro acc h
    have hrest : ∀ b ∈ order, textproto.CanonicalMIMEHeaderKey b = k →
        GoMap.get headers b = some v :=
      fun b hb => h b (List.mem_cons_of_mem _ hb)
    by_cases hak : textproto.CanonicalMIMEHeaderKey a = k
    · have hav := h a (List.mem_cons_self _ _) hak
      simp only [sentValue, hav, hak, if_true]
      rw [ih (some v) hrest]
      have hex : ∃ b ∈ a :: order, textproto.CanonicalMIMEHeaderKey b = k :=
        ⟨a, List.mem_cons_self _ _, hak⟩
      rw [if_pos hex]
      split_ifs <;> rfl
    · have hiff : (∃ b ∈ a :: order, textproto.CanonicalMIMEHeaderKey b = k) ↔
          ∃ b ∈ order, textproto.CanonicalMIMEHeaderKey b = k := by
        constructor
        · rintro ⟨b, hb, hbk⟩
          rcases List.mem_cons.mp hb with hb | hb
          · rw [hb] at hbk; exact absurd hbk hak
          · exact ⟨b, hb, hbk⟩
        · rintro ⟨b, hb, hbk⟩
          exact ⟨b, List.mem_cons_of_mem _ hb, hbk⟩
      simp only [sentValue]
      cases GoMap.get headers a with
      | none => rw [ih acc hrest]; simp only [hiff]
      | some w => simp only [hak, if_false]; rw [ih acc hrest]; simp only [hiff]

/-- The value the loop leaves for `k` is the value before the loop, when no custom header
with a value has the canonical name `k`, and otherwise the value of one of the custom
headers with that canonical name. -/
theorem sentValue_cases (headers : GoMap GoString) (k : GoString) (order : List GoString) :
    ∀ acc,
      (sentValue headers k order acc = acc ∧
        ∀ a ∈ order, ¬ (textproto.CanonicalMIMEHeaderKey a = k ∧
          GoMap.get headers a ≠ none)) ∨
      (∃ a ∈ order, ∃ v, textproto.CanonicalMIMEHeaderKey a = k ∧
        GoMap.get headers a = some v ∧ sentValue headers k order acc = some v) := by
  induction order with
  | nil => intro acc; left; exact ⟨rfl, by simp⟩
  | cons a order ih =>
    intro acc
    cases ha : GoMap.get headers a with
    | none =>
      simp only [sentValue, ha]
      rcases ih acc with ⟨h1, h2⟩ | ⟨b, hb, v, h1, h2, h3⟩
      · left
        refine ⟨h1, ?_⟩
        intro b hb
        rcases List.mem_cons.mp hb with hb | hb
        · rw [hb, ha]; simp
        · exact h2 b hb
      · right
        exact ⟨b, List.mem_cons_of_mem _ hb, v, h1, h2, h3⟩
    | some w =>
      by_cases hak : textproto.CanonicalMIMEHeaderKey a = k
      · simp only [sentValue, ha, hak, if_true]
        right
        rcases ih (some w) with ⟨h1, _⟩ | ⟨b, hb, v, h1, h2, h3⟩
        · exact ⟨a, List.mem_cons_self _ _, w, hak, ha, h1⟩
        · exact ⟨b, List.mem_cons_of_mem _ hb, v, h1, h2, h3⟩
      · simp only [sentValue, ha, hak, if_false]
        rcases ih acc with ⟨h1, h2⟩ | ⟨b, hb, v, h1, h2, h3⟩
        · left
          refine ⟨h1, ?_⟩
          intro b hb
          rcases List.mem_cons.mp hb with hb | hb
          · rw [hb]; exact fun h => hak h.1
          · exact h2 b hb
        · right
          exact ⟨b, List.mem_cons_of_mem _ hb, v, h1, h2, h3⟩

end bootstrap

namespace bootstrap

/-- The calls of the loop over the custom headers write no status and no body. -/
theorem observe_headerCalls (headers : GoMap GoString) (order : List GoString)
    (rest : List http.Call) :
    http.statusSent (headerCalls headers order ++ rest) = http.statusSent rest ∧
    http.statusCalls (headerCalls headers order ++ rest) = http.statusCalls rest ∧
    http.body (headerCalls headers order ++ rest) = http.body rest := by
  induction order with
  | nil => simp [headerCalls]
  | cons k order ih =>
    cases hk : GoMap.get headers k with
    | none =>
      have e : headerCalls headers (k :: order) = headerCalls headers order := by
        simp [headerCalls, hk]
      rw [e]; exact ih
    | some v =>
      have e : headerCalls headers (k :: order) =
          http.Call.SetHeader k v :: headerCalls headers order := by
        simp [headerCalls, hk]
      rw [e]
      simpa [http.statusSent, http.statusCalls, http.body] using ih

/-- The calls `json.Encoder.Encode` makes for a response, and whether it succeeds. -/
theorem Encode_calls (w : http.ResponseWriter) (response : EndpointResponse) :
    (json.Encode w response).1.calls = w.calls ++ encodeCalls response w.broken ∧
    (json.Encode w response).2 = (response.marshal.isSome && !w.broken) := by
  unfold json.Encode encodeCalls
  cases response.marshal with
  | none => simp
  | some doc => cases hb : w.broken <;> simp [http.ResponseWriter.Write, hb]

/-- The calls `encodeResponse` makes on a writer on which nothing has been called, and
whether it succeeds. -/
theorem encodeResponseIn_calls (order : List GoString) (response : EndpointResponse)
    (broken : Bool) :
    (encodeResponseIn order (freshWriter broken) response).1.calls =
      http.Call.SetHeader (str "Content-Type") (str "application/json") ::
        (match response.rich with
         | some ar =>
           headerCalls ar.Headers order ++ http.Call.WriteHeader ar.Code ::
             (if ar.Empty then [] else encodeCalls response broken)
         | none => encodeCalls response broken) ∧
    (encodeResponseIn order (freshWriter broken) response).2 =
      (match response.rich with
       | some ar => if ar.Empty then true else (response.marshal.isSome && !broken)
       | none => (response.marshal.isSome && !broken)) := by
  unfold encodeResponseIn
  cases hr : response.rich with
  | none =>
    simp only
    obtain ⟨h1, h2⟩ := Encode_calls
      ((freshWriter broken).SetHeader (str "Content-Type") contentType) response
    rw [h1, h2]
    exact ⟨rfl, rfl⟩
  | some ar =>
    simp only
    obtain ⟨s1, s2⟩ := setHeaders_calls ar.Headers order
      ((freshWriter broken).SetHeader (str "Content-Type") contentType)
    cases he : ar.Empty with
    | true =>
      simp only [if_true, http.ResponseWriter.WriteHeader, s1]
      exact ⟨by simp [freshWriter, http.ResponseWriter.SetHeader, contentType], trivial⟩
    | false =>
      obtain ⟨h1, h2⟩ := Encode_calls
        ((setHeaders ar.Headers order
          ((freshWriter broken).SetHeader (str "Content-Type") contentType)).WriteHeader
          ar.Code) response
      simp only [Bool.false_eq_true, if_false]
      rw [h1, h2]
      simp only [http.ResponseWriter.WriteHeader, s1, s2]
      exact ⟨by simp [freshWriter, http.ResponseWriter.SetHeader, contentType], rfl⟩

/-- The encoder of the provisioning service is the one of the bootstrap service. -/
theorem provision_encodeResponseIn_eq (order : List GoString) (w : http.ResponseWriter)
    (response : EndpointResponse) :
    provision.encodeResponseIn order w response = encodeResponseIn order w response := rfl

end bootstrap

namespace bootstrap

/-- The headers sent for a rich response, by canonical name: the value `sentValue`
computes from the default content type. -/
theorem headerSent_rich (headers : GoMap GoString) (order : List GoString) (code : Nat)
    (rest : List http.Call) (k : GoString) :
    GoMap.get (http.headerSent
      (http.Call.SetHeader (str "Content-Type") (str "application/json") ::
        (headerCalls headers order ++ http.Call.WriteHeader code :: rest))) k =
      sentValue headers k order
        (if k = str "Content-Type" then some (str "application/json") else none) := by
  have hct : textproto.CanonicalMIMEHeaderKey (str "Content-Type") = str "Content-Type" := by
    decide
  unfold http.headerSent
  rw [http.headerSentFrom, headerSentFrom_headerCalls, GoMap.get_set, hct]
  congr 1
  by_cases hk : k = str "Content-Type"
  · simp [hk]
  · have hk1 : ¬ str "Content-Type" = k := fun e => hk e.symm
    simp [hk, hk1, GoMap.get]

/-- C18: for a response with the rich-response capability, `encodeResponse`, of the
bootstrap and of the provisioning service, sets `Content-Type` to `application/json`,
then sets every custom header, whatever the order in which the loop visits them, then
writes the status `Code()`, and only then writes a body.  In the headers sent, which
`Header.Set` keeps under canonical names, a name that no custom header has keeps the
default, a custom header whose canonical name no other custom header shares has its
custom value, and a canonical name that custom headers have carries the value of one of
them, so that a custom `Content-Type`, however it is spelled, replaces the default; when
`Empty()` is true it writes no body and succeeds, otherwise it writes the JSON
serialization of the response.  For a response without the capability it sets the
content type and writes the serialization, with no call of `WriteHeader`. -/
theorem encode_response (order : List GoString) (response : EndpointResponse)
    (broken : Bool) :
    (∀ ar, response.rich = some ar → order.Perm (GoMap.keys ar.Headers) →
      (encodeResponseIn order (freshWriter broken) response).1.calls =
        http.Call.SetHeader (str "Content-Type") (str "application/json") ::
          (headerCalls ar.Headers order ++ http.Call.WriteHeader ar.Code ::
            (if ar.Empty then [] else encodeCalls response broken)) ∧
      (∀ k, (∀ a ∈ GoMap.keys ar.Headers, textproto.CanonicalMIMEHeaderKey a ≠ k) →
        GoMap.get
          (http.headerSent (encodeResponseIn order (freshWriter broken) response).1.calls) k =
          if k = str "Content-Type" then some (str "application/json") else none) ∧
      (∀ a v, GoMap.get ar.Headers a = some v →
        (∀ b ∈ GoMap.keys ar.Headers,
          textproto.CanonicalMIMEHeaderKey b = textproto.CanonicalMIMEHeaderKey a → b = a) →
        GoMap.get
          (http.headerSent (encodeResponseIn order (freshWriter broken) response).1.calls)
          (textproto.CanonicalMIMEHeaderKey a) = some v) ∧
      (∀ k, (∃ a ∈ GoMap.keys ar.Headers, textproto.CanonicalMIMEHeaderKey a = k) →
        ∃ a v, GoMap.get ar.Headers a = some v ∧ textproto.CanonicalMIMEHeaderKey a = k ∧
          GoMap.get
            (http.headerSent (encodeResponseIn order (freshWriter broken) response).1.calls)
            k = some v) ∧
      http.statusSent (encodeResponseIn order (freshWriter broken) response).1.calls =
        some ar.Code ∧
      http.statusCalls (encodeResponseIn order (freshWriter broken) response).1.calls =
        [ar.Code] ∧
      (ar.Empty = true →
        http.body (encodeResponseIn order (freshWriter broken) response).1.calls = [] ∧
        (encodeResponseIn order (freshWriter broken) response).2 = true) ∧
      (ar.Empty = false → ∀ doc, response.marshal = some doc → broken = false →
        http.body (encodeResponseIn order (freshWriter broken) response).1.calls =
          [http.Written.encoded doc] ∧
        (encodeResponseIn order (freshWriter broken) response).2 = true) ∧
      provision.encodeResponseIn order (freshWriter broken) response =
        encodeResponseIn order (freshWriter broken) response) ∧
    (response.rich = none →
      (encodeResponseIn order (freshWriter broken) response).1.calls =
        http.Call.SetHeader (str "Content-Type") (str "application/json") ::
          encodeCalls response broken ∧
      http.statusCalls (encodeResponseIn order (freshWriter broken) response).1.calls = [] ∧
      (∀ doc, response.marshal = some doc → broken = false →
        (encodeResponseIn order (freshWriter broken) response).1.calls =
          [http.Call.SetHeader (str "Content-Type") (str "application/json"),
            http.Call.Write (http.Written.encoded doc)] ∧
        (encodeResponseIn order (freshWriter broken) response).2 = true) ∧
      provision.encodeResponseIn order (freshWriter broken) response =
        encodeResponseIn order (freshWriter broken) response) := by
  obtain ⟨hcalls, hok⟩ := encodeResponseIn_calls order response broken
  constructor
  · intro ar hr hperm
    rw [hr] at hcalls hok
    simp only at hcalls hok
    rw [hcalls, hok]
    obtain ⟨o1, o2, o3⟩ := observe_headerCalls ar.Headers order
      (http.Call.WriteHeader ar.Code :: (if ar.Empty then [] else encodeCalls response broken))
    have hmem : ∀ a, a ∈ order ↔ a ∈ GoMap.keys ar.Headers := fun a => hperm.mem_iff
    have hsent := headerSent_rich ar.Headers order ar.Code
      (if ar.Empty then [] else encodeCalls response broken)
    refine ⟨rfl, ?_, ?_, ?_, ?_, ?_, ?_, ?_, rfl⟩
    · intro k hk
      rw [hsent k]
      exact sentValue_untouched ar.Headers k order _
        (fun a ha => hk a ((hmem a).mp ha))
    · intro a v hav huniq
      have hin : a ∈ order := by
        rw [hmem, GoMap.mem_keys, hav]; simp
      rw [hsent, sentValue_agree ar.Headers (textproto.CanonicalMIMEHeaderKey a) v order]
      · rw [if_pos ⟨a, hin, rfl⟩]
      · intro b hb hbk
        rw [huniq b ((hmem b).mp hb) hbk]
        exact hav
    · rintro k ⟨a, ha, hak⟩
      rw [hsent k]
      have hsome : GoMap.get ar.Headers a ≠ none := (GoMap.mem_keys _ _).mp ha
      rcases sentValue_cases ar.Headers k order
        (if k = str "Content-Type" then some (str "application/json") else none) with
        ⟨_, h2⟩ | ⟨b, _, v, h1, h2, h3⟩
      · exact absurd ⟨hak, hsome⟩ (h2 a ((hmem a).mpr ha))
      · exact ⟨b, v, h2, h1, h3⟩
    · simp only [http.statusSent]
      rw [o1]; rfl
    · simp only [http.statusCalls]
      rw [o2]
      cases ar.Empty <;> simp [http.statusCalls, encodeCalls]
      cases response.marshal <;> cases broken <;> simp [http.statusCalls]
    · intro he
      simp only [http.body]
      rw [o3, he]
      simp [http.body]
    · intro he doc hd hb
      simp only [http.body]
      rw [o3, he, hb]
      simp [http.body, encodeCalls, hd]
  · intro hr
    rw [hr] at hcalls hok
    simp only at hcalls hok
    rw [hcalls, hok]
    refine ⟨rfl, ?_, ?_, rfl⟩
    · unfold encodeCalls
      cases response.marshal <;> cases broken <;> simp [http.statusCalls]
    · intro doc hd hb
      simp [encodeCalls, hd, hb]

/-- C18 at a rich response with status 201, a `Location` header and an empty body, at a
plain response, and at a rich response with the custom header `content-type: text/plain`:
the first gets the two headers, the status 201 and no body, the second the content type
and its serialization without an explicit status, and the third is sent with
`Content-Type: text/plain`. -/
theorem encode_response_witness :
    (encodeResponse (freshWriter false) sampleCreated).1.calls =
      [http.Call.SetHeader (str "Content-Type") (str "application/json"),
        http.Call.SetHeader (str "Location") (str "/things/configs/1"),
        http.Call.WriteHeader 201] ∧
    http.statusCalls (encodeResponse (freshWriter false) samplePlain).1.calls = [] ∧
    GoMap.get (http.headerSent (encodeResponse (freshWriter false) sampleTextual).1.calls)
      (str "Content-Type") = some (str "text/plain") :=
  ⟨((encode_response (GoMap.keys [(str "Location", str "/things/configs/1")]) sampleCreated
      false).1 _ rfl (List.Perm.refl _)).1,
    ((encode_response [] samplePlain false).2 rfl).2.1,
    ((encode_response (GoMap.keys [(str "content-type", str "text/plain")]) sampleTextual
      false).1 _ rfl (List.Perm.refl _)).2.2.1 (str "content-type") (str "text/plain")
      (by decide) (by decide)⟩

end bootstrap

/-! ### C11: parsing a parsed filter again -/

/-- Looking a key up in the concatenation of two maps. -/
theorem GoMap.get_append {α : Type} (m n : GoMap α) (k : GoString) :
    GoMap.get (m ++ n) k =
      match GoMap.get m k with
      | some v => some v
      | none => GoMap.get n k := by
  induction m with
  | nil => rfl
  | cons e rest ih =>
    obtain ⟨a, v⟩ := e
    by_cases h : a = k
    · simp [GoMap.get, h]
    · simp [GoMap.get, h, ih]

/-- Looking a key up in a map whose values have been wrapped in one-element lists. -/
theorem GoMap.get_singletons (m : GoMap GoString) (k : GoString) :
    GoMap.get (m.map (fun e => (e.1, [e.2]))) k = (GoMap.get m k).map (fun v => [v]) := by
  induction m with
  | nil => rfl
  | cons e rest ih =>
    obtain ⟨a, v⟩ := e
    by_cases h : a = k
    · simp [GoMap.get, h]
    · simp [GoMap.get, h, ih]

namespace bootstrap

/-- Lower-casing twice is lower-casing once, given that the branch of `strings.ToLower`
for strings with a non-ASCII byte returns a string that lower-casing leaves as it is. -/
theorem ToLower_idem (mapLower : GoString → GoString)
    (hlow : ∀ s : GoString, (∃ c ∈ s, 0x80 ≤ c) →
      strings.ToLower mapLower (mapLower s) = mapLower s) (s : GoString) :
    strings.ToLower mapLower (strings.ToLower mapLower s) = strings.ToLower mapLower s := by
  by_cases hs : ∀ c ∈ s, c < 0x80
  · have hA : byte 'A' = 65 := by decide
    have hZ : byte 'Z' = 90 := by decide
    rw [ToLower_ascii mapLower s hs]
    have hs1 : ∀ c ∈ s.map (fun c => if byte 'A' ≤ c ∧ c ≤ byte 'Z' then c + 32 else c),
        c < 0x80 := by
      intro c hc
      obtain ⟨d, hd, rfl⟩ := List.mem_map.mp hc
      have := hs d hd
      rw [hA, hZ]
      split_ifs with h <;> omega
    rw [ToLower_ascii mapLower _ hs1, List.map_map]
    apply List.map_congr_left
    intro c _
    simp only [Function.comp, hA, hZ]
    split_ifs <;> omega
  · have hex : ∃ c ∈ s, 0x80 ≤ c := by
      by_contra hn
      apply hs
      intro c hc
      by_contra hlt
      exact hn ⟨c, hc, by omega⟩
    have hnot : s.all (fun c => decide (c < 0x80)) = false := by
      rw [Bool.eq_false_iff]
      intro hall
      rw [List.all_eq_true] at hall
      apply hs
      intro c hc
      simpa using hall c hc
    have e : strings.ToLower mapLower s = mapLower s := by
      unfold strings.ToLower
      simp [hnot]
    rw [e]
    exact hlow s hex

/-- The query parameters written back from a filter, key by key. -/
theorem get_toValues (f : Filter) (k : GoString) :
    GoMap.get f.toValues k =
      match GoMap.get f.FullMatch k with
      | some v => some [v]
      | none => (GoMap.get f.PartialMatch k).map (fun v => [v]) := by
  unfold Filter.toValues
  rw [GoMap.get_append, GoMap.get_singletons, GoMap.get_singletons]
  cases GoMap.get f.FullMatch k <;> rfl

/-- C11: filter parsing is idempotent.  Writing the entries of `parseFilter(q)` back as
query parameters and parsing them again, whatever the order in which either loop visits
the keys, yields a filter that binds the same keys to the same values in both mappings.
The branch of `strings.ToLower` for non-ASCII strings, which reads the Unicode tables, is
taken to return a string that lower-casing leaves as it is. -/
theorem parseFilter_idempotent (mapLower : GoString → GoString)
    (order order1 : List GoString) (values : url.Values)
    (hlow : ∀ s : GoString, (∃ c ∈ s, 0x80 ≤ c) →
      strings.ToLower mapLower (mapLower s) = mapLower s)
    (hperm : order.Perm (GoMap.keys values))
    (hperm1 : order1.Perm (GoMap.keys (parseFilterIn mapLower order values).toValues)) :
    Filter.same
      (parseFilterIn mapLower order1 (parseFilterIn mapLower order values).toValues)
      (parseFilterIn mapLower order values) := by
  intro k
  obtain ⟨hF, hP⟩ := parseFilterIn_get mapLower order values hperm k
  obtain ⟨hF1, hP1⟩ := parseFilterIn_get mapLower order1
    (parseFilterIn mapLower order values).toValues hperm1 k
  have hdisj : k ∈ fullMatch → k ∉ partialMatch := by
    intro h1 h2
    have h3 : k = str "name" := by simpa [partialMatch] using h2
    rw [h3] at h1
    revert h1
    decide
  have hget := get_toValues (parseFilterIn mapLower order values) k
  rw [hF1, hP1]
  constructor
  · by_cases hk : k ∈ fullMatch
    · have hkp : ¬ (k ∈ partialMatch ∧ GoMap.get values k ≠ none) := fun h => hdisj hk h.1
      rw [hF] at hget ⊢
      rw [hP, if_neg hkp] at hget
      by_cases hv : GoMap.get values k ≠ none
      · have hpos : k ∈ fullMatch ∧ GoMap.get values k ≠ none := ⟨hk, hv⟩
        rw [if_pos hpos] at hget ⊢
        simp only at hget
        have hne : GoMap.get (parseFilterIn mapLower order values).toValues k ≠ none := by
          rw [hget]; simp
        rw [if_pos ⟨hk, hne⟩]
        simp [url.Values.Get, hget]
      · have hneg : ¬ (k ∈ fullMatch ∧ GoMap.get values k ≠ none) := fun h => hv h.2
        rw [if_neg hneg] at hget ⊢
        simp only [Option.map_none'] at hget
        have hnn : ¬ (k ∈ fullMatch ∧
            GoMap.get (parseFilterIn mapLower order values).toValues k ≠ none) := by
          rw [hget]; simp
        rw [if_neg hnn]
    · have h1 : ¬ (k ∈ fullMatch ∧
          GoMap.get (parseFilterIn mapLower order values).toValues k ≠ none) :=
        fun h => hk h.1
      have h2 : ¬ (k ∈ fullMatch ∧ GoMap.get values k ≠ none) := fun h => hk h.1
      rw [if_neg h1, hF, if_neg h2]
  · by_cases hk : k ∈ partialMatch
    · have hkf : ¬ (k ∈ fullMatch ∧ GoMap.get values k ≠ none) :=
        fun h => hdisj h.1 hk
      rw [hP] at hget ⊢
      rw [hF, if_neg hkf] at hget
      by_cases hv : GoMap.get values k ≠ none
      · have hpos : k ∈ partialMatch ∧ GoMap.get values k ≠ none := ⟨hk, hv⟩
        rw [if_pos hpos] at hget ⊢
        simp only [Option.map_some'] at hget
        have hne : GoMap.get (parseFilterIn mapLower order values).toValues k ≠ none := by
          rw [hget]; simp
        rw [if_pos ⟨hk, hne⟩]
        simp only [url.Values.Get, hget]
        rw [ToLower_idem mapLower hlow]
      · have hneg : ¬ (k ∈ partialMatch ∧ GoMap.get values k ≠ none) := fun h => hv h.2
        rw [if_neg hneg] at hget ⊢
        simp only [Option.map_none'] at hget
        have hnn : ¬ (k ∈ partialMatch ∧
            GoMap.get (parseFilterIn mapLower order values).toValues k ≠ none) := by
          rw [hget]; simp
        rw [if_neg hnn]
    · have h1 : ¬ (k ∈ partialMatch ∧
          GoMap.get (parseFilterIn mapLower order values).toValues k ≠ none) :=
        fun h => hk h.1
      have h2 : ¬ (k ∈ partialMatch ∧ GoMap.get values k ≠ none) := fun h => hk h.1
      rw [if_neg h1, hP, if_neg h2]

/-- C11 at the sample query `name=Foo&name=Bar&state=1&...`: parsing it gives
`FullMatch = {state: 1, external_id: Ab}` and `PartialMatch = {name: foo}`, and parsing
these entries again gives the same bindings. -/
theorem parseFilter_idempotent_witness :
    Filter.same
      (parseFilterIn (fun s => s)
        (GoMap.keys (parseFilterIn (fun s => s) (GoMap.keys sampleQuery) sampleQuery).toValues)
        (parseFilterIn (fun s => s) (GoMap.keys sampleQuery) sampleQuery).toValues)
      (parseFilterIn (fun s => s) (GoMap.keys sampleQuery) sampleQuery) ∧
    GoMap.get (parseFilter (fun s => s) sampleQuery).PartialMatch (str "name")
      = some (str "foo") :=
  ⟨parseFilter_idempotent (fun s => s) _ _ sampleQuery
      (by
        intro s hs
        obtain ⟨c, hc, hge⟩ := hs
        have hnot : s.all (fun c => decide (c < 0x80)) = false := by
          rw [Bool.eq_false_iff]
          intro hall
          rw [List.all_eq_true] at hall
          have := hall c hc
          simp at this
          omega
        unfold strings.ToLower
        simp [hnot])
      (List.Perm.refl _) (List.Perm.refl _),
    by decide⟩

end bootstrap

/-! ### C21: what `validate` changes -/

/-- The request `listResourcesReq.validate` leaves behind: the limit is replaced by
`defLimit` when the token is non-empty and the limit is zero, and nothing else changes. -/
theorem listResources_after (r : listResourcesReq) :
    r.validate.1 =
      if r.token ≠ [] ∧ r.pageMetadata.Limit = 0 then r.setLimit defLimit else r := by
  by_cases ht : r.token = []
  · simp [listResourcesReq.validate, ht]
  · by_cases h0 : r.pageMetadata.Limit = 0
    · have hw : r.withDefLimit = r.setLimit defLimit := by
        simp [listResourcesReq.withDefLimit, listResourcesReq.setLimit, h0]
      have hc : r.token ≠ [] ∧ r.pageMetadata.Limit = 0 := ⟨ht, h0⟩
      rw [if_pos hc]
      simp only [listResourcesReq.validate, ht, if_false, hw]
      split_ifs <;> rfl
    · have hw : r.withDefLimit = r := by
        simp [listResourcesReq.withDefLimit, h0]
      have hc : ¬ (r.token ≠ [] ∧ r.pageMetadata.Limit = 0) := fun h => h0 h.2
      rw [if_neg hc]
      simp only [listResourcesReq.validate, ht, if_false, hw]
      split_ifs <;> rfl

/-- C21: `listResourcesReq.validate` is the only validator that changes its request, and
it changes only the limit.  After the call the token and every field of the page metadata
other than `Limit` are as before; `Limit` is changed exactly when the token is non-empty
and `Limit` was zero, and then becomes the default 10, whatever error the call returns;
with an empty token the request is left as it was.  Every other validator has a value
receiver and leaves its request as it was. -/
theorem validate_changes_limit_only (r : listResourcesReq) :
    (r.validate.1.token = r.token ∧
      r.validate.1.pageMetadata.Total = r.pageMetadata.Total ∧
      r.validate.1.pageMetadata.Offset = r.pageMetadata.Offset ∧
      r.validate.1.pageMetadata.Name = r.pageMetadata.Name ∧
      r.validate.1.pageMetadata.Order = r.pageMetadata.Order ∧
      r.validate.1.pageMetadata.Dir = r.pageMetadata.Dir ∧
      r.validate.1.pageMetadata.Metadata = r.pageMetadata.Metadata ∧
      r.validate.1.pageMetadata.Disconnected = r.pageMetadata.Disconnected) ∧
    (r.validate.1.pageMetadata.Limit ≠ r.pageMetadata.Limit ↔
      r.token ≠ [] ∧ r.pageMetadata.Limit = 0) ∧
    (r.token ≠ [] → r.pageMetadata.Limit = 0 →
      r.validate.1 = r.setLimit 10 ∧ r.validate.1.pageMetadata.Limit = 10) ∧
    (r.token = [] → r.validate.1 = r) ∧
    (r.pageMetadata.Limit ≠ 0 → r.validate.1 = r) ∧
    (∀ q : Request, (∀ l, q ≠ Request.listResources l) → q.afterValidate = q) ∧
    (Request.listResources r).afterValidate = Request.listResources r.validate.1 := by
  have hafter := listResources_after r
  have hdef : defLimit = 10 := rfl
  refine ⟨?_, ?_, ?_, ?_, ?_, ?_, rfl⟩
  · rw [hafter]
    split_ifs <;> exact ⟨rfl, rfl, rfl, rfl, rfl, rfl, rfl, rfl⟩
  · rw [hafter]
    constructor
    · intro hne
      by_contra hc
      rw [if_neg hc] at hne
      exact hne rfl
    · intro hc
      rw [if_pos hc]
      simp only [listResourcesReq.setLimit, hdef, hc.2]
      decide
  · intro ht h0
    have hc : r.token ≠ [] ∧ r.pageMetadata.Limit = 0 := ⟨ht, h0⟩
    rw [hafter, if_pos hc, hdef]
    exact ⟨rfl, rfl⟩
  · intro ht
    have hc : ¬ (r.token ≠ [] ∧ r.pageMetadata.Limit = 0) := fun h => h.1 ht
    rw [hafter, if_neg hc]
  · intro h0
    have hc : ¬ (r.token ≠ [] ∧ r.pageMetadata.Limit = 0) := fun h => h0 h.2
    rw [hafter, if_neg hc]
  · intro q hq
    cases q <;> first | rfl | exact absurd rfl (hq _)

/-- C21 at a listing with a token, no limit and the sort field `created`: the call fails
with `ErrMalformedEntity` and has set the limit to 10; the same listing without a token is
left with the limit 0. -/
theorem validate_changes_limit_only_witness :
    sampleUnsortedList.validate.2 = some ErrMalformedEntity ∧
    sampleUnsortedList.validate.1.pageMetadata.Limit = 10 ∧
    sampleUnsortedList.validate.1.pageMetadata.Order = str "created" ∧
    (listResourcesReq.validate { sampleUnsortedList with token := [] }).1.pageMetadata.Limit
      = 0 :=
  ⟨by decide,
    ((validate_changes_limit_only sampleUnsortedList).2.2.1 (by decide) rfl).2,
    (validate_changes_limit_only sampleUnsortedList).1.2.2.2.2.1,
    congrArg (fun q => q.pageMetadata.Limit)
      ((validate_changes_limit_only { sampleUnsortedList with token := [] }).2.2.2.1 rfl)⟩
